import Mathlib

/-!
# caQtDM archiveHTTP plugin: windowed merge and HTTP retrieval

A shallow embedding of `ArchiveHTTP_Plugin` (archivehttp_plugin.cpp): the merge
`updateCartesianAppended` and the request dispatcher (`Callback_UpdateInterface`,
`handleResults`, `Callback_AbortOutstandingRequests`, `pvClearMonitor`), and of
`HttpRetrieval` (httpretrieval.cpp).

Conventions of the embedding.
* A C++ `double` is a rational number (`ℚ`) with at most 53 significant bits.
  Each `double` operation of the source (`+`, `-`, `*`, `/`, and the reading of a
  decimal literal) gives the exact result rounded to the nearest such number, ties
  to even (IEEE 754 binary64, one rounding per operation, no fused operations and no
  extended precision).  The exponent range is not bounded: NaN, infinities, overflow
  and subnormal numbers are not represented.  An `int` converts to `double`
  exactly.
* Element counts (`int`) are mathematical integers; a `QVector` holds fewer than
  `2^31` elements, and sums of counts are taken without wrap-around.  The `int`
  arithmetic on decoded JSON numbers is taken modulo `2^32` (two's complement).
* A heap block of doubles (`edata.dataB`) is the list of doubles it holds.
* The knob store (`MutexKnobData`) is outside the sources: a merge is described by
  the sequence of `SetMutexKnobDataReceived` calls it performs.
-/

namespace CaQtDM

/-! ## Arithmetic of `double` -/

/-- The bisection behind `natLog2`; the first argument bounds the number of steps. -/
def log2Loop : Nat → Nat → Nat
  | 0, _ => 0
  | fuel + 1, n => if 2 ≤ n then log2Loop fuel (n / 2) + 1 else 0

/-- The position of the highest set bit of `n` (`0` for `n = 0`). -/
def natLog2 (n : Nat) : Nat := log2Loop n n

/-- The number `2 ^ e` for an integer `e`. -/
def pow2 (e : Int) : ℚ :=
  if 0 ≤ e then ((2 ^ e.toNat : Nat) : ℚ) else 1 / ((2 ^ (-e).toNat : Nat) : ℚ)

/-- The integer nearest to `q`, the even one when two are equally near. -/
def roundHalfEven (q : ℚ) : Int :=
  if q - ⌊q⌋ < 1 / 2 then ⌊q⌋
  else if 1 / 2 < q - ⌊q⌋ then ⌊q⌋ + 1
  else if ⌊q⌋ % 2 = 0 then ⌊q⌋ else ⌊q⌋ + 1

/-- The binary exponent of `q ≠ 0`: the integer `e` with `2 ^ e ≤ |q| < 2 ^ (e + 1)`. -/
def binaryExponent (q : ℚ) : Int :=
  if pow2 ((natLog2 q.num.natAbs : Int) - (natLog2 q.den : Int)) ≤ |q| then
    (natLog2 q.num.natAbs : Int) - (natLog2 q.den : Int)
  else (natLog2 q.num.natAbs : Int) - (natLog2 q.den : Int) - 1

/-- The `double` nearest to the real number `q`: IEEE 754 binary64 rounding to
nearest, ties to even, with 53 significant bits.  The exponent range is taken as
unbounded: overflow and the reduced precision of subnormal numbers are not
represented. -/
def toDouble (q : ℚ) : ℚ :=
  if q = 0 then 0
  else (roundHalfEven (q / pow2 (binaryExponent q - 52)) : ℚ) * pow2 (binaryExponent q - 52)

/-- The `double` sum `a + b`. -/
def fadd (a b : ℚ) : ℚ := toDouble (a + b)

/-- The `double` difference `a - b`. -/
def fsub (a b : ℚ) : ℚ := toDouble (a - b)

/-- The `double` product `a * b`. -/
def fmul (a b : ℚ) : ℚ := toDouble (a * b)

/-- The `double` quotient `a / b`. -/
def fdiv (a b : ℚ) : ℚ := toDouble (a / b)

/-- A number with at most 53 significant bits. -/
def IsDouble (d : ℚ) : Prop :=
  ∃ m k : Int, |m| < 2 ^ 53 ∧ d = (m : ℚ) * (2 : ℚ) ^ k

/-! ## WindowMerge: `ArchiveHTTP_Plugin::updateCartesianAppended` -/

/-- The `struct timeb` filled in by `ftime`. -/
structure timeb where
  time : Int
  millitm : Nat

/-- The wall time in seconds: `(double) now.time + (double) now.millitm / (double) 1000`. -/
def timeb.seconds (now : timeb) : ℚ :=
  fadd (toDouble (now.time : ℚ)) (fdiv (now.millitm : ℚ) 1000)

/-- The loop of `std::upper_bound` (bisection over `[first, first + len)`):
`half = len >> 1; middle = first + half; if (val < *middle) len = half;
else { first = middle + 1; len = len - half - 1; }`.  The first argument bounds the
number of iterations. -/
def upperBoundLoop (xs : List ℚ) (val : ℚ) : Nat → Nat → Nat → Nat
  | 0, first, _ => first
  | fuel + 1, first, len =>
    if len = 0 then first
    else
      let half := len / 2
      let middle := first + half
      if val < xs.getD middle 0 then upperBoundLoop xs val fuel first half
      else upperBoundLoop xs val fuel (middle + 1) (len - half - 1)

/-- The offset returned by `std::upper_bound(xs.begin(), xs.end(), val)`; the range
length is halved at least once per iteration, so `xs.length` iterations suffice. -/
def upper_bound (xs : List ℚ) (val : ℚ) : Nat :=
  upperBoundLoop xs val xs.length 0 xs.length

/-- The field types of `edata.fieldtype`; only `caDOUBLE` is written here. -/
inductive FieldType where
  | caDOUBLE
  | other (code : Nat)
  deriving DecidableEq

/-- The fields of `knobData::edata` used by the merge. -/
structure epicsData where
  fieldtype : FieldType
  connected : Bool
  accessR : Bool
  accessW : Bool
  monitorCount : Int
  fec : String
  valueCount : Int
  dataSize : Nat
  dataB : List ℚ
  deriving DecidableEq

/-- A copy of a slot of the knob store, as returned by `GetMutexKnobData`. -/
structure knobData where
  index : Int
  edata : epicsData
  deriving DecidableEq

/-- The fields of `indexes` read by the merge. -/
structure indexes where
  indexX : Int
  indexY : Int
  secondsPast : Int
  deriving DecidableEq

/-- The `sizeof(double)` factor between element counts and byte sizes. -/
def sizeofDouble : Nat := 8

/-- The `QVector<double>::resize`: truncate, or pad with zeros. -/
def resize (xs : List ℚ) (n : Nat) : List ℚ :=
  xs.take n ++ List.replicate (n - xs.length) 0

/-- The `memcpy(dst, src, nbytes)` on arrays of doubles: the first `nbytes / 8`
elements of `dst` are replaced by those of `src`.  The result is `none` when
`nbytes` is not a whole number of doubles or when the copy would read past the end
of `src` or write past the end of `dst`. -/
def memcpy (dst src : List ℚ) (nbytes : Nat) : Option (List ℚ) :=
  if nbytes % sizeofDouble = 0 ∧ nbytes / sizeofDouble ≤ src.length
      ∧ nbytes / sizeofDouble ≤ dst.length then
    some (src.take (nbytes / sizeofDouble) ++ dst.drop (nbytes / sizeofDouble))
  else none

/-- The `qstrncpy(dst, src, len)`: at most `len - 1` characters are copied. -/
def qstrncpy (src : String) (len : Nat) : String :=
  String.mk (src.data.take (len - 1))

/-- How a call of `updateCartesianAppended` ends, with the knob data handed to
`SetMutexKnobDataReceived` up to that point, in call order. -/
inductive Outcome where
  /-- The function returned to its caller. -/
  | returned (received : List knobData)
  /-- The statement `throw;` was executed after a failed `realloc`. -/
  | rethrow (received : List knobData)
  /-- A `memcpy` ran past the end of one of its arrays. -/
  | overrun (received : List knobData)
  deriving DecidableEq

/-- The metadata update at the head of each half (lines 252-257 and 289-294). -/
def touch (e : epicsData) (backend : String) (fecSize : Nat) : epicsData :=
  { e with
    fieldtype := FieldType.caDOUBLE
    connected := true
    accessR := true
    accessW := false
    monitorCount := e.monitorCount + 1
    fec := qstrncpy backend fecSize }

/-- Lines 258-272: reuse of the stored time values.  Returns the stored values read
back, `offsetOfFirstNeededValue`, the updated `numberOfValues` and `XValues`. -/
def reuseX (e : epicsData) (startSeconds : ℚ) (numberOfValues : Int) (XValues : List ℚ) :
    Option (List ℚ × Int × Int × List ℚ) :=
  if 0 < e.valueCount then
    match memcpy (resize [] e.valueCount.toNat) e.dataB e.dataSize with
    | none => none
    | some alreadyStoredValues =>
      let offsetOfFirstNeededValue := upper_bound alreadyStoredValues (fmul startSeconds 1000)
      let stillUsedValues := alreadyStoredValues.drop offsetOfFirstNeededValue
      some (alreadyStoredValues, (offsetOfFirstNeededValue : Int),
        numberOfValues + stillUsedValues.length, stillUsedValues ++ XValues)
  else some ([], -1, numberOfValues, XValues)

/-- Lines 296-307: reuse of the stored values of the Y slot at the offset found for
the X slot. -/
def reuseY (e : epicsData) (alreadyStoredValues : List ℚ) (offsetOfFirstNeededValue : Int)
    (YValues : List ℚ) : Option (List ℚ) :=
  if 0 < e.valueCount ∧ offsetOfFirstNeededValue ≠ -1 then
    match memcpy (resize alreadyStoredValues e.valueCount.toNat) e.dataB e.dataSize with
    | none => none
    | some alreadyStoredValues =>
      if offsetOfFirstNeededValue.toNat ≤ alreadyStoredValues.length then
        some (alreadyStoredValues.drop offsetOfFirstNeededValue.toNat ++ YValues)
      else none
  else some YValues

/-- Lines 274-285 and 309-318: `realloc` to `numberOfValues * sizeof(double)` bytes,
`throw;` when it fails, then `memcpy` of that many bytes out of `values` and update
of `valueCount`.  `reallocOk` says whether `realloc` returns a non-null block. -/
def fill (k : knobData) (e : epicsData) (reallocOk : Bool) (numberOfValues : Int)
    (values : List ℚ) (received : List knobData) : Outcome ⊕ knobData :=
  let dataSize := numberOfValues.toNat * sizeofDouble
  if reallocOk = false then Sum.inl (Outcome.rethrow received)
  else
    match memcpy (List.replicate numberOfValues.toNat 0) values dataSize with
    | none => Sum.inl (Outcome.overrun received)
    | some dataB =>
      Sum.inr { k with edata := { e with dataSize := dataSize, dataB := dataB,
                                         valueCount := numberOfValues } }

/-- The method `ArchiveHTTP_Plugin::updateCartesianAppended`.  `now` is the reading of
`ftime`, `fecSize` is `sizeof(caqtdm_string_t)`, `reallocX` and `reallocY` say
whether the two `realloc` calls succeed, and `kDataX`, `kDataY` are the copies
returned by `GetMutexKnobData(indexNew.indexX)` and `GetMutexKnobData(indexNew.indexY)`. -/
def updateCartesianAppended (now : timeb) (fecSize : Nat) (reallocX reallocY : Bool)
    (kDataX kDataY : knobData) (numberOfValues : Int) (indexNew : indexes)
    (XValues YValues : List ℚ) (backend : String) : Outcome :=
  if 0 < numberOfValues then
    if kDataX.index = -1 ∨ kDataY.index = -1 then Outcome.returned []
    else
      let endSeconds := now.seconds
      let startSeconds := fsub endSeconds (indexNew.secondsPast : ℚ)
      match reuseX kDataX.edata startSeconds numberOfValues XValues with
      | none => Outcome.overrun []
      | some (alreadyStoredValues, offsetOfFirstNeededValue, numberOfValues, XValues) =>
        match fill kDataX (touch kDataX.edata backend fecSize) reallocX numberOfValues
            XValues [] with
        | Sum.inl stop => stop
        | Sum.inr kX =>
          match reuseY kDataY.edata alreadyStoredValues offsetOfFirstNeededValue YValues with
          | none => Outcome.overrun [kX]
          | some YValues =>
            match fill kDataY (touch kDataY.edata backend fecSize) reallocY numberOfValues
                YValues [kX] with
            | Sum.inl stop => stop
            | Sum.inr kY => Outcome.returned [kX, kY]
  else Outcome.returned []


/-- The knob data handed to `SetMutexKnobDataReceived` during a call, in call order. -/
def Outcome.received : Outcome → List knobData
  | Outcome.returned r => r
  | Outcome.rethrow r => r
  | Outcome.overrun r => r

/-- Whether the call returned to its caller. -/
def Outcome.isReturned : Outcome → Bool
  | Outcome.returned _ => true
  | _ => false

/-- The time array written to the X slot by a call, if the X slot was written. -/
def Outcome.timeArray (o : Outcome) : Option (List ℚ) :=
  (o.received.get? 0).map (fun k => k.edata.dataB)

/-- The value array written to the Y slot by a call, if the Y slot was written. -/
def Outcome.valueArray (o : Outcome) : Option (List ℚ) :=
  (o.received.get? 1).map (fun k => k.edata.dataB)

/-- The slot copy `k` holds exactly the values `vals`: its `valueCount` is their
number, `dataSize` their size in bytes and `dataB` the values. -/
def Holds (k : knobData) (vals : List ℚ) : Prop :=
  k.edata.valueCount = vals.length
    ∧ k.edata.dataSize = vals.length * sizeofDouble ∧ k.edata.dataB = vals

/-- The knob data that a merge hands to the store for slot copy `k` when it writes
the array `values`: refreshed metadata, and count, size and block of `values`. -/
def written (k : knobData) (backend : String) (fecSize : Nat) (values : List ℚ) : knobData :=
  { k with edata :=
      { touch k.edata backend fecSize with
        dataSize := values.length * sizeofDouble
        dataB := values
        valueCount := (values.length : Int) } }

/-- The state of a slot after a call: the knob data received for it, or the
previous copy when the call did not write it (`pos` is 0 for X and 1 for Y). -/
def Outcome.slotAfter (o : Outcome) (pos : Nat) (before : knobData) : knobData :=
  (o.received.get? pos).getD before

/-- The window start in milliseconds that the merge compares stored times with:
`startSeconds * 1000` with `startSeconds = endSeconds - indexNew.secondsPast`, as the
`double` operations of lines 244, 245 and 264 give it. -/
def windowStartMs (now : timeb) (indexNew : indexes) : ℚ :=
  fmul (fsub now.seconds (indexNew.secondsPast : ℚ)) 1000

/-- A slot copy with index `i` holding `vals`, with blank metadata. -/
def slotOf (i : Int) (vals : List ℚ) : knobData :=
  { index := i
    edata := { fieldtype := FieldType.other 0, connected := false, accessR := false,
               accessW := false, monitorCount := 0, fec := "",
               valueCount := vals.length, dataSize := vals.length * sizeofDouble,
               dataB := vals } }

/-! ## HttpRetrieval (httpretrieval.cpp)

The Qt classes are outside the sources; they are represented by what the code reads
from them.  A reply is the record of the attributes, headers and body that
`finishReply` reads; zlib is the trace of the results of its calls; the JSON parser
is a function from bytes to a JSON value.  The flat-schema branch of `finishReply`
(Qt above 5.1) is the one embedded. -/

/-- A `QByteArray`. -/
abbrev QByteArray := List UInt8

/-- A `QString` built from bytes, one character per byte. -/
def bytesToQString (b : QByteArray) : String :=
  String.mk (b.map (fun c => Char.ofNat c.toNat))

/-- A `QJsonValue`. -/
inductive QJsonValue where
  | null
  | bool (b : Bool)
  | double (d : ℚ)
  | string (s : String)
  | array (items : List QJsonValue)
  | object (members : List (String × QJsonValue))
  | undefined

/-- The smallest `int`. -/
def INT_MIN : Int := -2147483648

/-- The largest `int`. -/
def INT_MAX : Int := 2147483647

/-- The result of an `int` operation whose exact value is `z`: reduction modulo
`2^32` into the range of `int`. -/
def wrapInt32 (z : Int) : Int :=
  (z + 2147483648) % 4294967296 - 2147483648

/-- `QJsonValue::toInt()`: the number when the value is a whole number in the range
of `int`, and the default `0` otherwise. -/
def QJsonValue.toInt : QJsonValue → Int
  | QJsonValue.double d => if d.den = 1 ∧ INT_MIN ≤ d.num ∧ d.num ≤ INT_MAX then d.num else 0
  | _ => 0

/-- `QJsonValue::toDouble()`: the number, and the default `0` for any other type. -/
def QJsonValue.toDouble : QJsonValue → ℚ
  | QJsonValue.double d => d
  | _ => 0

/-- `QJsonValue::isDouble()`. -/
def QJsonValue.isDouble : QJsonValue → Bool
  | QJsonValue.double _ => true
  | _ => false

/-- `QJsonValue::toString()`: the string, and the empty default for any other type. -/
def QJsonValue.toQString : QJsonValue → String
  | QJsonValue.string s => s
  | _ => ""

/-- `QJsonValue::toArray()`: the elements, and the empty array for any other type. -/
def QJsonValue.toArray : QJsonValue → List QJsonValue
  | QJsonValue.array items => items
  | _ => []

/-- `QJsonValue::operator[](i)`, that is `toArray().at(i)`: `Undefined` out of bounds. -/
def QJsonValue.at (v : QJsonValue) (i : Nat) : QJsonValue :=
  v.toArray.getD i QJsonValue.undefined

/-- `QJsonDocument::object()`: the members of the document when it is an object,
and the empty object otherwise. -/
def QJsonValue.toObject : QJsonValue → List (String × QJsonValue)
  | QJsonValue.object members => members
  | _ => []

/-- `QJsonObject::value(key)` and `QJsonObject::operator[](key)`: `Undefined` when
the key is absent. -/
def jsonValue (obj : List (String × QJsonValue)) (key : String) : QJsonValue :=
  match obj.find? (fun kv => kv.1 == key) with
  | some kv => kv.2
  | none => QJsonValue.undefined

/-- `QJsonObject::contains(key)`. -/
def jsonContains (obj : List (String × QJsonValue)) (key : String) : Bool :=
  obj.any (fun kv => kv.1 == key)

/-- `QString::contains(pat, Qt::CaseInsensitive)`, with the case folding of
`Char.toLower`. -/
def containsCaseInsensitive (s pat : String) : Bool :=
  (s.data.map Char.toLower).tails.any
    (fun t => (pat.data.map Char.toLower).isPrefixOf t)

/-- The values of `QNetworkReply::NetworkError` named in `parseError`; any other
value is `other`. -/
inductive NetworkError where
  | NoError
  | ConnectionRefusedError
  | RemoteHostClosedError
  | HostNotFoundError
  | TimeoutError
  | OperationCanceledError
  | SslHandshakeFailedError
  | TemporaryNetworkFailureError
  | ProxyConnectionRefusedError
  | ProxyConnectionClosedError
  | ProxyNotFoundError
  | ProxyTimeoutError
  | ProxyAuthenticationRequiredError
  | ContentAccessDenied
  | ContentOperationNotPermittedError
  | ContentNotFoundError
  | AuthenticationRequiredError
  | ProtocolUnknownError
  | ProtocolInvalidOperationError
  | UnknownNetworkError
  | UnknownProxyError
  | UnknownContentError
  | ProtocolFailure
  | other (code : Nat)
  deriving DecidableEq

/-- What `finishReply` reads from the `QNetworkReply` it is given. -/
structure QNetworkReply where
  /-- The value of `attribute(HttpStatusCodeAttribute).toInt()` (0 when the attribute is unset). -/
  status : Int
  /-- The value of `attribute(HttpReasonPhraseAttribute).toString()`. -/
  reasonPhrase : String
  /-- The value of `error()`. -/
  error : NetworkError
  /-- The value of `rawHeader("location")`. -/
  location : String
  /-- The result of `readAll()`. -/
  body : QByteArray
  deriving DecidableEq

/-- The results of the zlib calls made by `gUncompress` on one input: whether an
exception escapes, the return code of `inflateInit2`, and for each call of `inflate`
its return code with the bytes it wrote into the chunk buffer. -/
structure ZlibRun where
  raises : Bool
  initRet : Int
  steps : List (Int × QByteArray)

/-- What `finishReply` takes from its surroundings: the reading of `ftime`, zlib, the
JSON parser (`none` when `QJsonDocument::fromJson` raises), and the outcome of the
test in the default branch of `parseError`. -/
structure Env where
  now : timeb
  zlib : QByteArray → ZlibRun
  fromJson : QByteArray → Option QJsonValue
  teapot : NetworkError → Bool

/-- The zlib return code `Z_OK`. -/
def Z_OK : Int := 0

/-- The zlib return code `Z_NEED_DICT`. -/
def Z_NEED_DICT : Int := 2

/-- The zlib return code `Z_DATA_ERROR`. -/
def Z_DATA_ERROR : Int := -3

/-- The zlib return code `Z_MEM_ERROR`. -/
def Z_MEM_ERROR : Int := -4

/-- The size of the chunk buffer of `gUncompress`. -/
def CHUNK_SIZE : Nat := 1024

/-- The `do ... while (strm.avail_out == 0)` loop of `gUncompress` over the results
of the successive `inflate` calls. -/
def inflateLoop : List (Int × QByteArray) → QByteArray → QByteArray
  | [], result => result
  | (ret, out) :: rest, result =>
    if ret = Z_NEED_DICT ∨ ret = Z_DATA_ERROR ∨ ret = Z_MEM_ERROR then []
    else if out.length = CHUNK_SIZE then inflateLoop rest (result ++ out)
    else result ++ out

/-- The function `HttpRetrieval::gUncompress`; `none` when an exception escapes. -/
def gUncompress (run : ZlibRun) (data : QByteArray) : Option QByteArray :=
  if data.length ≤ 4 then some []
  else if run.raises = true then none
  else if run.initRet ≠ Z_OK then some []
  else some (inflateLoop run.steps [])

/-- The members of `HttpRetrieval` used by the request cycle; `loopQuit` records that
`m_eventLoop->quit()` has been called, `m_networkReply` that the pointer is non-null,
`m_urlHandlerBeginTime` the text last given to `m_urlHandler.setBeginTime`. -/
structure HttpRetrieval where
  m_isFinished : Bool
  m_isAborted : Bool
  m_isRedirected : Bool
  m_isBinned : Bool
  m_isAbsoluteTimeAxis : Bool
  m_requestInProgress : Bool
  m_networkReply : Bool
  loopQuit : Bool
  m_totalNumberOfPoints : Int
  m_secondsPast : Int
  m_errorString : String
  m_redirectedUrl : String
  m_downloadUrl : String
  m_backend : String
  m_PV : String
  m_urlHandlerBeginTime : String
  m_vecX : List ℚ
  m_vecY : List ℚ
  deriving DecidableEq

/-- The constructor `HttpRetrieval::HttpRetrieval()`. -/
def HttpRetrieval.new : HttpRetrieval :=
  { m_isFinished := false, m_isAborted := false, m_isRedirected := false, m_isBinned := false,
    m_isAbsoluteTimeAxis := false, m_requestInProgress := false, m_networkReply := false,
    loopQuit := false, m_totalNumberOfPoints := 0, m_secondsPast := 0, m_errorString := "",
    m_redirectedUrl := "", m_downloadUrl := "", m_backend := "", m_PV := "",
    m_urlHandlerBeginTime := "", m_vecX := [], m_vecY := [] }

/-- The accessor `HttpRetrieval::lastError`. -/
def HttpRetrieval.lastError (s : HttpRetrieval) : String := s.m_errorString

/-- The accessor `HttpRetrieval::getCount`. -/
def HttpRetrieval.getCount (s : HttpRetrieval) : Int := s.m_totalNumberOfPoints

/-- The accessor `HttpRetrieval::getData`. -/
def HttpRetrieval.getData (s : HttpRetrieval) : List ℚ × List ℚ := (s.m_vecX, s.m_vecY)

/-- The accessor `HttpRetrieval::getRedirected_Url`. -/
def HttpRetrieval.getRedirected_Url (s : HttpRetrieval) : String := s.m_redirectedUrl

/-- The accessor `HttpRetrieval::is_Redirected`. -/
def HttpRetrieval.is_Redirected (s : HttpRetrieval) : Bool := s.m_isRedirected

/-- The slot `HttpRetrieval::downloadFinished`, reached through `emit
requestFinished()`: the event loop is told to quit. -/
def HttpRetrieval.downloadFinished (s : HttpRetrieval) : HttpRetrieval :=
  { s with loopQuit := true }

/-- The function `HttpRetrieval::parseError`. -/
def parseError (teapot : NetworkError → Bool) (error : NetworkError) : String :=
  match error with
  | NetworkError.ConnectionRefusedError => "ConnectionRefusedError"
  | NetworkError.RemoteHostClosedError => "RemoteHostClosedError"
  | NetworkError.HostNotFoundError => "HostNotFoundError"
  | NetworkError.TimeoutError => "TimeoutError"
  | NetworkError.OperationCanceledError => "OperationCanceledError"
  | NetworkError.SslHandshakeFailedError => "SslHandshakeFailedError"
  | NetworkError.TemporaryNetworkFailureError => "TemporaryNetworkFailureError"
  | NetworkError.ProxyConnectionRefusedError => "ProxyConnectionRefusedError"
  | NetworkError.ProxyConnectionClosedError => "ProxyConnectionClosedError"
  | NetworkError.ProxyNotFoundError => "ProxyNotFoundError"
  | NetworkError.ProxyTimeoutError => "ProxyTimeoutError"
  | NetworkError.ProxyAuthenticationRequiredError => "ProxyAuthenticationRequiredError"
  | NetworkError.ContentAccessDenied => "ContentAccessDenied"
  | NetworkError.ContentOperationNotPermittedError => "ContentOperationNotPermittedError"
  | NetworkError.ContentNotFoundError => "ContentNotFoundError"
  | NetworkError.AuthenticationRequiredError => "AuthenticationRequiredError"
  | NetworkError.ProtocolUnknownError => "ProtocolUnknownError"
  | NetworkError.ProtocolInvalidOperationError => "ProtocolInvalidOperationError"
  | NetworkError.UnknownNetworkError => "UnknownNetworkError"
  | NetworkError.UnknownProxyError => "UnknownProxyError"
  | NetworkError.UnknownContentError => "UnknownContentError"
  | NetworkError.ProtocolFailure => "ProtocolFailure"
  | NetworkError.NoError => if teapot error = true then "ImATeapot" else "unknownError 0"
  | NetworkError.other code =>
    if teapot error = true then "ImATeapot" else "unknownError " ++ toString code

/-- The test on the status code at lines 234-235. -/
def isRedirectStatus (status : Int) : Bool :=
  status == 301 || status == 302 || status == 303 || status == 307 || status == 308

/-- The write `vec[i] = v` into a `QVector`; `none` when `i` is out of bounds. -/
def setAt (vec : List ℚ) (i : Nat) (v : ℚ) : Option (List ℚ) :=
  if i < vec.length then some (vec.set i v) else none

/-- The output vectors and the counter `count` during the loops of `finishReply`. -/
structure Fill where
  vecX : List ℚ
  vecY : List ℚ
  count : Nat
  deriving DecidableEq

/-- The value `mean` of a sample (lines 386-390 and 413-417). -/
def sampleMean (isDouble : Bool) (v : QJsonValue) : ℚ :=
  if isDouble = true then v.toDouble else (v.toInt : ℚ)

/-- The time of a binned sample (lines 391-392):
`secondsAnchor + ((FirstMsJson[i].toInt() + LastMsJson[i].toInt()) * 0.0005)`,
the sum being an `int`. -/
def archiveTimeBinned (secondsAnchor : Int) (first last : QJsonValue) : ℚ :=
  fadd (secondsAnchor : ℚ)
    (fmul (wrapInt32 (first.toInt + last.toInt) : ℚ) (toDouble (5 / 10000)))

/-- The time of an unbinned sample (line 419):
`secondsAnchor + (MsJson[i].toInt() * 0.001)`. -/
def archiveTimeUnbinned (secondsAnchor : Int) (ms : QJsonValue) : ℚ :=
  fadd (secondsAnchor : ℚ) (fmul (ms.toInt : ℚ) (toDouble (1 / 1000)))

/-- The "fill in our data" block of both loops (lines 395-407 and 422-434). -/
def storeSample (seconds : ℚ) (secondsPast : Int) (isAbsoluteTimeAxis : Bool)
    (archiveTime mean : ℚ) (st : Fill) : Option Fill :=
  if archiveTime ≠ 0 then
    if fsub seconds archiveTime < (secondsPast : ℚ) then
      if isAbsoluteTimeAxis = false then
        match setAt st.vecX st.count (fdiv (-(fsub seconds archiveTime)) 3600) with
        | some x => some { st with vecX := x, count := st.count + 1 }
        | none => none
      else
        match setAt st.vecX st.count (fmul archiveTime 1000) with
        | some x =>
          match setAt st.vecY st.count mean with
          | some y => some { vecX := x, vecY := y, count := st.count + 1 }
          | none => none
        | none => none
    else some st
  else some st

/-- The time of sample `i` of the root object, by the loop that `isBinned` selects. -/
def archiveTimeAt (isBinned : Bool) (rootObject : List (String × QJsonValue)) (i : Nat) : ℚ :=
  if isBinned = true then
    archiveTimeBinned (jsonValue rootObject "tsAnchor").toInt
      ((jsonValue rootObject "ts1Ms").at i) ((jsonValue rootObject "ts2Ms").at i)
  else
    archiveTimeUnbinned (jsonValue rootObject "tsAnchor").toInt
      ((jsonValue rootObject "tsMs").at i)

/-- The array `ValueJson` selected at lines 354-366. -/
def selectValues (isBinned : Bool) (PV : String) (rootObject : List (String × QJsonValue)) :
    QJsonValue :=
  if isBinned = true then
    if containsCaseInsensitive PV ".minY" = true then jsonValue rootObject "mins"
    else if containsCaseInsensitive PV ".maxY" = true then jsonValue rootObject "maxs"
    else jsonValue rootObject "avgs"
  else jsonValue rootObject "values"

/-- The body of the loops at lines 384-408 and 411-435 for index `i`. -/
def loopBody (seconds : ℚ) (secondsPast : Int) (isBinned isAbsoluteTimeAxis : Bool)
    (rootObject : List (String × QJsonValue)) (ValueJson : QJsonValue) (i : Nat) (st : Fill) :
    Option Fill :=
  storeSample seconds secondsPast isAbsoluteTimeAxis (archiveTimeAt isBinned rootObject i)
    (sampleMean (ValueJson.at 0).isDouble (ValueJson.at i)) st

/-- The loop `for (i = 0; i < ValueJson.toArray().size(); i++)` from the state
`st`; `none` when a write is out of bounds. -/
def fillLoop (seconds : ℚ) (secondsPast : Int) (isBinned isAbsoluteTimeAxis : Bool)
    (rootObject : List (String × QJsonValue)) (ValueJson : QJsonValue) (st : Fill) :
    Option Fill :=
  (List.range ValueJson.toArray.length).foldlM
    (fun st i => loopBody seconds secondsPast isBinned isAbsoluteTimeAxis rootObject ValueJson i st)
    st

/-- The text of `tr("unexpected http status code %1 [%2] from %3")` and of the
redirect message with their three arguments in place. -/
def statusMessage (head : String) (status : Int) (reason url : String) : String :=
  head ++ toString status ++ " [" ++ reason ++ "] from " ++ url

/-- Lines 338-352 of `finishReply`: when the root object has a `continueAt` member,
its text becomes the begin time of `m_urlHandler`. -/
def noteContinueAt (s : HttpRetrieval) (rootObject : List (String × QJsonValue)) :
    HttpRetrieval :=
  if jsonContains rootObject "continueAt" = true then
    { s with m_urlHandlerBeginTime := (jsonValue rootObject "continueAt").toQString }
  else s

/-- Lines 306-585 of `finishReply`: parsing of the payload `out` and filling of the
output vectors.  `none` when a write into an output vector is out of bounds. -/
def parseReply (env : Env) (s : HttpRetrieval) (out : QByteArray) : Option HttpRetrieval :=
  let s := { s with m_errorString := "" }
  let seconds := env.now.seconds
  let rootObject : List (String × QJsonValue) :=
    match env.fromJson out with
    | some doc => doc.toObject
    | none => []
  if rootObject.isEmpty = true ∨ (env.fromJson out).isNone = true then
    some { s with
      m_errorString := "could not parse json string left=" ++ bytesToQString (out.take 20)
        ++ " right=" ++ bytesToQString (out.drop (out.length - 20)) }.downloadFinished
  else
    let s := noteContinueAt s rootObject
    let ValueJson := selectValues s.m_isBinned s.m_PV rootObject
    let st : Fill :=
      { vecX := resize s.m_vecX ValueJson.toArray.length
        vecY := resize s.m_vecY ValueJson.toArray.length
        count := 0 }
    match fillLoop seconds s.m_secondsPast s.m_isBinned s.m_isAbsoluteTimeAxis rootObject
        ValueJson st with
    | none => none
    | some st =>
      some { s with
        m_vecX := st.vecX
        m_vecY := st.vecY
        m_totalNumberOfPoints := (st.count : Int)
        m_isFinished := true }.downloadFinished

/-- Lines 278-291 of `finishReply`: the bytes `out` left after the attempt to
decompress `outCompressed`: the result of `gUncompress`, the raw bytes when it
raises, and the raw bytes again when the result is empty. -/
def payload (env : Env) (outCompressed : QByteArray) : QByteArray :=
  let out :=
    match gUncompress (env.zlib outCompressed) outCompressed with
    | some out => out
    | none => outCompressed
  if out.isEmpty = true then outCompressed else out

/-- The slot `HttpRetrieval::finishReply`.  `none` when a write into an output
vector is out of bounds. -/
def finishReply (env : Env) (s : HttpRetrieval) (reply : QNetworkReply) : Option HttpRetrieval :=
  if s.m_isAborted = true then
    some { s with m_errorString := s.m_errorString ++ "\n Retrieval was aborted \n" }
  else if isRedirectStatus reply.status = true then
    some { s with
      m_errorString := statusMessage "Temporary Redirect status code " reply.status
        reply.reasonPhrase s.m_downloadUrl
      m_isFinished := true
      m_isRedirected := true
      m_redirectedUrl := reply.location }.downloadFinished
  else if reply.status ≠ 200 then
    some { s with
      m_errorString := statusMessage "unexpected http status code " reply.status
        reply.reasonPhrase s.m_downloadUrl }.downloadFinished
  else if reply.error ≠ NetworkError.NoError then
    some { s with
      m_errorString := parseError env.teapot reply.error ++ ": " ++ s.m_downloadUrl
      }.downloadFinished
  else
    let out := payload env reply.body
    if out.isEmpty = true then
      some { s.downloadFinished with
        m_errorString := s.m_errorString ++ "\n HTTP response was empty \n" }
    else parseReply env s out

/-- The slot `HttpRetrieval::cancelDownload`.  `finished` is the reply for which
`m_networkReply->abort()` emits `finished` while it runs, if it does. -/
def cancelDownload (env : Env) (s : HttpRetrieval) (finished : Option QNetworkReply) :
    Option HttpRetrieval :=
  let s := { s with m_totalNumberOfPoints := 0, m_isAborted := true }
  let s :=
    if s.m_networkReply = true then
      match finished with
      | some reply => (finishReply env s reply).map (fun s => { s with m_networkReply := false })
      | none => some { s with m_networkReply := false }
    else some s
  s.map HttpRetrieval.downloadFinished

/-- The slot `HttpRetrieval::timeoutL`. -/
def timeoutL (env : Env) (s : HttpRetrieval) (finished : Option QNetworkReply) :
    Option HttpRetrieval :=
  cancelDownload env { s with m_errorString := "http request timeout" } finished

/-- What can reach the object while `m_eventLoop->exec()` runs in `requestUrl`. -/
inductive Event where
  /-- The network manager emits `finished(reply)`. -/
  | reply (r : QNetworkReply)
  /-- The watchdog `m_timeoutHelper` fires. -/
  | timeout (finished : Option QNetworkReply)
  /-- The slot `cancelDownload` is invoked from the dispatcher. -/
  | cancel (finished : Option QNetworkReply)
  deriving DecidableEq

/-- The handler run for one event. -/
def dispatch (env : Env) (s : HttpRetrieval) : Event → Option HttpRetrieval
  | Event.reply r => finishReply env s r
  | Event.timeout f => timeoutL env s f
  | Event.cancel f => cancelDownload env s f

/-- The call `m_eventLoop->exec()`: events are handled in order until a handler has
called `quit()`.  `none` when the events run out before that (the call is still
blocked) or when a write is out of bounds. -/
def exec (env : Env) : HttpRetrieval → List Event → Option HttpRetrieval
  | _, [] => none
  | s, e :: rest =>
    match dispatch env s e with
    | none => none
    | some s => if s.loopQuit = true then some s else exec env s rest

/-- The method `HttpRetrieval::requestUrl` on an object whose event loop is not
running and on which `requestUrl` has not been called before: `url` and `backend` are
`urlHandler->assembleUrl()` and `urlHandler->backend()`, `events` is what reaches the
object while it waits.  The result is the object after the call and the value
returned.  Line 144 connects `finishReply` to the network manager once more on every
call, so on a later call on the same object the slot runs once per connection for
each reply; the further runs, which find the body of the reply read, are runs of
`finishReply` of their own and not part of this definition. -/
def requestUrl (env : Env) (s : HttpRetrieval) (url backend : String) (secondsPast : Int)
    (binned timeAxis : Bool) (key : String) (events : List Event) :
    Option (HttpRetrieval × Bool) :=
  let s := { s with
    m_isAborted := false
    m_isFinished := false
    m_totalNumberOfPoints := 0
    m_secondsPast := secondsPast
    m_downloadUrl := url
    m_isBinned := binned
    m_isAbsoluteTimeAxis := timeAxis
    m_errorString := ""
    m_backend := backend
    m_PV := key
    m_networkReply := true
    loopQuit := false }
  match exec env s events with
  | none => none
  | some s => some (s, s.m_isFinished)

/-- The object as `requestUrl` sets it up before it waits (lines 107-147). -/
def armed (s : HttpRetrieval) (url backend : String) (secondsPast : Int)
    (binned timeAxis : Bool) (key : String) : HttpRetrieval :=
  { s with
    m_isAborted := false
    m_isFinished := false
    m_totalNumberOfPoints := 0
    m_secondsPast := secondsPast
    m_downloadUrl := url
    m_isBinned := binned
    m_isAbsoluteTimeAxis := timeAxis
    m_errorString := ""
    m_backend := backend
    m_PV := key
    m_networkReply := true
    loopQuit := false }

/-! ## Vocabulary for the statements on the parser -/

/-- The samples of a flat-schema root object in input order: for each index of the
selected value array, the time and the value that the loop computes for it. -/
def samples (isBinned : Bool) (rootObject : List (String × QJsonValue)) (ValueJson : QJsonValue) :
    List (ℚ × ℚ) :=
  (List.range ValueJson.toArray.length).map
    (fun i => (archiveTimeAt isBinned rootObject i,
      sampleMean (ValueJson.at 0).isDouble (ValueJson.at i)))

/-- The filter condition on a sample time `t` (lines 395-397 and 422-424): non-zero
and `(seconds - t) < secondsPast`, the difference being a `double`. -/
def isRetained (seconds : ℚ) (secondsPast : Int) (t : ℚ) : Bool :=
  decide (t ≠ 0 ∧ fsub seconds t < (secondsPast : ℚ))

/-- The time-axis encoding of a sample time `t` (lines 399-401 and 426-428):
`t * 1000` in absolute mode and `-(seconds - t) / 3600.0` in relative mode, in
`double` arithmetic. -/
def encodeX (seconds : ℚ) (isAbsoluteTimeAxis : Bool) (t : ℚ) : ℚ :=
  if isAbsoluteTimeAxis = true then fmul t 1000 else fdiv (-(fsub seconds t)) 3600

/-- The samples of `pre` that pass the filter, in order. -/
def keep (seconds : ℚ) (secondsPast : Int) (pre : List (ℚ × ℚ)) : List (ℚ × ℚ) :=
  pre.filter (fun p => isRetained seconds secondsPast p.1)

/-- The state of the loop after the samples `pre` have been visited, for output
vectors of size `n` and a value vector that was `y0` before the loop. -/
def LoopInv (seconds : ℚ) (secondsPast : Int) (isAbsoluteTimeAxis : Bool) (n : Nat)
    (y0 : List ℚ) (pre : List (ℚ × ℚ)) (st : Fill) : Prop :=
  st.vecX.length = n ∧ st.vecY.length = n
    ∧ st.count = (keep seconds secondsPast pre).length
    ∧ st.vecX.take st.count
        = (keep seconds secondsPast pre).map (fun p => encodeX seconds isAbsoluteTimeAxis p.1)
    ∧ (isAbsoluteTimeAxis = true →
        st.vecY.take st.count = (keep seconds secondsPast pre).map Prod.snd)
    ∧ (isAbsoluteTimeAxis = false → st.vecY = y0)

/-- The reply is a successfully parsed flat-schema response: status 200, no error,
a non-empty payload, and the parser turns the payload into the document `doc`, which
is a non-empty object. -/
def Parses (env : Env) (reply : QNetworkReply) (doc : QJsonValue) : Prop :=
  reply.status = 200 ∧ reply.error = NetworkError.NoError
    ∧ payload env reply.body ≠ []
    ∧ env.fromJson (payload env reply.body) = some doc ∧ doc.toObject ≠ []

/-- An environment with wall time 1000 s in which zlib fails on every input and the
parser returns `doc`. -/
def exampleEnv (doc : QJsonValue) : Env :=
  { now := { time := 1000, millitm := 0 }
    zlib := fun _ => { raises := false, initRet := Z_DATA_ERROR, steps := [] }
    fromJson := fun _ => some doc
    teapot := fun _ => false }

/-- An unbinned flat-schema document with anchor 900 s and three samples, at 901 s,
0 s and 950 s, with values 5, 6 and 7. -/
def exampleDoc : QJsonValue :=
  QJsonValue.object
    [ ("tsAnchor", QJsonValue.double 900),
      ("values", QJsonValue.array [QJsonValue.double 5, QJsonValue.double 6, QJsonValue.double 7]),
      ("tsMs", QJsonValue.array
        [QJsonValue.double 1000, QJsonValue.double (-900000), QJsonValue.double 50000]) ]

/-- A binned flat-schema document with anchor 1700000000 s and one bin whose bounds
are both 1200000000 ms after the anchor. -/
def exampleBinnedDoc : QJsonValue :=
  QJsonValue.object
    [ ("tsAnchor", QJsonValue.double 1700000000),
      ("avgs", QJsonValue.array [QJsonValue.double 5]),
      ("ts1Ms", QJsonValue.array [QJsonValue.double 1200000000]),
      ("ts2Ms", QJsonValue.array [QJsonValue.double 1200000000]) ]

/-- An unbinned flat-schema document with anchor 511 s and one sample, 2 ms after
the anchor, with value 5. -/
def boundaryDoc : QJsonValue :=
  QJsonValue.object
    [ ("tsAnchor", QJsonValue.double 511),
      ("values", QJsonValue.array [QJsonValue.double 5]),
      ("tsMs", QJsonValue.array [QJsonValue.double 2]) ]

/-- The environment of `exampleEnv boundaryDoc` with wall time 1000.002 s. -/
def boundaryEnv : Env :=
  { exampleEnv boundaryDoc with now := { time := 1000, millitm := 2 } }

/-- A fresh object set up for a window of 489 s with the given time-axis mode. -/
def boundaryState (isAbsoluteTimeAxis : Bool) : HttpRetrieval :=
  { HttpRetrieval.new with m_secondsPast := 489, m_isAbsoluteTimeAxis := isAbsoluteTimeAxis }

/-- A reply with the given status and error and a six-byte body. -/
def exampleReply (status : Int) (error : NetworkError) : QNetworkReply :=
  { status := status, reasonPhrase := "reason", error := error, location := "http://other/",
    body := [123, 32, 32, 32, 32, 125] }

/-- A fresh object set up for a window of 3600 s with the given time-axis mode. -/
def exampleState (isAbsoluteTimeAxis : Bool) : HttpRetrieval :=
  { HttpRetrieval.new with m_secondsPast := 3600, m_isAbsoluteTimeAxis := isAbsoluteTimeAxis }

/-- The stored times of the 3600 s scenario at wall time 10000 s: ten points from
3500 s to 100 s ago, in milliseconds. -/
def scenarioX : List ℚ :=
  [6500000, 6900000, 7300000, 7700000, 8100000, 8500000, 8900000, 9300000, 9700000, 9900000]

/-- The stored values of the scenario. -/
def scenarioY : List ℚ := [1, 2, 3, 4, 5, 6, 7, 8, 9, 10]

/-- The fetched times of the scenario: five points over the last 600 s. -/
def scenarioNewX : List ℚ := [9400000, 9550000, 9700000, 9850000, 10000000]

/-- The fetched values of the scenario. -/
def scenarioNewY : List ℚ := [11, 12, 13, 14, 15]

/-! ## RequestDispatcher: key normalization (archivehttp_plugin.cpp) -/

/-- The character class `[0-7]` of the pattern `\b[0-7]_`. -/
def isCurveDigit (c : Char) : Bool :=
  decide ('0' ≤ c ∧ c ≤ '7')

/-- The call `key.replace(m_regexStr, "")` with the pattern `\b[0-7]_`: every match,
found from left to right in the original text, is removed.  `wordChar` is the class
of word characters of the regular-expression engine; `prevWord` says whether the
character before the current position is a word character (`false` at the start of
the text).  A match at a position needs a word boundary there, a character in
`[0-7]` and then an underscore. -/
def stripCurveIndex (wordChar : Char → Bool) : Bool → List Char → List Char
  | _, [] => []
  | _, [a] => [a]
  | prevWord, a :: b :: t =>
    if prevWord ≠ wordChar a ∧ isCurveDigit a = true ∧ b = '_' then
      stripCurveIndex wordChar (wordChar '_') t
    else a :: stripCurveIndex wordChar (wordChar a) (b :: t)

/-- The call `key.replace(pat, "")` for a non-empty text `pat`: every occurrence,
found from left to right without overlap, is removed.  `skip` is the number of
characters of the current occurrence still to be dropped. -/
def removeAllAux (pat : List Char) : Nat → List Char → List Char
  | _, [] => []
  | skip + 1, _ :: t => removeAllAux pat skip t
  | 0, a :: t =>
    if pat.isPrefixOf (a :: t) = true then removeAllAux pat (pat.length - 1) t
    else a :: removeAllAux pat 0 t

/-- The call `key.replace(pat, "")` on a whole text. -/
def removeAll (pat : String) (s : List Char) : List Char :=
  removeAllAux pat.data 0 s

/-- The normalization of a key (lines 343-347, 353-356, 387-390, 423-427 and
433-436): the pattern `\b[0-7]_` is removed twice, then `.minY`, then `.maxY`. -/
def normalizeKey (wordChar : Char → Bool) (key : String) : String :=
  String.mk (removeAll ".maxY" (removeAll ".minY"
    (stripCurveIndex wordChar false (stripCurveIndex wordChar false key.data))))

/-- The word characters of a regular-expression engine on ASCII text: letters,
digits and the underscore. -/
def asciiWord (c : Char) : Bool :=
  c.isAlphanum || c == '_'

/-- The key of a channel: curve slot, channel name with its axis-role suffix, and
the identity of the owning widget, joined by underscores. -/
def channelKey (curve : Char) (channel suffix widget : String) : String :=
  String.singleton curve ++ "_" ++ channel ++ suffix ++ "_" ++ widget

/-- The text does not end with a character of the class `[0-7]`. -/
def EndsClean (xs : List Char) : Prop :=
  ∀ d, xs.getLast? = some d → isCurveDigit d = false

/-! ## RequestDispatcher: tables and operations (archivehttp_plugin.cpp)

The dispatcher is described by its tables and by the calls it makes: `operate`
signals (one per worker started), posted messages, calls of
`updateCartesianAppended` and calls of `ArchiverCommon::updateSecondsPast`.  The
buffers of the knob store are written only inside `updateCartesianAppended`, so a
dispatcher operation that makes no such call leaves every buffer as it was.  Each
call of `updateCartesianAppended` is taken to return. -/

/-- A `QMap<QString, α>`: its entries in iteration order.  Keys are compared as
sequences of code points. -/
abbrev QMap (α : Type) := List (String × α)

/-- The call `QMap::insert(key, value)`: the value of an existing key is replaced, a
new key is put at its place in the key order. -/
def qmapInsert {α : Type} : QMap α → String → α → QMap α
  | [], k, v => [(k, v)]
  | (k', v') :: t, k, v =>
    if k < k' then (k, v) :: (k', v') :: t
    else if k = k' then (k, v) :: t
    else (k', v') :: qmapInsert t k v

/-- The call `QMap::remove(key)`. -/
def qmapRemove {α : Type} (m : QMap α) (k : String) : QMap α :=
  m.filter (fun kv => decide (kv.1 ≠ k))

/-- The calls `QMap::find(key)` and `QMap::constFind(key)`: the value found, or `none`
for the end iterator. -/
def qmapFind {α : Type} : QMap α → String → Option α
  | [], _ => none
  | (k', v') :: t, k => if k' = k then some v' else qmapFind t k

/-- The call `QMap::contains(key)`. -/
def qmapContains {α : Type} (m : QMap α) (k : String) : Bool :=
  (qmapFind m k).isSome

/-- A change made through the pointer stored under `key`, if there is one. -/
def qmapUpdate {α : Type} (f : α → α) : QMap α → String → QMap α
  | [], _ => []
  | (k', v') :: t, k => if k' = k then (k', f v') :: t else (k', v') :: qmapUpdate f t k

/-- The keys of a map, in iteration order. -/
def qmapKeys {α : Type} (m : QMap α) : List String :=
  m.map Prod.fst

/-- Modelled from the spec: the class `WorkerHttpThread` is declared in
archivehttp_plugin.h, which is not among the sources.  A worker handle carries the
liveness flag read by `isActive()` and written by `setIsActive`. -/
structure WorkerHttpThread where
  isActive : Bool
  deriving DecidableEq

/-- Modelled from the spec: the constructor of `WorkerHttpThread`; a new worker is
live. -/
def WorkerHttpThread.new : WorkerHttpThread :=
  { isActive := true }

/-- The structure `indexes` as the dispatcher uses it: the fields read by the merge
and those read here (`w` stands for the widget pointer). -/
structure indexesEntry extends indexes where
  key : String
  w : Nat
  init : Bool
  nrOfBins : Int
  backend : String
  deriving DecidableEq

/-- A `QVariant` holding a number or a text. -/
inductive QVariant where
  | int (n : Int)
  | string (s : String)
  deriving DecidableEq

/-- The call `QVariant::toInt(&ok)`: the number, or `none` when `ok` is false. -/
def QVariant.toInt : QVariant → Option Int
  | QVariant.int n => some n
  | QVariant.string s =>
    match s.trim.toInt? with
    | some n => if INT_MIN ≤ n ∧ n ≤ INT_MAX then some n else none
    | none => none

/-- The call `QVariant::toString()`. -/
def QVariant.toQString : QVariant → String
  | QVariant.int n => toString n
  | QVariant.string s => s

/-- What `Callback_UpdateInterface` and `handleResults` take from their
surroundings: the word characters of the regular-expression engine, whether a
widget pointer casts to `caCartesianPlot`, the dynamic properties of a widget
(`none` for a null `QVariant`), its object name, the value of the environment
variable `CAQTDM_ARCHIVERHTTP_URL`, and the text that the assignment
`index_name = qasc(indexName)` stores for a text `indexName` (the text is taken
through `toLatin1().constData()` and read back; plain ASCII text is unchanged). -/
structure Host where
  wordChar : Char → Bool
  isCartesianPlot : Nat → Bool
  property : Nat → String → Option QVariant
  objectName : Nat → String
  envUrl : String
  qasc : String → String

/-- The members of `ArchiveHTTP_Plugin` used by the dispatcher; `m_messageWindowP`
records that the pointer is non-null, and a performance record is represented by its
presence. -/
structure ArchiveHTTP_Plugin where
  m_IsSuspended : Bool
  m_messageWindowP : Bool
  m_IndexesToUpdate : QMap indexesEntry
  m_listOfThreads : QMap WorkerHttpThread
  m_retrievalPerformancePerPV : QMap Unit
  deriving DecidableEq

/-- The constructor `ArchiveHTTP_Plugin::ArchiveHTTP_Plugin()`. -/
def ArchiveHTTP_Plugin.new : ArchiveHTTP_Plugin :=
  { m_IsSuspended := false, m_messageWindowP := false, m_IndexesToUpdate := [],
    m_listOfThreads := [], m_retrievalPerformancePerPV := [] }

/-- An emission of the signal `operate` for a new worker registered under `key`. -/
structure Operate where
  key : String
  indexNew : indexesEntry
  index_name : String
  deriving DecidableEq

/-- The progress of `Callback_UpdateInterface` through its batch: the tables, the
local variable `index_name`, the `operate` signals emitted and the messages posted,
both in order. -/
structure Submit where
  plugin : ArchiveHTTP_Plugin
  index_name : String
  operate : List Operate
  messages : List String
  deriving DecidableEq

/-- The loop at lines 429-443: whether a stored key has the normal form
`keyInCheck`. -/
def keyAlreadyPresent (wordChar : Char → Bool) (keyInCheck : String) :
    QMap indexesEntry → Bool
  | [] => false
  | (keyStored, _) :: t =>
    if normalizeKey wordChar keyStored = keyInCheck then true
    else keyAlreadyPresent wordChar keyInCheck t

/-- The call `postMsgEvent`, made when the message window exists. -/
def postMsgEvent (messageWindow : Bool) (mess : String) : List String :=
  if messageWindow = true then [mess] else []

/-- Lines 457-545: the bin count, backend and endpoint for a new worker; the result
is the configured `indexNew`, the new value of `index_name` and the messages posted. -/
def resolveConfig (host : Host) (messageWindow : Bool) (value : indexesEntry)
    (index_name : String) : indexesEntry × String × List String :=
  let indexNew := { value with nrOfBins := -1, backend := "" }
  if host.isCartesianPlot indexNew.w = true then
    let name := host.objectName indexNew.w
    let bins : Int × List String :=
      match host.property indexNew.w "nrOfBins" with
      | some var =>
        match var.toInt with
        | some n => (n, [])
        | none => (-1, [])
      | none =>
        if indexNew.init = true then
          (-1, postMsgEvent messageWindow
            ("ArchiveHTTP plugin -- no nrOfBins defined as dynamic property in widget "
              ++ name ++ ", defaulting to maximum number of points"))
        else (-1, [])
    let backend : String × List String :=
      match host.property indexNew.w "backend" with
      | some var =>
        if var.toQString.trim.toLower = "sf-archiverappliance" then (var.toQString, [])
        else if var.toQString.trim.toLower = "sf-databuffer" then (var.toQString, [])
        else
          (var.toQString, postMsgEvent messageWindow
            ("ArchiveHTTP plugin -- backend defined as dynamic property in widget "
              ++ "but not known (use sf-archiverappliance or sf-databuffer) in widget "
              ++ name))
      | none =>
        if indexNew.init = true then
          ("", postMsgEvent messageWindow
            ("ArchiveHTTP plugin -- no backend defined as dynamic property in widget "
              ++ name
              ++ ", it is defined by the server e.g.(sf-archiverappliance,sf-databuffer)"))
        else ("", [])
    let url := host.envUrl
    let archiverIndex : String :=
      match host.property indexNew.w "archiverIndex" with
      | some var => var.toQString
      | none => ""
    let endpoint : String × List String :=
      if url.length = 0 ∨ archiverIndex.isEmpty = false then
        match host.property indexNew.w "archiverIndex" with
        | some var =>
          (host.qasc var.toQString,
            if indexNew.init = true then
              postMsgEvent messageWindow
                ("ArchiveHTTP plugin -- archiverIndex defined as dynamic "
                  ++ "property in widget " ++ name ++ ", set to " ++ host.qasc var.toQString)
            else [])
        | none =>
          (index_name,
            if indexNew.init = true then
              postMsgEvent messageWindow
                ("ArchiveHTTP plugin -- no environment variable CAQTDM_ARCHIVERHTTP_URL "
                  ++ "set and no archiverIndex defined as dynamic property in widget "
                  ++ name ++ ", defaulting to " ++ index_name)
            else [])
      else
        (url,
          if indexNew.init = true then
            postMsgEvent messageWindow
              ("ArchiveHTTP plugin -- archiver URL defined as " ++ url
                ++ " from environment variable CAQTDM_ARCHIVERHTTP_URL")
          else [])
    ({ indexNew with nrOfBins := bins.1, backend := backend.1 }, endpoint.1,
      bins.2 ++ backend.2 ++ endpoint.2)
  else (indexNew, index_name, [])

/-- The body of the `while` loop of `Callback_UpdateInterface` (lines 419-567) for
the batch entry `entry`. -/
def submitEntry (host : Host) (st : Submit) (entry : String × indexesEntry) : Submit :=
  let keyInCheck := normalizeKey host.wordChar entry.1
  if keyAlreadyPresent host.wordChar keyInCheck st.plugin.m_IndexesToUpdate = true then
    { st with plugin := { st.plugin with
        m_IndexesToUpdate := qmapInsert st.plugin.m_IndexesToUpdate entry.1 entry.2 } }
  else
    let performance :=
      if qmapContains st.plugin.m_retrievalPerformancePerPV entry.1 = true then
        st.plugin.m_retrievalPerformancePerPV
      else qmapInsert st.plugin.m_retrievalPerformancePerPV entry.1 ()
    let config := resolveConfig host st.plugin.m_messageWindowP entry.2 st.index_name
    { plugin := { st.plugin with
        m_IndexesToUpdate := qmapInsert st.plugin.m_IndexesToUpdate entry.1 entry.2
        m_retrievalPerformancePerPV := performance
        m_listOfThreads := qmapInsert st.plugin.m_listOfThreads entry.1 WorkerHttpThread.new }
      index_name := config.2.1
      operate := st.operate ++ [{ key := entry.1, indexNew := config.1, index_name := config.2.1 }]
      messages := st.messages ++ config.2.2 }

/-- The slot `ArchiveHTTP_Plugin::Callback_UpdateInterface`. -/
def Callback_UpdateInterface (host : Host) (p : ArchiveHTTP_Plugin)
    (listOfIndexes : QMap indexesEntry) : Submit :=
  if p.m_IsSuspended = true then
    { plugin := p, index_name := "https://data-api.psi.ch/", operate := [], messages := [] }
  else
    listOfIndexes.foldl (submitEntry host)
      { plugin := p, index_name := "https://data-api.psi.ch/", operate := [], messages := [] }

/-- The call `QString::contains(pat)`, case sensitive. -/
def containsText (s pat : String) : Bool :=
  s.data.tails.any (fun t => pat.data.isPrefixOf t)

/-- A call of `updateCartesianAppended` made by `handleResults`, with the key of the
pending entry for which it is made. -/
structure MergeCall where
  entry : String
  numberOfValues : Int
  indexNew : indexesEntry
  XValues : List ℚ
  YValues : List ℚ
  backend : String
  deriving DecidableEq

/-- The loop at lines 349-369 over the pending entries: the calls of
`updateCartesianAppended` it makes, in order. -/
def fanOut (wordChar : Char → Bool) (keyInCheck : String) (isActive : Bool) (nrOfBins : Int)
    (valueCount : Int) (XVals YVals YMinVals YMaxVals : List ℚ) (backend : String) :
    QMap indexesEntry → List MergeCall
  | [] => []
  | (key, value) :: t =>
    if normalizeKey wordChar key = keyInCheck then
      if isActive = true then
        (if containsText key ".minY" = true ∧ 0 < nrOfBins then
          { entry := key, numberOfValues := valueCount, indexNew := value, XValues := XVals,
            YValues := YMinVals, backend := backend }
        else if containsText key ".maxY" = true ∧ 0 < nrOfBins then
          { entry := key, numberOfValues := valueCount, indexNew := value, XValues := XVals,
            YValues := YMaxVals, backend := backend }
        else
          { entry := key, numberOfValues := valueCount, indexNew := value, XValues := XVals,
            YValues := YVals, backend := backend })
          :: fanOut wordChar keyInCheck isActive nrOfBins valueCount XVals YVals YMinVals
              YMaxVals backend t
      else
        fanOut wordChar keyInCheck isActive nrOfBins valueCount XVals YVals YMinVals YMaxVals
          backend t
    else
      fanOut wordChar keyInCheck isActive nrOfBins valueCount XVals YVals YMinVals YMaxVals
        backend t

/-- The loop at lines 383-397 over the pending entries: the keys collected in
`removeKeys` and the calls of `updateSecondsPast` made, in order. -/
def collectFinished (wordChar : Char → Bool) (keyInCheck : String) (isActive : Bool)
    (valueCount : Int) : QMap indexesEntry → List String × List (indexesEntry × Bool)
  | [] => ([], [])
  | (key, value) :: t =>
    let rest := collectFinished wordChar keyInCheck isActive valueCount t
    if normalizeKey wordChar key = keyInCheck then
      (key :: rest.1,
        if isActive = false then (value, decide (valueCount ≠ 0)) :: rest.2 else rest.2)
    else rest

/-- The outcome of `handleResults`: the tables, the calls of
`updateCartesianAppended` and the calls of `updateSecondsPast`, in order. -/
structure Handled where
  plugin : ArchiveHTTP_Plugin
  merges : List MergeCall
  secondsPast : List (indexesEntry × Bool)
  deriving DecidableEq

/-- The slot `ArchiveHTTP_Plugin::handleResults`. -/
def handleResults (host : Host) (p : ArchiveHTTP_Plugin) (indexNew : indexesEntry)
    (valueCount : Int) (XVals YVals YMinVals YMaxVals : List ℚ) (backend : String)
    (isFinalIteration : Bool) : Handled :=
  match qmapFind p.m_listOfThreads indexNew.key with
  | none => { plugin := p, merges := [], secondsPast := [] }
  | some thread =>
    let isActive := thread.isActive
    let XVals := resize XVals valueCount.toNat
    let YVals := resize YVals valueCount.toNat
    let keyInCheck := normalizeKey host.wordChar indexNew.key
    let merges :=
      if 0 < valueCount then
        fanOut host.wordChar keyInCheck isActive indexNew.nrOfBins valueCount XVals YVals
          YMinVals YMaxVals backend p.m_IndexesToUpdate
      else []
    if isFinalIteration = true then
      let finished := collectFinished host.wordChar keyInCheck isActive valueCount
        p.m_IndexesToUpdate
      { plugin := { p with
          m_listOfThreads := qmapRemove p.m_listOfThreads indexNew.key
          m_IndexesToUpdate := finished.1.foldl qmapRemove p.m_IndexesToUpdate }
        merges := merges
        secondsPast := finished.2 }
    else { plugin := p, merges := merges, secondsPast := [] }

/-- The slot `ArchiveHTTP_Plugin::Callback_AbortOutstandingRequests`; `retrieval`
says whether `getHttpRetrieval()` of the worker is non-null.  The result is the
state and whether `cancelDownload` has been invoked on the retrieval. -/
def Callback_AbortOutstandingRequests (p : ArchiveHTTP_Plugin) (key : String)
    (retrieval : Bool) : ArchiveHTTP_Plugin × Bool :=
  let p := { p with m_IsSuspended := true }
  let found := qmapFind p.m_listOfThreads key
  let p :=
    match found with
    | some _ =>
      { p with m_listOfThreads :=
          qmapUpdate (fun t => { t with isActive := false }) p.m_listOfThreads key }
    | none => p
  ({ p with m_IsSuspended := false }, found.isSome && retrieval)

/-- The dispatcher states reachable from the state after construction by calls of
`initCommunicationLayer` (which sets the message window), `Callback_UpdateInterface`,
`handleResults` and `Callback_AbortOutstandingRequests` with any arguments. -/
inductive Reachable (host : Host) : ArchiveHTTP_Plugin → Prop where
  | init : Reachable host ArchiveHTTP_Plugin.new
  | initCommunicationLayer (p : ArchiveHTTP_Plugin) (messageWindow : Bool) :
      Reachable host p → Reachable host { p with m_messageWindowP := messageWindow }
  | submit (p : ArchiveHTTP_Plugin) (listOfIndexes : QMap indexesEntry) :
      Reachable host p → Reachable host (Callback_UpdateInterface host p listOfIndexes).plugin
  | results (p : ArchiveHTTP_Plugin) (indexNew : indexesEntry) (valueCount : Int)
      (XVals YVals YMinVals YMaxVals : List ℚ) (backend : String) (isFinalIteration : Bool) :
      Reachable host p →
      Reachable host (handleResults host p indexNew valueCount XVals YVals YMinVals YMaxVals
        backend isFinalIteration).plugin
  | abort (p : ArchiveHTTP_Plugin) (key : String) (retrieval : Bool) :
      Reachable host p → Reachable host (Callback_AbortOutstandingRequests p key retrieval).1

/-- A host in which no widget is a `caCartesianPlot` and no environment variable is
set, with the word characters of ASCII text. -/
def exampleHost : Host :=
  { wordChar := asciiWord, isCartesianPlot := fun _ => false, property := fun _ _ => none,
    objectName := fun _ => "", envUrl := "", qasc := fun s => s }

/-- A batch entry value with the given key and buffer indices. -/
def exampleEntry (key : String) (indexX indexY : Int) : indexesEntry :=
  { indexX := indexX, indexY := indexY, secondsPast := 3600, key := key, w := 0, init := true,
    nrOfBins := -1, backend := "" }

/-- The two tables agree: every key of the worker table is a key of the pending
table, and no two keys of the worker table have the same normal form. -/
def TablesConsistent (host : Host) (p : ArchiveHTTP_Plugin) : Prop :=
  (∀ k ∈ qmapKeys p.m_listOfThreads, k ∈ qmapKeys p.m_IndexesToUpdate)
    ∧ (qmapKeys p.m_listOfThreads).Pairwise
        (fun a b => normalizeKey host.wordChar a ≠ normalizeKey host.wordChar b)

/-- A call of one of the three dispatcher operations, with its arguments. -/
inductive Call where
  | submit (listOfIndexes : QMap indexesEntry)
  | results (indexNew : indexesEntry) (valueCount : Int)
      (XVals YVals YMinVals YMaxVals : List ℚ) (backend : String) (isFinalIteration : Bool)
  | abort (key : String) (retrieval : Bool)

/-- The dispatcher state after a call. -/
def Call.apply (host : Host) (p : ArchiveHTTP_Plugin) : Call → ArchiveHTTP_Plugin
  | Call.submit listOfIndexes => (Callback_UpdateInterface host p listOfIndexes).plugin
  | Call.results indexNew valueCount XVals YVals YMinVals YMaxVals backend isFinalIteration =>
    (handleResults host p indexNew valueCount XVals YVals YMinVals YMaxVals backend
      isFinalIteration).plugin
  | Call.abort key retrieval => (Callback_AbortOutstandingRequests p key retrieval).1

/-- The dispatcher state after a sequence of calls. -/
def runCalls (host : Host) (p : ArchiveHTTP_Plugin) (calls : List Call) : ArchiveHTTP_Plugin :=
  calls.foldl (Call.apply host) p

/-- Whether a call delivers a final result for `key`. -/
def Call.isFinalFor (key : String) : Call → Bool
  | Call.results indexNew _ _ _ _ _ _ isFinalIteration =>
    decide (indexNew.key = key) && isFinalIteration
  | _ => false

/-- The tables agree and the worker registered under `key` has been marked
inactive. -/
def AbortedWorker (host : Host) (key : String) (p : ArchiveHTTP_Plugin) : Prop :=
  TablesConsistent host p
    ∧ ∃ thread, qmapFind p.m_listOfThreads key = some thread ∧ thread.isActive = false

/-- Whether a call is a result that is not final, or an abort. -/
def Call.isInterim : Call → Bool
  | Call.results _ _ _ _ _ _ _ isFinalIteration => !isFinalIteration
  | Call.abort _ _ => true
  | Call.submit _ => false

/-- A dispatcher in which the three keys of the channel `S10:TEMP` (mean, minimum and
maximum) are pending and the worker of the first one is registered. -/
def exampleBinnedPlugin : ArchiveHTTP_Plugin :=
  (Callback_UpdateInterface exampleHost ArchiveHTTP_Plugin.new
    [("0_S10:TEMP_0x7f01", exampleEntry "0_S10:TEMP_0x7f01" 1 2),
      ("1_S10:TEMP.minY_0x7f01", exampleEntry "1_S10:TEMP.minY_0x7f01" 3 4),
      ("2_S10:TEMP.maxY_0x7f01", exampleEntry "2_S10:TEMP.maxY_0x7f01" 5 6)]).plugin

/-- A host with two `caCartesianPlot` widgets and no environment variable: widget 1
has the dynamic property `archiverIndex` set to `http://archive-a/`, widget 2 has no
dynamic property. -/
def overrideHost : Host :=
  { wordChar := asciiWord
    isCartesianPlot := fun _ => true
    property := fun w name =>
      if w = 1 ∧ name = "archiverIndex" then some (QVariant.string "http://archive-a/")
      else none
    objectName := fun _ => "plot"
    envUrl := ""
    qasc := fun s => s }

/-- The call `key.replace(pat, "", Qt::CaseInsensitive)` for a non-empty text `pat`,
with the case folding of `Char.toLower`: every occurrence, found from left to right
without overlap, is removed.  `skip` is the number of characters of the current
occurrence still to be dropped. -/
def removeAllCaseInsensitiveAux (pat : List Char) : Nat → List Char → List Char
  | _, [] => []
  | skip + 1, _ :: t => removeAllCaseInsensitiveAux pat skip t
  | 0, a :: t =>
    if (pat.map Char.toLower).isPrefixOf ((a :: t).map Char.toLower) = true then
      removeAllCaseInsensitiveAux pat (pat.length - 1) t
    else a :: removeAllCaseInsensitiveAux pat 0 t

/-- The call `key.replace(pat, "", Qt::CaseInsensitive)` on a whole text. -/
def removeAllCaseInsensitive (pat : String) (s : List Char) : List Char :=
  removeAllCaseInsensitiveAux pat.data 0 s

/-- The text `keyInCheck` of `pvClearMonitor` (lines 84-90): `pv` is `kData->pv`,
from which `.X` and `.Y` are removed in any letter case, and `dispWAddress` is the
text that `%p` prints for `kData->dispW`. -/
def clearedKey (pv dispWAddress : String) : String :=
  String.mk (removeAllCaseInsensitive ".Y" (removeAllCaseInsensitive ".X" pv.data))
    ++ "_" ++ dispWAddress

/-- The search of the loop at lines 91-107 of `pvClearMonitor`: the first stored key
that equals `keyInCheck` once the pattern `\b[0-7]_` has been removed from it (one
pass). -/
def firstStoredKey (wordChar : Char → Bool) (keyInCheck : String) :
    QMap indexesEntry → Option String
  | [] => none
  | (key, _) :: t =>
    if String.mk (stripCurveIndex wordChar false key.data) = keyInCheck then some key
    else firstStoredKey wordChar keyInCheck t

/-- Lines 84-107 of `ArchiveHTTP_Plugin::pvClearMonitor`: the pending entry found by
the loop is erased (line 100) and the loop stops.  Lines 102-103 then read
`tempI.key()` again, through the iterator of the node that line 100 has just erased:
a read of freed memory, whose result the source does not determine.  `staleKey` is
the text that this read yields; the performance record removed is the one stored
under it, if there is one.  The closing call of `ArchiverCommon::pvClearMonitor`
(not among the sources) acts on another object; a signal it sends to the dispatcher
is a dispatcher call of its own. -/
def pvClearMonitor (host : Host) (p : ArchiveHTTP_Plugin)
    (pv dispWAddress staleKey : String) : ArchiveHTTP_Plugin :=
  match firstStoredKey host.wordChar (clearedKey pv dispWAddress) p.m_IndexesToUpdate with
  | some key =>
    { p with
      m_IndexesToUpdate := qmapRemove p.m_IndexesToUpdate key
      m_retrievalPerformancePerPV :=
        if qmapContains p.m_retrievalPerformancePerPV staleKey = true then
          qmapRemove p.m_retrievalPerformancePerPV staleKey
        else p.m_retrievalPerformancePerPV }
  | none => p

/-- The dispatcher states reachable from the state after construction by calls, one
after the other, of `initCommunicationLayer`, `pvClearMonitor`,
`Callback_UpdateInterface`, `handleResults` and `Callback_AbortOutstandingRequests`
with any arguments. -/
inductive Serialized (host : Host) : ArchiveHTTP_Plugin → Prop where
  | init : Serialized host ArchiveHTTP_Plugin.new
  | initCommunicationLayer (p : ArchiveHTTP_Plugin) (messageWindow : Bool) :
      Serialized host p → Serialized host { p with m_messageWindowP := messageWindow }
  | pvClearMonitor (p : ArchiveHTTP_Plugin) (pv dispWAddress staleKey : String) :
      Serialized host p → Serialized host (pvClearMonitor host p pv dispWAddress staleKey)
  | submit (p : ArchiveHTTP_Plugin) (listOfIndexes : QMap indexesEntry) :
      Serialized host p → Serialized host (Callback_UpdateInterface host p listOfIndexes).plugin
  | results (p : ArchiveHTTP_Plugin) (indexNew : indexesEntry) (valueCount : Int)
      (XVals YVals YMinVals YMaxVals : List ℚ) (backend : String) (isFinalIteration : Bool) :
      Serialized host p →
      Serialized host (handleResults host p indexNew valueCount XVals YVals YMinVals YMaxVals
        backend isFinalIteration).plugin
  | abort (p : ArchiveHTTP_Plugin) (key : String) (retrieval : Bool) :
      Serialized host p → Serialized host (Callback_AbortOutstandingRequests p key retrieval).1

/-! ## Properties of the arithmetic of `double` -/

theorem log2Loop_spec : ∀ (fuel n : Nat), n ≤ fuel → n ≠ 0 →
    2 ^ log2Loop fuel n ≤ n ∧ n < 2 ^ (log2Loop fuel n + 1) := by
  intro fuel
  induction fuel with
  | zero => intro n h h0; omega
  | succ f ih =>
    intro n h h0
    unfold log2Loop
    by_cases h2 : 2 ≤ n
    · rw [if_pos h2]
      obtain ⟨a, b⟩ := ih (n / 2) (by omega) (by omega)
      constructor
      · rw [pow_succ]
        omega
      · rw [pow_succ]
        omega
    · rw [if_neg h2]
      have : n = 1 := by omega
      subst this
      simp

theorem natLog2_spec (n : Nat) (hn : n ≠ 0) :
    2 ^ natLog2 n ≤ n ∧ n < 2 ^ (natLog2 n + 1) :=
  log2Loop_spec n n (le_refl n) hn

theorem pow2_eq (e : Int) : pow2 e = (2 : ℚ) ^ e := by
  unfold pow2
  by_cases h : 0 ≤ e
  · rw [if_pos h]
    obtain ⟨n, rfl⟩ := Int.eq_ofNat_of_zero_le h
    simp
  · rw [if_neg h]
    obtain ⟨n, hn⟩ : ∃ n : ℕ, e = -(n : ℤ) := ⟨(-e).toNat, by omega⟩
    subst hn
    simp

theorem pow2_pos (e : Int) : 0 < pow2 e := by
  rw [pow2_eq]
  exact zpow_pos (by norm_num) e

/-- The exponent computed for `q ≠ 0` brackets `|q|`. -/
theorem binaryExponent_spec (q : ℚ) (hq : q ≠ 0) :
    (2 : ℚ) ^ binaryExponent q ≤ |q| ∧ |q| < (2 : ℚ) ^ (binaryExponent q + 1) := by
  have hn : q.num.natAbs ≠ 0 := by
    simpa using hq
  have hd : q.den ≠ 0 := q.den_nz
  obtain ⟨a1, a2⟩ := natLog2_spec q.num.natAbs hn
  obtain ⟨b1, b2⟩ := natLog2_spec q.den hd
  have hq' : |q| = (q.num.natAbs : ℚ) / (q.den : ℚ) := by
    conv_lhs => rw [← Rat.num_div_den q]
    rw [abs_div, Nat.abs_cast, Nat.cast_natAbs, Int.cast_abs]
  have A1 : (2 : ℚ) ^ natLog2 q.num.natAbs ≤ (q.num.natAbs : ℚ) := by exact_mod_cast a1
  have A2 : (q.num.natAbs : ℚ) < (2 : ℚ) ^ natLog2 q.num.natAbs * 2 := by
    have : q.num.natAbs < 2 ^ natLog2 q.num.natAbs * 2 := by rw [← pow_succ]; exact a2
    exact_mod_cast this
  have B1 : (2 : ℚ) ^ natLog2 q.den ≤ (q.den : ℚ) := by exact_mod_cast b1
  have B2 : (q.den : ℚ) < (2 : ℚ) ^ natLog2 q.den * 2 := by
    have : q.den < 2 ^ natLog2 q.den * 2 := by rw [← pow_succ]; exact b2
    exact_mod_cast this
  have hX : (0 : ℚ) < (2 : ℚ) ^ natLog2 q.num.natAbs := by positivity
  have hY : (0 : ℚ) < (2 : ℚ) ^ natLog2 q.den := by positivity
  have hD : (0 : ℚ) < (q.den : ℚ) := lt_of_lt_of_le hY B1
  have e0 : (2 : ℚ) ^ ((natLog2 q.num.natAbs : Int) - (natLog2 q.den : Int))
      = (2 : ℚ) ^ natLog2 q.num.natAbs / (2 : ℚ) ^ natLog2 q.den := by
    rw [zpow_sub₀ (by norm_num), zpow_natCast, zpow_natCast]
  have e1 : (2 : ℚ) ^ ((natLog2 q.num.natAbs : Int) - (natLog2 q.den : Int) + 1)
      = (2 : ℚ) ^ natLog2 q.num.natAbs / (2 : ℚ) ^ natLog2 q.den * 2 := by
    rw [zpow_add₀ (by norm_num), e0, zpow_one]
  have e2 : (2 : ℚ) ^ ((natLog2 q.num.natAbs : Int) - (natLog2 q.den : Int) - 1)
      = (2 : ℚ) ^ natLog2 q.num.natAbs / (2 : ℚ) ^ natLog2 q.den / 2 := by
    rw [zpow_sub₀ (by norm_num), e0, zpow_one]
  have up : (q.num.natAbs : ℚ) / (q.den : ℚ)
      < (2 : ℚ) ^ natLog2 q.num.natAbs / (2 : ℚ) ^ natLog2 q.den * 2 := by
    rw [div_mul_eq_mul_div, div_lt_div_iff₀ hD hY]
    nlinarith
  have lo : (2 : ℚ) ^ natLog2 q.num.natAbs / (2 : ℚ) ^ natLog2 q.den / 2
      ≤ (q.num.natAbs : ℚ) / (q.den : ℚ) := by
    rw [div_div, div_le_div_iff₀ (by positivity) hD]
    nlinarith
  unfold binaryExponent
  rw [pow2_eq]
  by_cases h : (2 : ℚ) ^ ((natLog2 q.num.natAbs : Int) - (natLog2 q.den : Int)) ≤ |q|
  · rw [if_pos h]
    refine ⟨h, ?_⟩
    rw [e1, hq']
    exact up
  · rw [if_neg h]
    refine ⟨?_, ?_⟩
    · rw [e2, hq']
      exact lo
    · rw [sub_add_cancel]
      exact lt_of_not_le h

theorem roundHalfEven_error (x : ℚ) : |(roundHalfEven x : ℚ) - x| ≤ 1 / 2 := by
  have h1 := Int.floor_le x
  have h2 := Int.lt_floor_add_one x
  unfold roundHalfEven
  rw [abs_le]
  split_ifs with c1 c2 c3
  · constructor <;> linarith
  · push_cast
    constructor <;> linarith
  · constructor <;> linarith
  · push_cast
    constructor <;> linarith

/-- The rounding error is at most half a unit in the last place, hence at most
`2 ^ (-53)` times the number rounded. -/
theorem toDouble_error (q : ℚ) : |toDouble q - q| ≤ |q| * (2 : ℚ) ^ (-53 : Int) := by
  unfold toDouble
  by_cases hq : q = 0
  · rw [if_pos hq, hq]
    simp
  · rw [if_neg hq]
    obtain ⟨lo, _⟩ := binaryExponent_spec q hq
    have hu : 0 < pow2 (binaryExponent q - 52) := pow2_pos _
    have hr := roundHalfEven_error (q / pow2 (binaryExponent q - 52))
    have e : (roundHalfEven (q / pow2 (binaryExponent q - 52)) : ℚ)
          * pow2 (binaryExponent q - 52) - q
        = ((roundHalfEven (q / pow2 (binaryExponent q - 52)) : ℚ)
            - q / pow2 (binaryExponent q - 52)) * pow2 (binaryExponent q - 52) := by
      field_simp
    rw [e, abs_mul, abs_of_pos hu]
    have hu2 : pow2 (binaryExponent q - 52) * (1 / 2)
        = (2 : ℚ) ^ binaryExponent q * (2 : ℚ) ^ (-53 : Int) := by
      rw [pow2_eq, zpow_sub₀ (by norm_num)]
      norm_num
      ring
    calc |(roundHalfEven (q / pow2 (binaryExponent q - 52)) : ℚ)
            - q / pow2 (binaryExponent q - 52)| * pow2 (binaryExponent q - 52)
        ≤ 1 / 2 * pow2 (binaryExponent q - 52) :=
          mul_le_mul_of_nonneg_right hr (le_of_lt hu)
      _ = (2 : ℚ) ^ binaryExponent q * (2 : ℚ) ^ (-53 : Int) := by rw [mul_comm, hu2]
      _ ≤ |q| * (2 : ℚ) ^ (-53 : Int) :=
          mul_le_mul_of_nonneg_right lo (le_of_lt (zpow_pos (by norm_num) _))

/-- The result of a rounding has at most 53 significant bits. -/
theorem toDouble_isDouble (q : ℚ) : IsDouble (toDouble q) := by
  unfold toDouble
  by_cases hq : q = 0
  · rw [if_pos hq]
    exact ⟨0, 0, by norm_num, by simp⟩
  · rw [if_neg hq]
    obtain ⟨_, up⟩ := binaryExponent_spec q hq
    have hu : 0 < pow2 (binaryExponent q - 52) := pow2_pos _
    have hr := roundHalfEven_error (q / pow2 (binaryExponent q - 52))
    have hx : |q / pow2 (binaryExponent q - 52)| < (2 : ℚ) ^ 53 := by
      rw [abs_div, abs_of_pos hu, div_lt_iff₀ hu, pow2_eq]
      have : (2 : ℚ) ^ 53 * (2 : ℚ) ^ (binaryExponent q - 52)
          = (2 : ℚ) ^ (binaryExponent q + 1) := by
        rw [zpow_sub₀ (by norm_num), zpow_add₀ (by norm_num)]
        norm_num
        ring
      rw [this]
      exact up
    have hm : |(roundHalfEven (q / pow2 (binaryExponent q - 52)) : ℚ)| < (2 : ℚ) ^ 53 + 1 := by
      have := abs_sub_abs_le_abs_sub
        (roundHalfEven (q / pow2 (binaryExponent q - 52)) : ℚ)
        (q / pow2 (binaryExponent q - 52))
      linarith
    have hm' : |roundHalfEven (q / pow2 (binaryExponent q - 52))| ≤ 2 ^ 53 := by
      have : |roundHalfEven (q / pow2 (binaryExponent q - 52))| < 2 ^ 53 + 1 := by
        have h := hm
        rw [← Int.cast_abs] at h
        exact_mod_cast h
      omega
    rcases lt_or_eq_of_le hm' with h | h
    · exact ⟨_, binaryExponent q - 52, h, by rw [pow2_eq]⟩
    · rcases abs_eq (by norm_num : (0 : Int) ≤ 2 ^ 53) |>.mp h with h' | h'
      · refine ⟨1, binaryExponent q + 1, by norm_num, ?_⟩
        rw [h', pow2_eq, zpow_sub₀ (by norm_num), zpow_add₀ (by norm_num)]
        norm_num
        ring
      · refine ⟨-1, binaryExponent q + 1, by norm_num, ?_⟩
        rw [h', pow2_eq, zpow_sub₀ (by norm_num), zpow_add₀ (by norm_num)]
        norm_num
        ring

/-- A `double` below an `int` is below it by more than `2 ^ (-53)` times its own
size. -/
theorem isDouble_gap (d : ℚ) (S : Int) (hd : IsDouble d) (hS : |S| < 2 ^ 52)
    (hlt : d < (S : ℚ)) : |d| * (2 : ℚ) ^ (-53 : Int) < (S : ℚ) - d := by
  obtain ⟨m, k, hm, rfl⟩ := hd
  have hp : (2 : ℚ) ^ (-53 : Int) = 1 / 2 ^ 53 := by
    rw [zpow_neg]
    norm_num
  have hmq : |(m : ℚ)| < 2 ^ 53 := by
    rw [← Int.cast_abs]
    exact_mod_cast hm
  have hint : ∀ D : Int, (D : ℚ) < (S : ℚ) → |(D : ℚ)| * (1 / 2 ^ 53) < (S : ℚ) - (D : ℚ) := by
    intro D hD
    have hD' : D < S := by exact_mod_cast hD
    have hSq : |(S : ℚ)| < 2 ^ 52 := by
      rw [← Int.cast_abs]
      exact_mod_cast hS
    have h1 : (1 : ℚ) ≤ (S : ℚ) - (D : ℚ) := by
      have : (1 : Int) ≤ S - D := by omega
      exact_mod_cast this
    rcases abs_lt.mp hSq with ⟨s1, s2⟩
    by_cases hb : |(D : ℚ)| < 2 ^ 53
    · have : |(D : ℚ)| * (1 / 2 ^ 53) < 1 := by
        rw [mul_one_div, div_lt_one (by positivity)]
        exact hb
      linarith
    · push_neg at hb
      have hneg : (D : ℚ) < 0 := by
        by_contra hc
        push_neg at hc
        rw [abs_of_nonneg hc] at hb
        norm_num at hb s2
        linarith
      rw [abs_of_neg hneg] at hb ⊢
      norm_num at hb s1 ⊢
      linarith
  by_cases hk : 0 ≤ k
  · obtain ⟨j, rfl⟩ := Int.eq_ofNat_of_zero_le hk
    have e : (m : ℚ) * (2 : ℚ) ^ (j : Int) = ((m * 2 ^ j : Int) : ℚ) := by
      push_cast
      rw [zpow_natCast]
    rw [hp, e]
    rw [e] at hlt
    exact hint _ hlt
  · obtain ⟨j, hj⟩ : ∃ j : ℕ, k = -(j : ℤ) := ⟨(-k).toNat, by omega⟩
    subst hj
    have hpow : (0 : ℚ) < 2 ^ j := by positivity
    have e : (m : ℚ) * (2 : ℚ) ^ (-(j : Int)) = (m : ℚ) / 2 ^ j := by
      rw [zpow_neg, zpow_natCast, div_eq_mul_inv]
    rw [hp, e]
    rw [e] at hlt
    have hN : (1 : ℚ) ≤ (S : ℚ) * 2 ^ j - (m : ℚ) := by
      have h0 : (m : ℚ) < (S : ℚ) * 2 ^ j := by
        rwa [div_lt_iff₀ hpow] at hlt
      have : m < S * 2 ^ j := by exact_mod_cast h0
      have : (1 : Int) ≤ S * 2 ^ j - m := by omega
      exact_mod_cast this
    have hgap : (1 : ℚ) / 2 ^ j ≤ (S : ℚ) - (m : ℚ) / 2 ^ j := by
      rw [div_le_iff₀ hpow]
      have : ((S : ℚ) - (m : ℚ) / 2 ^ j) * 2 ^ j = (S : ℚ) * 2 ^ j - (m : ℚ) := by
        field_simp
      rw [this]
      exact hN
    have hsmall : |(m : ℚ) / 2 ^ j| * (1 / 2 ^ 53) < 1 / 2 ^ j := by
      rw [abs_div, abs_of_pos hpow, div_mul_eq_mul_div, div_lt_div_iff_of_pos_right hpow,
        mul_one_div, div_lt_one (by positivity)]
      exact hmq
    linarith

/-- The strict bound behind the relative time axis: for a `double` difference `d`
below the `int` window length `S`, the `double` quotient `-d / 3600` is strictly
above the exact number `-S / 3600`. -/
theorem fdiv_neg_bound (d : ℚ) (S : Int) (hd : IsDouble d) (hS : |S| < 2 ^ 52)
    (hlt : d < (S : ℚ)) : -(S : ℚ) / 3600 < fdiv (-d) 3600 := by
  have hg := isDouble_gap d S hd hS hlt
  have he := toDouble_error (-d / 3600)
  unfold fdiv
  rw [abs_le] at he
  have habs : |-d / 3600| = |d| / 3600 := by
    rw [abs_div, abs_neg]
    norm_num
  rw [habs] at he
  have : |d| / 3600 * (2 : ℚ) ^ (-53 : Int) = |d| * (2 : ℚ) ^ (-53 : Int) / 3600 := by ring
  rw [this] at he
  have h3 : -(S : ℚ) / 3600 < -d / 3600 - |d| * (2 : ℚ) ^ (-53 : Int) / 3600 := by
    rw [← sub_div, div_lt_div_iff_of_pos_right (by norm_num)]
    linarith
  linarith [he.1]

/-! ## Properties of the search -/

theorem getD_le_of_sorted (xs : List ℚ) (hs : xs.Sorted (· ≤ ·)) (i j : Nat)
    (hij : i ≤ j) (hj : j < xs.length) : xs.getD i 0 ≤ xs.getD j 0 := by
  have hi : i < xs.length := lt_of_le_of_lt hij hj
  rw [List.getD_eq_getElem xs 0 hi, List.getD_eq_getElem xs 0 hj]
  rcases Nat.lt_or_ge i j with h | h
  · exact (List.pairwise_iff_getElem.mp hs) i j hi hj h
  · have : i = j := le_antisymm hij h
    subst this
    exact le_refl _

theorem upperBoundLoop_spec (xs : List ℚ) (val : ℚ) (hs : xs.Sorted (· ≤ ·)) :
    ∀ fuel first len, len ≤ fuel → first + len ≤ xs.length →
      (∀ i, i < first → xs.getD i 0 ≤ val) →
      (∀ i, first + len ≤ i → i < xs.length → val < xs.getD i 0) →
      upperBoundLoop xs val fuel first len ≤ xs.length ∧
      (∀ i, i < upperBoundLoop xs val fuel first len → xs.getD i 0 ≤ val) ∧
      (∀ i, upperBoundLoop xs val fuel first len ≤ i → i < xs.length → val < xs.getD i 0) := by
  intro fuel
  induction fuel with
  | zero =>
    intro first len hlen hb hlo hhi
    have h0 : len = 0 := Nat.le_zero.mp hlen
    subst h0
    simp only [upperBoundLoop]
    exact ⟨by omega, hlo, fun i hi hl => hhi i (by omega) hl⟩
  | succ fuel ih =>
    intro first len hlen hb hlo hhi
    unfold upperBoundLoop
    by_cases h0 : len = 0
    · subst h0
      simp only [if_true]
      exact ⟨by omega, hlo, fun i hi hl => hhi i (by omega) hl⟩
    · simp only [h0, if_false]
      have hmid : first + len / 2 < xs.length := by omega
      by_cases hc : val < xs.getD (first + len / 2) 0
      · simp only [hc, if_true]
        refine ih first (len / 2) (by omega) (by omega) hlo ?_
        intro i hi hl
        exact lt_of_lt_of_le hc (getD_le_of_sorted xs hs _ _ hi hl)
      · simp only [hc, if_false]
        refine ih (first + len / 2 + 1) (len - len / 2 - 1) (by omega) (by omega) ?_ ?_
        · intro i hi
          exact le_trans (getD_le_of_sorted xs hs i _ (by omega) hmid) (not_lt.mp hc)
        · intro i hi hl
          exact hhi i (by omega) hl

theorem drop_eq_filter_of_split (p : ℚ → Bool) :
    ∀ (xs : List ℚ) (r : Nat),
      (∀ i, i < r → i < xs.length → p (xs.getD i 0) = false) →
      (∀ i, r ≤ i → i < xs.length → p (xs.getD i 0) = true) →
      xs.drop r = xs.filter p := by
  intro xs
  induction xs with
  | nil => intro r _ _; simp
  | cons a t ih =>
    intro r hlo hhi
    cases r with
    | zero =>
      rw [List.drop_zero]
      symm
      rw [List.filter_eq_self]
      intro b hb
      obtain ⟨i, hi, rfl⟩ := List.getElem_of_mem hb
      have := hhi i (Nat.zero_le _) hi
      rwa [List.getD_eq_getElem _ 0 hi] at this
    | succ r =>
      have ha : p a = false := by
        have := hlo 0 (Nat.succ_pos _) (by simp)
        simpa using this
      rw [List.drop_succ_cons, List.filter_cons_of_neg (by simp [ha])]
      apply ih r
      · intro i hi hl
        have := hlo (i + 1) (by omega) (by simp; omega)
        simpa using this
      · intro i hi hl
        have := hhi (i + 1) (by omega) (by simp; omega)
        simpa using this

theorem drop_upper_bound (xs : List ℚ) (val : ℚ) (hs : xs.Sorted (· ≤ ·)) :
    xs.drop (upper_bound xs val) = xs.filter (fun t => decide (val < t)) := by
  have h := upperBoundLoop_spec xs val hs xs.length 0 xs.length (le_refl _) (by omega)
    (fun i hi => absurd hi (Nat.not_lt_zero i)) (fun i hi hl => by omega)
  apply drop_eq_filter_of_split
  · intro i hi _
    have := h.2.1 i hi
    simpa using this
  · intro i hi hl
    have := h.2.2 i hi hl
    simpa using this


/-! ## Properties of the merge -/

theorem upperBoundLoop_le (xs : List ℚ) (val : ℚ) :
    ∀ fuel first len, upperBoundLoop xs val fuel first len ≤ first + len := by
  intro fuel
  induction fuel with
  | zero => intro first len; simp [upperBoundLoop]
  | succ fuel ih =>
    intro first len
    unfold upperBoundLoop
    by_cases h0 : len = 0
    · simp [h0]
    · simp only [h0, if_false]
      by_cases hc : val < xs.getD (first + len / 2) 0
      · simp only [hc, if_true]
        have := ih first (len / 2)
        omega
      · simp only [hc, if_false]
        have := ih (first + len / 2 + 1) (len - len / 2 - 1)
        omega

theorem upper_bound_le (xs : List ℚ) (val : ℚ) : upper_bound xs val ≤ xs.length := by
  have := upperBoundLoop_le xs val xs.length 0 xs.length
  simpa [upper_bound] using this

theorem memcpy_all (dst src : List ℚ) (h : dst.length = src.length) :
    memcpy dst src (src.length * sizeofDouble) = some src := by
  simp [memcpy, sizeofDouble, h]

theorem reuseX_holds (e : epicsData) (X : List ℚ) (startSeconds : ℚ) (n : Int)
    (XValues : List ℚ) (hc : e.valueCount = X.length)
    (hs : e.dataSize = X.length * sizeofDouble) (hb : e.dataB = X) (hpos : 0 < X.length) :
    reuseX e startSeconds n XValues
      = some (X, (upper_bound X (fmul startSeconds 1000) : Int),
          n + (X.drop (upper_bound X (fmul startSeconds 1000))).length,
          X.drop (upper_bound X (fmul startSeconds 1000)) ++ XValues) := by
  have hpos' : (0 : Int) < e.valueCount := by rw [hc]; exact_mod_cast hpos
  have hm : memcpy (resize [] e.valueCount.toNat) e.dataB e.dataSize = some X := by
    rw [hs, hb, hc]
    apply memcpy_all
    simp [resize]
  simp only [reuseX, hpos', if_true, hm]

theorem reuseY_holds (e : epicsData) (Y already : List ℚ) (k : Nat) (YValues : List ℚ)
    (hc : e.valueCount = Y.length) (hs : e.dataSize = Y.length * sizeofDouble)
    (hb : e.dataB = Y) (hpos : 0 < Y.length) (hk : k ≤ Y.length) :
    reuseY e already (k : Int) YValues = some (Y.drop k ++ YValues) := by
  have hpos' : (0 : Int) < e.valueCount := by rw [hc]; exact_mod_cast hpos
  have hk' : ((k : Int) ≠ -1) := by omega
  have hm : memcpy (resize already e.valueCount.toNat) e.dataB e.dataSize = some Y := by
    rw [hs, hb, hc]
    apply memcpy_all
    simp only [resize, Int.toNat_ofNat, List.length_append, List.length_take,
      List.length_replicate]
    omega
  simp only [reuseY, hpos', hk', ne_eq, not_false_eq_true, and_self, if_true, hm,
    Int.toNat_ofNat, hk]

theorem fill_ok (k : knobData) (backend : String) (fecSize : Nat) (n : Int)
    (values : List ℚ) (received : List knobData) (hn : n = values.length) :
    fill k (touch k.edata backend fecSize) true n values received
      = Sum.inr (written k backend fecSize values) := by
  subst hn
  have hm : memcpy (List.replicate values.length 0) values (values.length * sizeofDouble)
      = some values := memcpy_all _ _ (by simp)
  simp [fill, hm, written]

theorem fill_fail (k : knobData) (e : epicsData) (n : Int) (values : List ℚ)
    (received : List knobData) :
    fill k e false n values received = Sum.inl (Outcome.rethrow received) := by
  simp [fill]

/-- The first half of a merge into well-formed, valid slots: the values kept from
the X slot, the offset and the arrays handed on (after lines 258-272). -/
theorem reuseX_total (e : epicsData) (X : List ℚ) (startSeconds : ℚ) (XValues : List ℚ)
    (hc : e.valueCount = X.length) (hs : e.dataSize = X.length * sizeofDouble)
    (hb : e.dataB = X) :
    ∃ already off, reuseX e startSeconds XValues.length XValues
      = some (already, off,
          ((X.drop (upper_bound X (fmul startSeconds 1000)) ++ XValues).length : Int),
          X.drop (upper_bound X (fmul startSeconds 1000)) ++ XValues)
      ∧ (0 < X.length → already = X ∧ off = (upper_bound X (fmul startSeconds 1000) : Int))
      ∧ (X.length = 0 → off = -1) := by
  rcases Nat.eq_zero_or_pos X.length with h0 | hpos
  · have hX0 : X = [] := List.length_eq_zero.mp h0
    subst hX0
    have hv : ¬ (0 : Int) < e.valueCount := by rw [hc]; simp
    refine ⟨[], -1, ?_, ?_, ?_⟩
    · simp [reuseX, hv]
    · intro h; simp at h
    · intro _; rfl
  · refine ⟨X, _, ?_, fun _ => ⟨rfl, rfl⟩, fun h => by omega⟩
    rw [reuseX_holds e X _ _ XValues hc hs hb hpos]
    simp only [List.length_append, Option.some.injEq, Prod.mk.injEq, true_and, and_true]
    omega

/-- The result of a merge into valid slots holding `X` and `Y` when the first
`realloc` succeeds: X is written with the tail of `X` from the offset found by the
search followed by the new times; then, if the second `realloc` succeeds, Y is
written with the tail of `Y` from the same offset followed by the new values and the
call returns, and otherwise `throw;` is executed with only X written. -/
theorem updateCartesianAppended_holds (now : timeb) (fecSize : Nat) (reallocY : Bool)
    (kDataX kDataY : knobData)
    (indexNew : indexes) (X Y XValues YValues : List ℚ) (backend : String)
    (hiX : kDataX.index ≠ -1) (hiY : kDataY.index ≠ -1)
    (hX : Holds kDataX X) (hY : Holds kDataY Y) (hlen : X.length = Y.length)
    (hM : 0 < XValues.length) (hM' : YValues.length = XValues.length) :
    updateCartesianAppended now fecSize true reallocY kDataX kDataY XValues.length indexNew
        XValues YValues backend
      = if reallocY = true then
          Outcome.returned
            [ written kDataX backend fecSize
                (X.drop (upper_bound X (windowStartMs now indexNew)) ++ XValues),
              written kDataY backend fecSize
                (Y.drop (upper_bound X (windowStartMs now indexNew)) ++ YValues) ]
        else
          Outcome.rethrow
            [ written kDataX backend fecSize
                (X.drop (upper_bound X (windowStartMs now indexNew)) ++ XValues) ] := by
  obtain ⟨hcX, hsX, hbX⟩ := hX
  obtain ⟨hcY, hsY, hbY⟩ := hY
  have hn : (0 : Int) < (XValues.length : Int) := by exact_mod_cast hM
  have hidx : ¬ (kDataX.index = -1 ∨ kDataY.index = -1) := by
    intro h
    rcases h with h | h
    · exact hiX h
    · exact hiY h
  obtain ⟨already, off, hr, hpos, hzero⟩ :=
    reuseX_total kDataX.edata X (fsub now.seconds (indexNew.secondsPast : ℚ)) XValues hcX hsX hbX
  unfold updateCartesianAppended
  simp only [hn, if_true, hidx, if_false, hr, windowStartMs]
  rw [fill_ok _ _ _ _ _ _ rfl]
  simp only []
  have hy : reuseY kDataY.edata already off YValues
      = some (Y.drop (upper_bound X (fmul (fsub now.seconds (indexNew.secondsPast : ℚ)) 1000))
          ++ YValues) := by
    rcases Nat.eq_zero_or_pos X.length with h0 | hp
    · have hX0 : X = [] := List.length_eq_zero.mp h0
      have hY0 : Y = [] := List.length_eq_zero.mp (by omega)
      subst hX0 hY0
      have hvy : ¬ (0 : Int) < kDataY.edata.valueCount := by rw [hcY]; simp
      simp [reuseY, hvy]
    · obtain ⟨_, ho⟩ := hpos hp
      rw [ho]
      exact reuseY_holds kDataY.edata Y already _ YValues hcY hsY hbY (by omega)
        (by rw [← hlen]; exact upper_bound_le X _)
  rw [hy]
  simp only []
  cases reallocY with
  | false => rw [fill_fail]; simp
  | true =>
    rw [fill_ok _ _ _ _ _ _ (by
      simp only [List.length_append, List.length_drop]
      omega)]
    simp

/-- A merge whose first `realloc` fails executes `throw;` before any slot is
written. -/
theorem updateCartesianAppended_reallocX_fails (now : timeb) (fecSize : Nat) (reallocY : Bool)
    (kDataX kDataY : knobData)
    (indexNew : indexes) (X XValues YValues : List ℚ) (backend : String)
    (hiX : kDataX.index ≠ -1) (hiY : kDataY.index ≠ -1)
    (hX : Holds kDataX X) (hM : 0 < XValues.length) :
    updateCartesianAppended now fecSize false reallocY kDataX kDataY XValues.length indexNew
        XValues YValues backend = Outcome.rethrow [] := by
  obtain ⟨hcX, hsX, hbX⟩ := hX
  have hn : (0 : Int) < (XValues.length : Int) := by exact_mod_cast hM
  have hidx : ¬ (kDataX.index = -1 ∨ kDataY.index = -1) := by
    intro h
    rcases h with h | h
    · exact hiX h
    · exact hiY h
  obtain ⟨already, off, hr, _, _⟩ :=
    reuseX_total kDataX.edata X (fsub now.seconds (indexNew.secondsPast : ℚ)) XValues hcX hsX hbX
  unfold updateCartesianAppended
  simp only [hn, if_true, hidx, if_false, hr]
  rw [fill_fail]

/-- A call with no new values, or with an invalid slot, writes nothing and returns. -/
theorem updateCartesianAppended_skip (now : timeb) (fecSize : Nat) (reallocX reallocY : Bool)
    (kDataX kDataY : knobData) (numberOfValues : Int)
    (indexNew : indexes) (XValues YValues : List ℚ) (backend : String)
    (h : numberOfValues ≤ 0 ∨ kDataX.index = -1 ∨ kDataY.index = -1) :
    updateCartesianAppended now fecSize reallocX reallocY kDataX kDataY numberOfValues indexNew
        XValues YValues backend = Outcome.returned [] := by
  unfold updateCartesianAppended
  rcases h with h | h
  · have : ¬ 0 < numberOfValues := by omega
    simp [this]
  · by_cases hn : 0 < numberOfValues
    · simp [hn, h]
    · simp [hn]

theorem fill_stop_received (k : knobData) (e : epicsData) (reallocOk : Bool) (n : Int)
    (values : List ℚ) (received : List knobData) (o : Outcome)
    (h : fill k e reallocOk n values received = Sum.inl o) : o.received = received := by
  unfold fill at h
  cases reallocOk with
  | false =>
    simp only [if_true] at h
    cases h
    rfl
  | true =>
    simp only [Bool.true_eq_false, if_false] at h
    cases hm : memcpy (List.replicate n.toNat 0) values (n.toNat * sizeofDouble) with
    | none =>
      rw [hm] at h
      cases h
      rfl
    | some d =>
      rw [hm] at h
      cases h

/-- The time array written by a merge into valid slots when the first `realloc`
succeeds, whatever happens to the Y slot afterwards: the tail of the stored times
from the offset found by the search, followed by the new times. -/
theorem updateCartesianAppended_timeArray (now : timeb) (fecSize : Nat) (reallocY : Bool)
    (kDataX kDataY : knobData)
    (indexNew : indexes) (X XValues YValues : List ℚ) (backend : String)
    (hiX : kDataX.index ≠ -1) (hiY : kDataY.index ≠ -1)
    (hX : Holds kDataX X) (hM : 0 < XValues.length) :
    (updateCartesianAppended now fecSize true reallocY kDataX kDataY XValues.length indexNew
        XValues YValues backend).timeArray
      = some (X.drop (upper_bound X (windowStartMs now indexNew)) ++ XValues) := by
  obtain ⟨hcX, hsX, hbX⟩ := hX
  have hn : (0 : Int) < (XValues.length : Int) := by exact_mod_cast hM
  have hidx : ¬ (kDataX.index = -1 ∨ kDataY.index = -1) := by
    intro h
    rcases h with h | h
    · exact hiX h
    · exact hiY h
  obtain ⟨already, off, hr, _, _⟩ :=
    reuseX_total kDataX.edata X (fsub now.seconds (indexNew.secondsPast : ℚ)) XValues hcX hsX hbX
  unfold updateCartesianAppended
  simp only [hn, if_true, hidx, if_false, hr, windowStartMs]
  rw [fill_ok _ _ _ _ _ _ rfl]
  simp only []
  cases hry : reuseY kDataY.edata already off YValues with
  | none => simp [Outcome.timeArray, Outcome.received, written]
  | some Y2 =>
    simp only []
    cases hf : fill kDataY (touch kDataY.edata backend fecSize) reallocY
        ((X.drop (upper_bound X (fmul (fsub now.seconds (indexNew.secondsPast : ℚ)) 1000))
          ++ XValues).length : Int) Y2
        [written kDataX backend fecSize
          (X.drop (upper_bound X (fmul (fsub now.seconds (indexNew.secondsPast : ℚ)) 1000)) ++ XValues)] with
    | inl o =>
      simp only []
      have := fill_stop_received _ _ _ _ _ _ o hf
      simp [Outcome.timeArray, this, written]
    | inr kY => simp [Outcome.timeArray, Outcome.received, written]

theorem holds_slotOf (i : Int) (vals : List ℚ) : Holds (slotOf i vals) vals := by
  simp [Holds, slotOf]

/-! ## Claims on WindowMerge -/

/-- C1, as stated, fails: with wall time 3600 s and a window of 3600 s the window
starts at 0 ms; the stored times `[0, 5]` are both `≥ 0`, so the claim gives a merged
length of `2 + 1 = 3`, but the search drops the time equal to the window start and
the merged time array has 2 elements. -/
theorem windowMerge_length_counterexample :
    ((updateCartesianAppended ⟨3600, 0⟩ 40 true true (slotOf 1 [0, 5]) (slotOf 2 [7, 8]) 1
        ⟨1, 2, 3600⟩ [9] [10] "b").timeArray.map List.length = some 2)
    ∧ List.countP (fun t => decide (windowStartMs ⟨3600, 0⟩ ⟨1, 2, 3600⟩ ≤ t)) [0, 5] + 1 = 3 := by
  decide!

/-- C1, amended: for valid slots, the X slot holding the times `X` sorted ascending,
and `M ≥ 1` new points, when the `realloc` of the X slot succeeds the merged time
array has as many elements as there are stored times strictly greater than the
window start, plus `M`; the window start is `windowStartMs`, the `double` that the
code computes for `(now - secondsPast) * 1000`. -/
theorem windowMerge_length (now : timeb) (fecSize : Nat) (reallocY : Bool)
    (kDataX kDataY : knobData)
    (indexNew : indexes) (X XValues YValues : List ℚ) (backend : String)
    (hiX : kDataX.index ≠ -1) (hiY : kDataY.index ≠ -1)
    (hX : Holds kDataX X) (hs : X.Sorted (· ≤ ·)) (hM : 1 ≤ XValues.length) :
    (updateCartesianAppended now fecSize true reallocY kDataX kDataY XValues.length indexNew
        XValues YValues backend).timeArray.map List.length
      = some (X.countP (fun t => decide (windowStartMs now indexNew < t))
          + XValues.length) := by
  rw [updateCartesianAppended_timeArray now fecSize reallocY kDataX kDataY indexNew X XValues
    YValues backend hiX hiY hX hM]
  simp only [Option.map_some', List.length_append]
  rw [drop_upper_bound X _ hs, List.countP_eq_length_filter]

/-- C1, witness: at wall time 10000.300 s with a window of 3600 s the computed
window start is `6400300 - 2 ^ (-30)` ms, just below the exact product 6400300; of
the stored times 6400299, 6400300 and 6400301 the last two are kept, and with one
new point the merged time array has 3 elements. -/
theorem windowMerge_length_witness :
    (([6400299, 6400300, 6400301] : List ℚ).Sorted (· ≤ ·)
      ∧ 1 ≤ ([10000000] : List ℚ).length)
    ∧ windowStartMs ⟨10000, 300⟩ ⟨1, 2, 3600⟩ = 6400300 - 1 / 2 ^ 30
    ∧ (updateCartesianAppended ⟨10000, 300⟩ 40 true true
        (slotOf 1 [6400299, 6400300, 6400301]) (slotOf 2 [7, 8, 9])
        ([10000000] : List ℚ).length ⟨1, 2, 3600⟩ [10000000] [10] "b").timeArray.map List.length
      = some 3 :=
  ⟨⟨by norm_num, by simp⟩, by decide!,
    (windowMerge_length ⟨10000, 300⟩ 40 true (slotOf 1 [6400299, 6400300, 6400301])
      (slotOf 2 [7, 8, 9]) ⟨1, 2, 3600⟩ [6400299, 6400300, 6400301] [10000000] [10] "b"
      (by simp [slotOf]) (by simp [slotOf]) (holds_slotOf _ _) (by norm_num) (by simp)).trans
      (by decide!)⟩

/-- C2: for valid slots holding `X` (ascending) and `Y` of equal length and new
arrays of equal length `M ≥ 1`, the call returns, and with `k` the offset located in
the time array by the search (the stored times from `k` on are those strictly
greater than the window start) the stored time array is `X[k:] ++ X'` and the stored
value array is `Y[k:] ++ Y'`; when every stored time is strictly greater than the
window start, `k = 0` and the stored arrays are `X ++ X'` and `Y ++ Y'`.  The window
start is `windowStartMs`, the `double` that the code computes for
`(now - secondsPast) * 1000`. -/
theorem windowMerge_same_offset (now : timeb) (fecSize : Nat) (kDataX kDataY : knobData)
    (indexNew : indexes) (X Y XValues YValues : List ℚ) (backend : String)
    (hiX : kDataX.index ≠ -1) (hiY : kDataY.index ≠ -1)
    (hX : Holds kDataX X) (hY : Holds kDataY Y) (hlen : X.length = Y.length)
    (hs : X.Sorted (· ≤ ·))
    (hM : 1 ≤ XValues.length) (hM' : YValues.length = XValues.length) :
    (updateCartesianAppended now fecSize true true kDataX kDataY XValues.length indexNew
        XValues YValues backend).isReturned = true
    ∧ X.drop (upper_bound X (windowStartMs now indexNew))
        = X.filter (fun t => decide (windowStartMs now indexNew < t))
    ∧ (updateCartesianAppended now fecSize true true kDataX kDataY XValues.length indexNew
        XValues YValues backend).timeArray
        = some (X.drop (upper_bound X (windowStartMs now indexNew)) ++ XValues)
    ∧ (updateCartesianAppended now fecSize true true kDataX kDataY XValues.length indexNew
        XValues YValues backend).valueArray
        = some (Y.drop (upper_bound X (windowStartMs now indexNew)) ++ YValues)
    ∧ ((∀ t ∈ X, windowStartMs now indexNew < t) →
        upper_bound X (windowStartMs now indexNew) = 0
        ∧ (updateCartesianAppended now fecSize true true kDataX kDataY XValues.length indexNew
            XValues YValues backend).timeArray = some (X ++ XValues)
        ∧ (updateCartesianAppended now fecSize true true kDataX kDataY XValues.length indexNew
            XValues YValues backend).valueArray = some (Y ++ YValues)) := by
  rw [updateCartesianAppended_holds now fecSize true kDataX kDataY indexNew X Y XValues YValues
    backend hiX hiY hX hY hlen hM hM']
  have hd := drop_upper_bound X (windowStartMs now indexNew) hs
  refine ⟨by simp [Outcome.isReturned], hd, by simp [Outcome.timeArray, Outcome.received, written],
    by simp [Outcome.valueArray, Outcome.received, written], ?_⟩
  intro hall
  have hk : upper_bound X (windowStartMs now indexNew) = 0 := by
    have hf : X.filter (fun t => decide (windowStartMs now indexNew < t)) = X := by
      rw [List.filter_eq_self]
      intro a ha
      simpa using hall a ha
    have hl := congrArg List.length (hd.trans hf)
    rw [List.length_drop] at hl
    have := upper_bound_le X (windowStartMs now indexNew)
    omega
  refine ⟨hk, ?_, ?_⟩
  · simp [Outcome.timeArray, Outcome.received, written, hk]
  · simp [Outcome.valueArray, Outcome.received, written, hk]

/-- C2, witness: the scenario of ten stored points inside a window of 3600 s and five
new points, where the stored arrays have 10 + 5 = 15 elements; and the merge at wall
time 10000.300 s into the stored times 6400299, 6400300 and 6400301, where the
offset is 1 for both arrays. -/
theorem windowMerge_same_offset_witness :
    (scenarioX.Sorted (· ≤ ·)
    ∧ (∀ t ∈ scenarioX, windowStartMs ⟨10000, 0⟩ ⟨1, 2, 3600⟩ < t)
    ∧ (updateCartesianAppended ⟨10000, 0⟩ 40 true true (slotOf 1 scenarioX) (slotOf 2 scenarioY)
        scenarioNewX.length ⟨1, 2, 3600⟩ scenarioNewX scenarioNewY "b").timeArray
        = some (scenarioX ++ scenarioNewX)
    ∧ (updateCartesianAppended ⟨10000, 0⟩ 40 true true (slotOf 1 scenarioX) (slotOf 2 scenarioY)
        scenarioNewX.length ⟨1, 2, 3600⟩ scenarioNewX scenarioNewY "b").valueArray
        = some (scenarioY ++ scenarioNewY)
    ∧ (scenarioX ++ scenarioNewX).length = 15 ∧ (scenarioY ++ scenarioNewY).length = 15)
    ∧ (updateCartesianAppended ⟨10000, 300⟩ 40 true true
        (slotOf 1 [6400299, 6400300, 6400301]) (slotOf 2 [7, 8, 9])
        ([10000000] : List ℚ).length ⟨1, 2, 3600⟩ [10000000] [10] "b").timeArray
        = some [6400300, 6400301, 10000000]
    ∧ (updateCartesianAppended ⟨10000, 300⟩ 40 true true
        (slotOf 1 [6400299, 6400300, 6400301]) (slotOf 2 [7, 8, 9])
        ([10000000] : List ℚ).length ⟨1, 2, 3600⟩ [10000000] [10] "b").valueArray
        = some [8, 9, 10] :=
  have hs : scenarioX.Sorted (· ≤ ·) := by norm_num [scenarioX]
  have hall : ∀ t ∈ scenarioX, windowStartMs ⟨10000, 0⟩ ⟨1, 2, 3600⟩ < t := by decide!
  have h := (windowMerge_same_offset ⟨10000, 0⟩ 40 (slotOf 1 scenarioX) (slotOf 2 scenarioY)
    ⟨1, 2, 3600⟩ scenarioX scenarioY scenarioNewX scenarioNewY "b" (by simp [slotOf])
    (by simp [slotOf]) (holds_slotOf _ _) (holds_slotOf _ _) rfl hs (by simp [scenarioNewX])
    rfl).2.2.2.2 hall
  have h2 := windowMerge_same_offset ⟨10000, 300⟩ 40 (slotOf 1 [6400299, 6400300, 6400301])
    (slotOf 2 [7, 8, 9]) ⟨1, 2, 3600⟩ [6400299, 6400300, 6400301] [7, 8, 9] [10000000] [10]
    "b" (by simp [slotOf]) (by simp [slotOf]) (holds_slotOf _ _) (holds_slotOf _ _) rfl
    (by norm_num) (by simp) rfl
  ⟨⟨hs, hall, h.2.1, h.2.2, rfl, rfl⟩, h2.2.2.1.trans (by decide!),
    h2.2.2.2.1.trans (by decide!)⟩

/-- C3: when the X and Y slot copies hold the same number of values and the new
arrays both have exactly `numberOfValues` elements, the call returns without any
copy running past the end of an array, and afterwards the two slots have the same
`valueCount`, which is the number of elements of the array each of them holds (with
`dataSize` that many doubles). -/
theorem windowMerge_counts_equal (now : timeb) (fecSize : Nat) (kDataX kDataY : knobData)
    (numberOfValues : Int) (indexNew : indexes) (X Y XValues YValues : List ℚ)
    (backend : String)
    (hX : Holds kDataX X) (hY : Holds kDataY Y) (hlen : X.length = Y.length)
    (hMX : (XValues.length : Int) = numberOfValues)
    (hMY : (YValues.length : Int) = numberOfValues) :
    (updateCartesianAppended now fecSize true true kDataX kDataY numberOfValues indexNew
        XValues YValues backend).isReturned = true
    ∧ ((updateCartesianAppended now fecSize true true kDataX kDataY numberOfValues indexNew
        XValues YValues backend).slotAfter 0 kDataX).edata.valueCount
      = ((updateCartesianAppended now fecSize true true kDataX kDataY numberOfValues indexNew
        XValues YValues backend).slotAfter 1 kDataY).edata.valueCount
    ∧ Holds ((updateCartesianAppended now fecSize true true kDataX kDataY numberOfValues indexNew
        XValues YValues backend).slotAfter 0 kDataX)
        ((updateCartesianAppended now fecSize true true kDataX kDataY numberOfValues indexNew
        XValues YValues backend).slotAfter 0 kDataX).edata.dataB
    ∧ Holds ((updateCartesianAppended now fecSize true true kDataX kDataY numberOfValues indexNew
        XValues YValues backend).slotAfter 1 kDataY)
        ((updateCartesianAppended now fecSize true true kDataX kDataY numberOfValues indexNew
        XValues YValues backend).slotAfter 1 kDataY).edata.dataB := by
  by_cases hskip : numberOfValues ≤ 0 ∨ kDataX.index = -1 ∨ kDataY.index = -1
  · rw [updateCartesianAppended_skip now fecSize true true kDataX kDataY numberOfValues indexNew
      XValues YValues backend hskip]
    obtain ⟨hcX, hsX, hbX⟩ := hX
    obtain ⟨hcY, hsY, hbY⟩ := hY
    refine ⟨rfl, ?_, ?_, ?_⟩
    · simp [Outcome.slotAfter, Outcome.received, hcX, hcY, hlen]
    · simp [Outcome.slotAfter, Outcome.received, Holds, hcX, hsX, hbX]
    · simp [Outcome.slotAfter, Outcome.received, Holds, hcY, hsY, hbY]
  · simp only [not_or, not_le] at hskip
    obtain ⟨hn, hiX, hiY⟩ := hskip
    have hM : 0 < XValues.length := by omega
    have hM' : YValues.length = XValues.length := by omega
    subst hMX
    rw [updateCartesianAppended_holds now fecSize true kDataX kDataY indexNew X Y XValues YValues
      backend hiX hiY hX hY hlen hM hM']
    refine ⟨rfl, ?_, ?_, ?_⟩
    · simp only [if_true, Outcome.slotAfter, Outcome.received, List.get?_cons_zero,
        List.get?_cons_succ, Option.getD_some, written, List.length_append, List.length_drop]
      omega
    · simp [Outcome.slotAfter, Outcome.received, Holds, written]
    · simp [Outcome.slotAfter, Outcome.received, Holds, written]

/-- C3, witness: two stored points in each slot and one new point. -/
theorem windowMerge_counts_equal_witness :
    ((updateCartesianAppended ⟨3600, 0⟩ 40 true true (slotOf 1 [0, 5]) (slotOf 2 [7, 8]) 1
        ⟨1, 2, 3600⟩ [9] [10] "b").slotAfter 0 (slotOf 1 [0, 5])).edata.valueCount
      = ((updateCartesianAppended ⟨3600, 0⟩ 40 true true (slotOf 1 [0, 5]) (slotOf 2 [7, 8]) 1
        ⟨1, 2, 3600⟩ [9] [10] "b").slotAfter 1 (slotOf 2 [7, 8])).edata.valueCount :=
  (windowMerge_counts_equal ⟨3600, 0⟩ 40 (slotOf 1 [0, 5]) (slotOf 2 [7, 8]) 1 ⟨1, 2, 3600⟩
    [0, 5] [7, 8] [9] [10] "b" (holds_slotOf _ _) (holds_slotOf _ _) rfl rfl rfl).2.1

/-- C4, as stated, fails: the stored times `[1000, 3000]` and the new times `[2000]`
are both ascending (and all inside the window), and the merged time array is
`[1000, 3000, 2000]`, which is not ascending. -/
theorem windowMerge_sorted_counterexample :
    ([1000, 3000] : List ℚ).Sorted (· ≤ ·) ∧ ([2000] : List ℚ).Sorted (· ≤ ·)
    ∧ (updateCartesianAppended ⟨3600, 0⟩ 40 true true (slotOf 1 [1000, 3000]) (slotOf 2 [7, 8]) 1
        ⟨1, 2, 3600⟩ [2000] [9] "b").timeArray = some [1000, 3000, 2000]
    ∧ ¬ ([1000, 3000, 2000] : List ℚ).Sorted (· ≤ ·) := by
  refine ⟨by norm_num, by norm_num, by decide!, by norm_num⟩

/-- C4, amended: for valid slots, the X slot holding the times `X` sorted ascending,
and new times `X'` that are ascending and not earlier than any stored time inside
the window, the merged time array written by the call is ascending. -/
theorem windowMerge_sorted (now : timeb) (fecSize : Nat) (reallocY : Bool)
    (kDataX kDataY : knobData)
    (indexNew : indexes) (X XValues YValues : List ℚ) (backend : String)
    (hiX : kDataX.index ≠ -1) (hiY : kDataY.index ≠ -1)
    (hX : Holds kDataX X)
    (hs : X.Sorted (· ≤ ·)) (hs' : XValues.Sorted (· ≤ ·))
    (hord : ∀ a ∈ X, windowStartMs now indexNew < a → ∀ b ∈ XValues, a ≤ b)
    (hM : 1 ≤ XValues.length) :
    ∃ merged,
      (updateCartesianAppended now fecSize true reallocY kDataX kDataY XValues.length indexNew
        XValues YValues backend).timeArray = some merged
      ∧ merged.Sorted (· ≤ ·) := by
  rw [updateCartesianAppended_timeArray now fecSize reallocY kDataX kDataY indexNew X XValues
    YValues backend hiX hiY hX hM]
  refine ⟨X.drop (upper_bound X (windowStartMs now indexNew)) ++ XValues, rfl, ?_⟩
  rw [drop_upper_bound X _ hs]
  unfold List.Sorted
  rw [List.pairwise_append]
  refine ⟨List.Pairwise.filter _ hs, hs', ?_⟩
  intro a ha b hb
  rw [List.mem_filter] at ha
  exact hord a ha.1 (by simpa using ha.2) b hb

/-- C4, witness: stored times `[1000, 3000]` and new times `[3000, 4000]`. -/
theorem windowMerge_sorted_witness :
    ([1000, 3000] : List ℚ).Sorted (· ≤ ·) ∧ ([3000, 4000] : List ℚ).Sorted (· ≤ ·)
    ∧ ∃ merged,
      (updateCartesianAppended ⟨3600, 0⟩ 40 true true (slotOf 1 [1000, 3000]) (slotOf 2 [7, 8])
        ([3000, 4000] : List ℚ).length ⟨1, 2, 3600⟩ [3000, 4000] [9, 10] "b").timeArray
        = some merged
      ∧ merged.Sorted (· ≤ ·) :=
  have hs : ([1000, 3000] : List ℚ).Sorted (· ≤ ·) := by norm_num
  have hs' : ([3000, 4000] : List ℚ).Sorted (· ≤ ·) := by norm_num
  ⟨hs, hs', windowMerge_sorted ⟨3600, 0⟩ 40 true (slotOf 1 [1000, 3000]) (slotOf 2 [7, 8])
    ⟨1, 2, 3600⟩ [1000, 3000] [3000, 4000] [9, 10] "b" (by simp [slotOf])
    (by simp [slotOf]) (holds_slotOf _ _) hs hs' (by norm_num) (by simp)⟩

/-- C5, as stated, fails: when the `realloc` of the X slot fails the call does not
return: it ends in the `throw;` statement. -/
theorem realloc_failure_counterexample :
    updateCartesianAppended ⟨3600, 0⟩ 40 false true (slotOf 1 [0, 5]) (slotOf 2 [7, 8]) 1
        ⟨1, 2, 3600⟩ [9] [10] "b" = Outcome.rethrow []
    ∧ (updateCartesianAppended ⟨3600, 0⟩ 40 false true (slotOf 1 [0, 5]) (slotOf 2 [7, 8]) 1
        ⟨1, 2, 3600⟩ [9] [10] "b").isReturned = false := by
  constructor <;> decide!

/-- C5, amended: in a merge of `M ≥ 1` new points into valid slots holding `X` and
`Y`, a failing `realloc` ends the call in the `throw;` statement instead of a return:
for the X slot before any slot is written, for the Y slot after the X slot (and only
it) has been written with its merged array. -/
theorem realloc_failure_throws (now : timeb) (fecSize : Nat) (reallocY : Bool)
    (kDataX kDataY : knobData)
    (indexNew : indexes) (X Y XValues YValues : List ℚ) (backend : String)
    (hiX : kDataX.index ≠ -1) (hiY : kDataY.index ≠ -1)
    (hX : Holds kDataX X) (hY : Holds kDataY Y) (hlen : X.length = Y.length)
    (hM : 1 ≤ XValues.length) (hM' : YValues.length = XValues.length) :
    updateCartesianAppended now fecSize false reallocY kDataX kDataY XValues.length indexNew
        XValues YValues backend = Outcome.rethrow []
    ∧ updateCartesianAppended now fecSize true false kDataX kDataY XValues.length indexNew
        XValues YValues backend
      = Outcome.rethrow [written kDataX backend fecSize
          (X.drop (upper_bound X (windowStartMs now indexNew)) ++ XValues)] := by
  constructor
  · exact updateCartesianAppended_reallocX_fails now fecSize reallocY kDataX kDataY indexNew X
      XValues YValues backend hiX hiY hX hM
  · rw [updateCartesianAppended_holds now fecSize false kDataX kDataY indexNew X Y XValues YValues
      backend hiX hiY hX hY hlen hM hM']
    simp

/-- C5, witness: the `realloc` of the Y slot fails after the X slot was written. -/
theorem realloc_failure_throws_witness :
    updateCartesianAppended ⟨3600, 0⟩ 40 true false (slotOf 1 [0, 5]) (slotOf 2 [7, 8])
        ([9] : List ℚ).length ⟨1, 2, 3600⟩ [9] [10] "b"
      = Outcome.rethrow [written (slotOf 1 [0, 5]) "b" 40
          (([0, 5] : List ℚ).drop (upper_bound [0, 5] (windowStartMs ⟨3600, 0⟩ ⟨1, 2, 3600⟩))
            ++ [9])] :=
  (realloc_failure_throws ⟨3600, 0⟩ 40 true (slotOf 1 [0, 5]) (slotOf 2 [7, 8]) ⟨1, 2, 3600⟩
    [0, 5] [7, 8] [9] [10] "b" (by simp [slotOf]) (by simp [slotOf]) (holds_slotOf _ _)
    (holds_slotOf _ _) rfl (by simp) rfl).2

/-! ## Properties of the parser loop -/

theorem take_succ_set (v : ℚ) : ∀ (xs : List ℚ) (c : Nat), c < xs.length →
    (xs.set c v).take (c + 1) = xs.take c ++ [v] := by
  intro xs
  induction xs with
  | nil => intro c h; simp at h
  | cons a t ih =>
    intro c h
    cases c with
    | zero => simp
    | succ c =>
      have h' : c < t.length := by simpa using h
      simp [ih c h']

theorem keep_append (seconds : ℚ) (secondsPast : Int) (pre : List (ℚ × ℚ)) (p : ℚ × ℚ) :
    keep seconds secondsPast (pre ++ [p])
      = keep seconds secondsPast pre
        ++ (if isRetained seconds secondsPast p.1 = true then [p] else []) := by
  unfold keep
  rw [List.filter_append]
  by_cases h : isRetained seconds secondsPast p.1 = true
  · simp [h]
  · simp [h]

theorem keep_length_le (seconds : ℚ) (secondsPast : Int) (pre : List (ℚ × ℚ)) :
    (keep seconds secondsPast pre).length ≤ pre.length :=
  List.length_filter_le _ _

/-- One iteration of the loop keeps the loop state in step with the samples
visited, and its writes are in bounds. -/
theorem storeSample_step (seconds : ℚ) (secondsPast : Int) (abs : Bool) (n : Nat)
    (y0 : List ℚ) (pre : List (ℚ × ℚ)) (st : Fill) (t mean : ℚ)
    (hinv : LoopInv seconds secondsPast abs n y0 pre st) (hlt : pre.length < n) :
    ∃ st', storeSample seconds secondsPast abs t mean st = some st'
      ∧ LoopInv seconds secondsPast abs n y0 (pre ++ [(t, mean)]) st' := by
  obtain ⟨hx, hy, hc, htx, hty, hy0⟩ := hinv
  have hcn : st.count < n := by
    have := keep_length_le seconds secondsPast pre
    omega
  by_cases hr : isRetained seconds secondsPast t = true
  · have hr' : t ≠ 0 ∧ fsub seconds t < (secondsPast : ℚ) := by
      simpa [isRetained] using hr
    have hk := keep_append seconds secondsPast pre (t, mean)
    simp only [hr, if_true] at hk
    cases abs with
    | false =>
      refine ⟨{ st with vecX := st.vecX.set st.count (fdiv (-(fsub seconds t)) 3600),
                        count := st.count + 1 }, ?_, ?_⟩
      · simp [storeSample, hr'.1, hr'.2, setAt, hx, hcn]
      · refine ⟨by simp [hx], hy, ?_, ?_, ?_, ?_⟩
        · simp [hk, hc]
        · simp only []
          rw [take_succ_set _ _ _ (by omega), htx, hk]
          simp [encodeX]
        · intro h; cases h
        · intro _; exact hy0 rfl
    | true =>
      refine ⟨{ vecX := st.vecX.set st.count (fmul t 1000),
                vecY := st.vecY.set st.count mean, count := st.count + 1 }, ?_, ?_⟩
      · simp [storeSample, hr'.1, hr'.2, setAt, hx, hy, hcn]
      · refine ⟨by simp [hx], by simp [hy], ?_, ?_, ?_, ?_⟩
        · simp [hk, hc]
        · simp only []
          rw [take_succ_set _ _ _ (by omega), htx, hk]
          simp [encodeX]
        · intro _
          simp only []
          rw [take_succ_set _ _ _ (by omega), hty rfl, hk]
          simp
        · intro h; cases h
  · have hk : keep seconds secondsPast (pre ++ [(t, mean)]) = keep seconds secondsPast pre := by
      rw [keep_append]
      simp [hr]
    have hr' : ¬ (t ≠ 0 ∧ fsub seconds t < (secondsPast : ℚ)) := by
      simpa [isRetained] using hr
    refine ⟨st, ?_, ?_⟩
    · unfold storeSample
      by_cases h0 : t ≠ 0
      · have : ¬ fsub seconds t < (secondsPast : ℚ) := fun h => hr' ⟨h0, h⟩
        simp [h0, this]
      · simp [h0]
    · exact ⟨hx, hy, by rw [hk]; exact hc, by rw [hk]; exact htx,
        by rw [hk]; exact hty, hy0⟩

/-- The loop over a list of indices, from a state in step with the samples `pre`. -/
theorem foldlM_storeSample (seconds : ℚ) (secondsPast : Int) (abs : Bool) (n : Nat)
    (y0 : List ℚ) (smp : Nat → ℚ × ℚ) :
    ∀ (idx : List Nat) (pre : List (ℚ × ℚ)) (st : Fill),
      LoopInv seconds secondsPast abs n y0 pre st → pre.length + idx.length ≤ n →
      ∃ st', idx.foldlM
          (fun st i => storeSample seconds secondsPast abs (smp i).1 (smp i).2 st) st = some st'
        ∧ LoopInv seconds secondsPast abs n y0 (pre ++ idx.map smp) st' := by
  intro idx
  induction idx with
  | nil =>
    intro pre st hinv _
    exact ⟨st, rfl, by simpa using hinv⟩
  | cons i rest ih =>
    intro pre st hinv hlen
    have hlt : pre.length < n := by simp at hlen; omega
    obtain ⟨st1, h1, hinv1⟩ :=
      storeSample_step seconds secondsPast abs n y0 pre st (smp i).1 (smp i).2 hinv hlt
    obtain ⟨st2, h2, hinv2⟩ := ih (pre ++ [smp i]) st1 hinv1 (by simp at hlen ⊢; omega)
    refine ⟨st2, ?_, by simpa using hinv2⟩
    simp only [List.foldlM_cons, h1, Option.bind_eq_bind, Option.some_bind]
    exact h2

/-- The loop of `finishReply` never writes out of bounds and ends in step with all
the samples of the response. -/
theorem fillLoop_spec (seconds : ℚ) (secondsPast : Int) (isBinned abs : Bool)
    (rootObject : List (String × QJsonValue)) (ValueJson : QJsonValue) (x0 y0 : List ℚ) :
    ∃ st, fillLoop seconds secondsPast isBinned abs rootObject ValueJson
        { vecX := resize x0 ValueJson.toArray.length,
          vecY := resize y0 ValueJson.toArray.length, count := 0 } = some st
      ∧ LoopInv seconds secondsPast abs ValueJson.toArray.length
          (resize y0 ValueJson.toArray.length) (samples isBinned rootObject ValueJson) st := by
  have hres : ∀ (v : List ℚ) (n : Nat), (resize v n).length = n := by
    intro v n
    simp only [resize, List.length_append, List.length_take, List.length_replicate]
    omega
  have h0 : LoopInv seconds secondsPast abs ValueJson.toArray.length
      (resize y0 ValueJson.toArray.length) []
      { vecX := resize x0 ValueJson.toArray.length,
        vecY := resize y0 ValueJson.toArray.length, count := 0 } := by
    refine ⟨hres _ _, hres _ _, by simp [keep], by simp [keep], ?_, ?_⟩
    · intro _; simp [keep]
    · intro _; rfl
  obtain ⟨st, hst, hinv⟩ := foldlM_storeSample seconds secondsPast abs ValueJson.toArray.length
    (resize y0 ValueJson.toArray.length)
    (fun i => (archiveTimeAt isBinned rootObject i,
      sampleMean (ValueJson.at 0).isDouble (ValueJson.at i)))
    (List.range ValueJson.toArray.length) [] _ h0 (by simp)
  exact ⟨st, hst, by simpa [samples] using hinv⟩

theorem noteContinueAt_fields (s : HttpRetrieval) (rootObject : List (String × QJsonValue)) :
    (noteContinueAt s rootObject).m_isBinned = s.m_isBinned
    ∧ (noteContinueAt s rootObject).m_PV = s.m_PV
    ∧ (noteContinueAt s rootObject).m_vecX = s.m_vecX
    ∧ (noteContinueAt s rootObject).m_vecY = s.m_vecY
    ∧ (noteContinueAt s rootObject).m_secondsPast = s.m_secondsPast
    ∧ (noteContinueAt s rootObject).m_isAbsoluteTimeAxis = s.m_isAbsoluteTimeAxis
    ∧ (noteContinueAt s rootObject).m_errorString = s.m_errorString := by
  unfold noteContinueAt
  split <;> exact ⟨rfl, rfl, rfl, rfl, rfl, rfl, rfl⟩

/-- The parsing step on a payload that parses to a non-empty object: it succeeds,
marks the request finished with an empty error string, and leaves the output vectors
and the point count in step with the samples of the response. -/
theorem parseReply_parsed (env : Env) (s : HttpRetrieval) (out : QByteArray)
    (doc : QJsonValue) (hdoc : env.fromJson out = some doc) (hroot : doc.toObject ≠ []) :
    ∃ s' st, parseReply env s out = some s'
      ∧ s'.m_vecX = st.vecX ∧ s'.m_vecY = st.vecY ∧ s'.m_totalNumberOfPoints = (st.count : Int)
      ∧ s'.m_isFinished = true ∧ s'.loopQuit = true ∧ s'.m_errorString = ""
      ∧ LoopInv env.now.seconds s.m_secondsPast s.m_isAbsoluteTimeAxis
          (selectValues s.m_isBinned s.m_PV doc.toObject).toArray.length
          (resize s.m_vecY (selectValues s.m_isBinned s.m_PV doc.toObject).toArray.length)
          (samples s.m_isBinned doc.toObject (selectValues s.m_isBinned s.m_PV doc.toObject))
          st := by
  obtain ⟨st, hst', hinv⟩ := fillLoop_spec env.now.seconds s.m_secondsPast s.m_isBinned
    s.m_isAbsoluteTimeAxis doc.toObject (selectValues s.m_isBinned s.m_PV doc.toObject)
    s.m_vecX s.m_vecY
  have hroot' : (doc.toObject).isEmpty = false := by
    cases h : doc.toObject with
    | nil => exact absurd h hroot
    | cons a t => rfl
  obtain ⟨f1, f2, f3, f4, f5, f6, f7⟩ :=
    noteContinueAt_fields { s with m_errorString := "" } doc.toObject
  unfold parseReply
  simp only [hdoc, hroot', Option.isNone_some, Bool.false_eq_true, or_self, if_false,
    f1, f2, f3, f4, f5, f6, hst']
  exact ⟨_, st, rfl, rfl, rfl, rfl, rfl, rfl, f7, hinv⟩

/-- The flat-schema path of `finishReply`: for a reply with status 200 and no
error whose payload parses to a non-empty object, the call finishes like the parsing
step. -/
theorem finishReply_parsed (env : Env) (s : HttpRetrieval) (reply : QNetworkReply)
    (hab : s.m_isAborted = false) (hst : reply.status = 200)
    (herr : reply.error = NetworkError.NoError)
    (hne : payload env reply.body ≠ []) :
    finishReply env s reply = parseReply env s (payload env reply.body) := by
  have hred : isRedirectStatus reply.status = false := by rw [hst]; rfl
  have hne' : (payload env reply.body).isEmpty = false := by
    cases h : payload env reply.body with
    | nil => exact absurd h hne
    | cons a t => rfl
  have h200 : ¬ reply.status ≠ 200 := by simp [hst]
  have herr' : ¬ reply.error ≠ NetworkError.NoError := by simp [herr]
  unfold finishReply
  simp only [hab, hred, h200, herr', hne', Bool.false_eq_true, if_false]

theorem parses_example (status200 : Int) (h : status200 = 200) :
    Parses (exampleEnv exampleDoc) (exampleReply status200 NetworkError.NoError) exampleDoc := by
  subst h
  refine ⟨rfl, rfl, ?_, rfl, ?_⟩
  · decide
  · simp [exampleDoc, QJsonValue.toObject]

theorem parses_boundary (status200 : Int) (h : status200 = 200) :
    Parses boundaryEnv (exampleReply status200 NetworkError.NoError) boundaryDoc := by
  subst h
  refine ⟨rfl, rfl, ?_, rfl, ?_⟩
  · decide
  · simp [boundaryDoc, QJsonValue.toObject]

/-- The outcome of `finishReply` on a successfully parsed flat-schema response. -/
theorem finishReply_samples (env : Env) (s : HttpRetrieval) (reply : QNetworkReply)
    (doc : QJsonValue) (hab : s.m_isAborted = false) (hp : Parses env reply doc) :
    ∃ s' st, finishReply env s reply = some s'
      ∧ s'.m_vecX = st.vecX ∧ s'.m_vecY = st.vecY ∧ s'.m_totalNumberOfPoints = (st.count : Int)
      ∧ s'.m_isFinished = true ∧ s'.loopQuit = true ∧ s'.m_errorString = ""
      ∧ LoopInv env.now.seconds s.m_secondsPast s.m_isAbsoluteTimeAxis
          (selectValues s.m_isBinned s.m_PV doc.toObject).toArray.length
          (resize s.m_vecY (selectValues s.m_isBinned s.m_PV doc.toObject).toArray.length)
          (samples s.m_isBinned doc.toObject (selectValues s.m_isBinned s.m_PV doc.toObject))
          st := by
  obtain ⟨hst, herr, hne, hdoc, hroot⟩ := hp
  rw [finishReply_parsed env s reply hab hst herr hne]
  exact parseReply_parsed env s _ doc hdoc hroot

/-! ## Claims on the response parser -/

/-- C6: for every successfully parsed flat-schema response, `finishReply`
succeeds; the retained samples are a sublist of the samples of the response (input
order kept), each of them satisfies `(now - sampleTime) < secondsPast`, every sample
with non-zero time satisfying that condition is among them, the first `getCount`
entries of the X output are their encoded times in that order, and `getCount` is
their number.  Here `now`, the sample time and their difference are the `double`
values that the code computes (`env.now.seconds`, `archiveTimeAt` and `fsub`). -/
theorem finishReply_filter (env : Env) (s : HttpRetrieval) (reply : QNetworkReply)
    (doc : QJsonValue) (hab : s.m_isAborted = false) (hp : Parses env reply doc) :
    ∃ s', finishReply env s reply = some s'
      ∧ s'.getCount = ((keep env.now.seconds s.m_secondsPast
          (samples s.m_isBinned doc.toObject
            (selectValues s.m_isBinned s.m_PV doc.toObject))).length : Int)
      ∧ s'.m_vecX.take s'.getCount.toNat
          = (keep env.now.seconds s.m_secondsPast
              (samples s.m_isBinned doc.toObject
                (selectValues s.m_isBinned s.m_PV doc.toObject))).map
              (fun p => encodeX env.now.seconds s.m_isAbsoluteTimeAxis p.1)
      ∧ (keep env.now.seconds s.m_secondsPast
          (samples s.m_isBinned doc.toObject
            (selectValues s.m_isBinned s.m_PV doc.toObject))).Sublist
          (samples s.m_isBinned doc.toObject (selectValues s.m_isBinned s.m_PV doc.toObject))
      ∧ (∀ p ∈ keep env.now.seconds s.m_secondsPast
          (samples s.m_isBinned doc.toObject
            (selectValues s.m_isBinned s.m_PV doc.toObject)),
          fsub env.now.seconds p.1 < (s.m_secondsPast : ℚ))
      ∧ (∀ p ∈ samples s.m_isBinned doc.toObject
            (selectValues s.m_isBinned s.m_PV doc.toObject),
          p.1 ≠ 0 → fsub env.now.seconds p.1 < (s.m_secondsPast : ℚ) →
          p ∈ keep env.now.seconds s.m_secondsPast
            (samples s.m_isBinned doc.toObject
              (selectValues s.m_isBinned s.m_PV doc.toObject))) := by
  obtain ⟨s', st, hs', hx, _, hcnt, _, _, _, hinv⟩ := finishReply_samples env s reply doc hab hp
  obtain ⟨_, _, hc, htx, _, _⟩ := hinv
  refine ⟨s', hs', ?_, ?_, List.filter_sublist _, ?_, ?_⟩
  · simp only [HttpRetrieval.getCount, hcnt, hc]
  · simp only [HttpRetrieval.getCount, hcnt, Int.toNat_ofNat, hx]
    exact htx
  · intro p hp'
    have := (List.mem_filter.mp hp').2
    simp only [isRetained, decide_eq_true_eq] at this
    exact this.2
  · intro p hp' h0 hlt
    exact List.mem_filter.mpr ⟨hp', by simp only [isRetained, decide_eq_true_eq]; exact ⟨h0, hlt⟩⟩

/-- C6, witness: at wall time 1000.002 s with a window of 489 s, the sample 2 ms
after the anchor 511 s has the computed time 511.002 s (rounded up) and the computed
age `489 - 2 ^ (-44)` s, below 489: it is retained, and the point count is 1. -/
theorem finishReply_filter_witness :
    fsub boundaryEnv.now.seconds (archiveTimeAt false boundaryDoc.toObject 0) = 489 - 1 / 2 ^ 44
    ∧ ∃ s', finishReply boundaryEnv (boundaryState true)
        (exampleReply 200 NetworkError.NoError) = some s'
      ∧ s'.getCount = 1 :=
  have h := finishReply_filter boundaryEnv (boundaryState true)
    (exampleReply 200 NetworkError.NoError) boundaryDoc rfl (parses_boundary 200 rfl)
  ⟨by decide!, h.imp (fun _ hs => ⟨hs.1, hs.2.1.trans (by decide!)⟩)⟩

/-- C7, evaluated at a failing input: in relative time-axis mode (fresh object,
window 3600 s, wall time 1000 s) the response with values 5, 6, 7 at times 901 s,
0 s, 950 s is parsed with two retained samples, whose values are 5 and 7, and the
Y output is left at `[0, 0, 0]`: the values are not stored. -/
theorem finishReply_relative_values_not_stored :
    (finishReply (exampleEnv exampleDoc) (exampleState false)
        (exampleReply 200 NetworkError.NoError)).map
        (fun s => (s.getCount, s.m_vecY)) = some (2, [0, 0, 0])
    ∧ (keep (exampleEnv exampleDoc).now.seconds 3600
        (samples false exampleDoc.toObject
          (selectValues false "" exampleDoc.toObject))).map Prod.snd = [5, 7] := by
  constructor <;> decide!

/-- In absolute time-axis mode the first `getCount` entries of the Y output are the
values of the retained samples, in order. -/
theorem finishReply_absolute_values (env : Env) (s : HttpRetrieval) (reply : QNetworkReply)
    (doc : QJsonValue) (hab : s.m_isAborted = false) (hp : Parses env reply doc)
    (habs : s.m_isAbsoluteTimeAxis = true) :
    ∃ s', finishReply env s reply = some s'
      ∧ s'.m_vecY.take s'.getCount.toNat
          = (keep env.now.seconds s.m_secondsPast
              (samples s.m_isBinned doc.toObject
                (selectValues s.m_isBinned s.m_PV doc.toObject))).map Prod.snd := by
  obtain ⟨s', st, hs', _, hy, hcnt, _, _, _, hinv⟩ := finishReply_samples env s reply doc hab hp
  obtain ⟨_, _, _, _, hty, _⟩ := hinv
  refine ⟨s', hs', ?_⟩
  simp only [HttpRetrieval.getCount, hcnt, Int.toNat_ofNat, hy]
  exact hty habs

/-- In relative time-axis mode the Y output is the previous Y vector resized to the
number of samples: no value of the response is stored. -/
theorem finishReply_relative_values (env : Env) (s : HttpRetrieval) (reply : QNetworkReply)
    (doc : QJsonValue) (hab : s.m_isAborted = false) (hp : Parses env reply doc)
    (hrel : s.m_isAbsoluteTimeAxis = false) :
    ∃ s', finishReply env s reply = some s'
      ∧ s'.m_vecY
          = resize s.m_vecY (selectValues s.m_isBinned s.m_PV doc.toObject).toArray.length := by
  obtain ⟨s', st, hs', _, hy, _, _, _, _, hinv⟩ := finishReply_samples env s reply doc hab hp
  obtain ⟨_, _, _, _, _, hy0⟩ := hinv
  exact ⟨s', hs', by rw [hy]; exact hy0 hrel⟩

/-- C8: for every successfully parsed flat-schema response, the X value stored for
each retained sample, in order, is `t * 1000` in absolute mode and `-(now - t) / 3600`
in relative mode, `t` being the sample time and the expressions being evaluated in
`double` arithmetic as the code does; and in relative mode, for a window length in
the range of `int`, every stored X is strictly greater than the exact number
`-secondsPast / 3600`. -/
theorem finishReply_time_axis (env : Env) (s : HttpRetrieval) (reply : QNetworkReply)
    (doc : QJsonValue) (hab : s.m_isAborted = false) (hp : Parses env reply doc)
    (hlo : INT_MIN ≤ s.m_secondsPast) (hhi : s.m_secondsPast ≤ INT_MAX) :
    ∃ s', finishReply env s reply = some s'
      ∧ s'.m_vecX.take s'.getCount.toNat
          = (keep env.now.seconds s.m_secondsPast
              (samples s.m_isBinned doc.toObject
                (selectValues s.m_isBinned s.m_PV doc.toObject))).map
              (fun p => if s.m_isAbsoluteTimeAxis = true then fmul p.1 1000
                        else fdiv (-(fsub env.now.seconds p.1)) 3600)
      ∧ (s.m_isAbsoluteTimeAxis = false →
          ∀ x ∈ s'.m_vecX.take s'.getCount.toNat, -(s.m_secondsPast : ℚ) / 3600 < x) := by
  obtain ⟨s', st, hs', hx, _, hcnt, _, _, _, hinv⟩ := finishReply_samples env s reply doc hab hp
  obtain ⟨_, _, _, htx, _, _⟩ := hinv
  have hX : s'.m_vecX.take s'.getCount.toNat
      = (keep env.now.seconds s.m_secondsPast
          (samples s.m_isBinned doc.toObject
            (selectValues s.m_isBinned s.m_PV doc.toObject))).map
          (fun p => if s.m_isAbsoluteTimeAxis = true then fmul p.1 1000
                    else fdiv (-(fsub env.now.seconds p.1)) 3600) := by
    simp only [HttpRetrieval.getCount, hcnt, Int.toNat_ofNat, hx]
    exact htx
  refine ⟨s', hs', hX, ?_⟩
  intro hrel x hxmem
  rw [hX, List.mem_map] at hxmem
  obtain ⟨p, hpk, rfl⟩ := hxmem
  have hret := (List.mem_filter.mp hpk).2
  simp only [isRetained, decide_eq_true_eq] at hret
  simp only [hrel, Bool.false_eq_true, if_false]
  have hS : |s.m_secondsPast| < 2 ^ 52 := by
    unfold INT_MIN at hlo
    unfold INT_MAX at hhi
    rw [abs_lt]
    constructor <;> omega
  exact fdiv_neg_bound _ _ (toDouble_isDouble _) hS hret.2

/-- C8, witness: the sample of age `489 - 2 ^ (-44)` s in a window of 489 s: in
relative mode its stored X is above `-489 / 3600`. -/
theorem finishReply_time_axis_witness :
    ∃ s', finishReply boundaryEnv (boundaryState false)
        (exampleReply 200 NetworkError.NoError) = some s'
      ∧ s'.getCount = 1
      ∧ ∀ x ∈ s'.m_vecX.take s'.getCount.toNat, -(((489 : Int) : ℚ)) / 3600 < x :=
  have h := finishReply_time_axis boundaryEnv (boundaryState false)
    (exampleReply 200 NetworkError.NoError) boundaryDoc rfl (parses_boundary 200 rfl)
    (by decide) (by decide)
  h.imp (fun s' hs => ⟨hs.1, by
    have h6 := finishReply_samples boundaryEnv (boundaryState false)
      (exampleReply 200 NetworkError.NoError) boundaryDoc rfl (parses_boundary 200 rfl)
    obtain ⟨s2, st, e2, _, _, hcnt, _, _, _, hinv⟩ := h6
    have : s' = s2 := Option.some.inj (hs.1.symm.trans e2)
    subst this
    simp only [HttpRetrieval.getCount, hcnt, hinv.2.2.1]
    decide!, hs.2.2 rfl⟩)

/-- The time of an unbinned sample is the `double` value of the anchor plus the
decoded offset times `0.001`: the product is made in `double`, without wrap-around. -/
theorem archiveTimeUnbinned_eq (secondsAnchor : Int) (ms : QJsonValue) :
    archiveTimeUnbinned secondsAnchor ms
      = fadd (secondsAnchor : ℚ) (fmul (ms.toInt : ℚ) (toDouble (1 / 1000))) := by
  unfold archiveTimeUnbinned
  rfl

/-- The time of a binned sample is the `double` value of the anchor plus the sum of
the decoded bin bounds times `0.0005` (the midpoint) when the sum of the bounds is in
the range of `int`. -/
theorem archiveTimeBinned_eq (secondsAnchor : Int) (first last : QJsonValue)
    (hlo : INT_MIN ≤ first.toInt + last.toInt) (hhi : first.toInt + last.toInt ≤ INT_MAX) :
    archiveTimeBinned secondsAnchor first last
      = fadd (secondsAnchor : ℚ)
          (fmul ((first.toInt : ℚ) + (last.toInt : ℚ)) (toDouble (5 / 10000))) := by
  have hw : wrapInt32 (first.toInt + last.toInt) = first.toInt + last.toInt := by
    unfold wrapInt32
    unfold INT_MIN at hlo
    unfold INT_MAX at hhi
    omega
  unfold archiveTimeBinned
  rw [hw]
  push_cast
  rfl

/-- C9, evaluated at a failing input: for a bin whose bounds are both 1200000000 ms
after the anchor 1700000000 s, the `int` sum of the bounds overflows and the time
computed is the `double` nearest to 1700000000 - 947483.648 s (1699052516.352 s, less
than the anchor), while the anchor plus the midpoint of the bin bounds is
1701200000 s. -/
theorem archiveTime_binned_overflow :
    archiveTimeAt true exampleBinnedDoc.toObject 0 = toDouble (1700000000 - 947483648 / 1000)
    ∧ archiveTimeAt true exampleBinnedDoc.toObject 0 = 7126342765545259 / 4194304
    ∧ |archiveTimeAt true exampleBinnedDoc.toObject 0 - (1700000000 - 947483648 / 1000)|
        < 1 / 1000000
    ∧ ((1700000000 : Int) : ℚ) + (((1200000000 : Int) : ℚ) + ((1200000000 : Int) : ℚ)) / 2000
        = 1701200000 := by
  refine ⟨by decide!, by decide!, by decide!, by norm_num⟩

/-! ## Properties of the request cycle -/

theorem append_ne_empty_left (a b : String) (h : a ≠ "") : a ++ b ≠ "" := by
  intro he
  apply h
  have hd := congrArg String.data he
  rw [String.data_append] at hd
  exact String.ext (List.append_eq_nil.mp hd).1

theorem append_ne_empty_right (a b : String) (h : b ≠ "") : a ++ b ≠ "" := by
  intro he
  apply h
  have hd := congrArg String.data he
  rw [String.data_append] at hd
  exact String.ext (List.append_eq_nil.mp hd).2

theorem statusMessage_ne_empty (head : String) (status : Int) (reason url : String)
    (h : head ≠ "") : statusMessage head status reason url ≠ "" := by
  unfold statusMessage
  exact append_ne_empty_left _ _ (append_ne_empty_left _ _ (append_ne_empty_left _ _
    (append_ne_empty_left _ _ (append_ne_empty_left _ _ h))))

/-- The failure branches of `finishReply` (lines 255-275): a reply whose status is
neither a redirect status nor 200, or whose status is 200 and which carries an
error, leaves the point count, the output vectors and the finished flag as they
were, sets a non-empty error string and stops the event loop. -/
theorem finishReply_failure (env : Env) (s : HttpRetrieval) (reply : QNetworkReply)
    (hab : s.m_isAborted = false) (hred : isRedirectStatus reply.status = false)
    (hfail : reply.status ≠ 200 ∨ reply.error ≠ NetworkError.NoError) :
    ∃ s', finishReply env s reply = some s'
      ∧ s'.m_totalNumberOfPoints = s.m_totalNumberOfPoints
      ∧ s'.m_isFinished = s.m_isFinished
      ∧ s'.m_vecX = s.m_vecX ∧ s'.m_vecY = s.m_vecY
      ∧ s'.m_errorString ≠ "" ∧ s'.loopQuit = true := by
  unfold finishReply
  rw [if_neg (by simp [hab]), if_neg (by simp [hred])]
  by_cases h200 : reply.status ≠ 200
  · rw [if_pos h200]
    exact ⟨_, rfl, rfl, rfl, rfl, rfl,
      statusMessage_ne_empty _ _ _ _ (by decide), rfl⟩
  · have herr : reply.error ≠ NetworkError.NoError := by
      rcases hfail with h | h
      · exact absurd h h200
      · exact h
    rw [if_neg h200, if_pos herr]
    exact ⟨_, rfl, rfl, rfl, rfl, rfl,
      append_ne_empty_left _ _ (append_ne_empty_right _ _ (by decide)), rfl⟩

theorem exec_first (env : Env) (s s' : HttpRetrieval) (e : Event) (rest : List Event)
    (h : dispatch env s e = some s') (hq : s'.loopQuit = true) :
    exec env s (e :: rest) = some s' := by
  simp only [exec, h, hq, if_true]

/-! ## Claims on the request cycle -/

/-- C10, as stated, fails: a reply with redirect status 302 that carries the
transport-level error `RemoteHostClosedError` (the connection was closed before the
whole reply was received) is handled as a redirect, and `requestUrl` returns `true`. -/
theorem requestUrl_failure_counterexample :
    (requestUrl (exampleEnv exampleDoc) HttpRetrieval.new "http://archive/" "" 3600 false true
        "pv" [Event.reply (exampleReply 302 NetworkError.RemoteHostClosedError)]).map
      (fun p => (p.2, p.1.is_Redirected)) = some (true, true) := by
  decide!

/-- C10, amended: for every reply whose status code is neither 200 nor one of
301/302/303/307/308, with or without a transport-level error, and for every reply
with status 200 that carries a transport-level error, a request that receives this
reply first ends with `getCount = 0`, a non-empty `lastError`, and `requestUrl`
returning `false`. -/
theorem requestUrl_failure (env : Env) (s : HttpRetrieval) (url backend : String)
    (secondsPast : Int) (binned timeAxis : Bool) (key : String) (reply : QNetworkReply)
    (rest : List Event)
    (hred : isRedirectStatus reply.status = false)
    (hfail : reply.status ≠ 200 ∨ reply.error ≠ NetworkError.NoError) :
    ∃ s', requestUrl env s url backend secondsPast binned timeAxis key
        (Event.reply reply :: rest) = some (s', false)
      ∧ s'.getCount = 0 ∧ s'.lastError ≠ "" := by
  obtain ⟨s', hs', hcnt, hfin, _, _, herr, hq⟩ := finishReply_failure env
    { s with
      m_isAborted := false
      m_isFinished := false
      m_totalNumberOfPoints := 0
      m_secondsPast := secondsPast
      m_downloadUrl := url
      m_isBinned := binned
      m_isAbsoluteTimeAxis := timeAxis
      m_errorString := ""
      m_backend := backend
      m_PV := key
      m_networkReply := true
      loopQuit := false } reply rfl hred hfail
  refine ⟨s', ?_, hcnt, herr⟩
  unfold requestUrl
  simp only []
  rw [exec_first env _ s' (Event.reply reply) rest hs' hq]
  simp only [hfin]

/-- C10, witness: a reply with status 500. -/
theorem requestUrl_failure_witness :
    ∃ s', requestUrl (exampleEnv exampleDoc) HttpRetrieval.new "http://archive/" "" 3600 false
        true "pv" [Event.reply (exampleReply 500 NetworkError.NoError)] = some (s', false)
      ∧ s'.getCount = 0 ∧ s'.lastError ≠ "" :=
  requestUrl_failure (exampleEnv exampleDoc) HttpRetrieval.new "http://archive/" "" 3600 false
    true "pv" (exampleReply 500 NetworkError.NoError) [] (by decide) (Or.inl (by decide))

/-! ## Redirect, decompression fallback and cancellation -/

theorem requestUrl_first (env : Env) (s s' : HttpRetrieval) (url backend : String)
    (secondsPast : Int) (binned timeAxis : Bool) (key : String) (e : Event)
    (rest : List Event)
    (h : dispatch env (armed s url backend secondsPast binned timeAxis key) e = some s')
    (hq : s'.loopQuit = true) :
    requestUrl env s url backend secondsPast binned timeAxis key (e :: rest)
      = some (s', s'.m_isFinished) := by
  have he := exec_first env _ s' e rest h hq
  unfold armed at he
  unfold requestUrl
  simp only []
  rw [he]

theorem finishReply_redirect (env : Env) (s : HttpRetrieval) (reply : QNetworkReply)
    (hab : s.m_isAborted = false) (hred : isRedirectStatus reply.status = true) :
    finishReply env s reply
      = some { s with
          m_errorString := statusMessage "Temporary Redirect status code " reply.status
            reply.reasonPhrase s.m_downloadUrl
          m_isFinished := true
          m_isRedirected := true
          m_redirectedUrl := reply.location }.downloadFinished := by
  unfold finishReply
  rw [if_neg (by simp [hab]), if_pos hred]

theorem finishReply_aborted (env : Env) (s : HttpRetrieval) (reply : QNetworkReply)
    (hab : s.m_isAborted = true) :
    finishReply env s reply
      = some { s with m_errorString := s.m_errorString ++ "\n Retrieval was aborted \n" } := by
  unfold finishReply
  rw [if_pos hab]

theorem isRedirectStatus_of_code (status : Int)
    (h : status = 301 ∨ status = 302 ∨ status = 303 ∨ status = 307 ∨ status = 308) :
    isRedirectStatus status = true := by
  rcases h with h | h | h | h | h <;> subst h <;> rfl

theorem gUncompress_short (run : ZlibRun) (data : QByteArray) (h : data.length ≤ 4) :
    gUncompress run data = some [] := by
  unfold gUncompress
  rw [if_pos h]

theorem payload_fallback (env : Env) (body : QByteArray)
    (hfail : gUncompress (env.zlib body) body = none
      ∨ gUncompress (env.zlib body) body = some []) :
    payload env body = body := by
  unfold payload
  rcases hfail with h | h
  · rw [h]
    by_cases hb : body.isEmpty = true
    · simp [hb]
    · simp [hb]
  · rw [h]
    simp

/-- C11: a request whose reply has status 301, 302, 303, 307 or 308 ends with
`requestUrl` returning `true`, zero points, `is_Redirected()` true and
`getRedirected_Url()` equal to the `location` header of the reply; the output vectors
are those the object had before, and the outcome is the same whatever the body of
the reply, the parser and zlib are: no body is parsed. -/
theorem requestUrl_redirect (env : Env) (s : HttpRetrieval) (url backend : String)
    (secondsPast : Int) (binned timeAxis : Bool) (key : String) (reply : QNetworkReply)
    (rest : List Event)
    (hst : reply.status = 301 ∨ reply.status = 302 ∨ reply.status = 303
      ∨ reply.status = 307 ∨ reply.status = 308) :
    ∃ s', requestUrl env s url backend secondsPast binned timeAxis key
        (Event.reply reply :: rest) = some (s', true)
      ∧ s'.getCount = 0 ∧ s'.is_Redirected = true
      ∧ s'.getRedirected_Url = reply.location
      ∧ s'.getData = s.getData
      ∧ ∀ (env' : Env) (body' : QByteArray),
          requestUrl env' s url backend secondsPast binned timeAxis key
            (Event.reply { reply with body := body' } :: rest) = some (s', true) := by
  have hred := isRedirectStatus_of_code reply.status hst
  have hd : ∀ (env' : Env) (body' : QByteArray),
      dispatch env' (armed s url backend secondsPast binned timeAxis key)
        (Event.reply { reply with body := body' })
      = some { armed s url backend secondsPast binned timeAxis key with
          m_errorString := statusMessage "Temporary Redirect status code " reply.status
            reply.reasonPhrase url
          m_isFinished := true
          m_isRedirected := true
          m_redirectedUrl := reply.location }.downloadFinished :=
    fun env' body' => finishReply_redirect env' _ { reply with body := body' } rfl hred
  refine ⟨_, requestUrl_first env s _ url backend secondsPast binned timeAxis key
    (Event.reply reply) rest (hd env reply.body) rfl, rfl, rfl, rfl, rfl, ?_⟩
  intro env' body'
  exact requestUrl_first env' s _ url backend secondsPast binned timeAxis key
    (Event.reply { reply with body := body' }) rest (hd env' body') rfl

/-- C11, witness: a reply with status 301. -/
theorem requestUrl_redirect_witness :
    ∃ s', requestUrl (exampleEnv exampleDoc) HttpRetrieval.new "http://archive/" "" 3600 false
        true "pv" [Event.reply (exampleReply 301 NetworkError.NoError)] = some (s', true)
      ∧ s'.getCount = 0 ∧ s'.is_Redirected = true
      ∧ s'.getRedirected_Url = "http://other/" :=
  (requestUrl_redirect (exampleEnv exampleDoc) HttpRetrieval.new "http://archive/" "" 3600 false
    true "pv" (exampleReply 301 NetworkError.NoError) [] (Or.inl rfl)).imp
    (fun _ h => ⟨h.1, h.2.1, h.2.2.1, h.2.2.2.1⟩)

theorem parseReply_failed (env : Env) (s : HttpRetrieval) (out : QByteArray)
    (hfail : env.fromJson out = none ∨ ∃ doc, env.fromJson out = some doc ∧ doc.toObject = []) :
    parseReply env s out
      = some { s with
          m_errorString := "could not parse json string left=" ++ bytesToQString (out.take 20)
            ++ " right=" ++ bytesToQString (out.drop (out.length - 20))
          loopQuit := true } := by
  rcases hfail with h | ⟨doc, h, hroot⟩
  · simp [parseReply, h, HttpRetrieval.downloadFinished]
  · simp [parseReply, h, hroot, HttpRetrieval.downloadFinished]

theorem parseReply_isAborted (env : Env) (s s' : HttpRetrieval) (out : QByteArray)
    (h : parseReply env s out = some s') : s'.m_isAborted = s.m_isAborted := by
  unfold parseReply at h
  simp only [] at h
  split at h
  · cases h
    rfl
  · split at h
    · cases h
    · cases h
      simp only [HttpRetrieval.downloadFinished, noteContinueAt]
      split <;> rfl

theorem finishReply_body_read (env : Env) (s : HttpRetrieval) (reply : QNetworkReply)
    (hab : s.m_isAborted = false) (hst : reply.status = 200)
    (herr : reply.error = NetworkError.NoError) :
    finishReply env s { reply with body := [] }
      = some { s with
          m_errorString := s.m_errorString ++ "\n HTTP response was empty \n"
          loopQuit := true } := by
  have hred : isRedirectStatus reply.status = false := by rw [hst]; rfl
  have h200 : ¬ reply.status ≠ 200 := by simp [hst]
  have herr' : ¬ reply.error ≠ NetworkError.NoError := by simp [herr]
  have hp : payload env [] = [] := by
    unfold payload
    rw [gUncompress_short (env.zlib []) [] (Nat.zero_le 4)]
    rfl
  unfold finishReply
  rw [if_neg (by simp [hab]), if_neg (by simp [hred]), if_neg h200, if_neg herr']
  simp only [hp]
  rfl

/-- C12, counterexample: the two-byte body that is the JSON text of the empty
object, in a reply with status 200 and no error.  `gUncompress` yields an empty
result for it, the parser is handed the raw body and returns the empty object, and
`finishReply` ends with the error string of a parse failure, with the finished flag
not set and no point. -/
theorem finishReply_decompression_fallback_counterexample :
    bytesToQString [123, 125] = "\x7b\x7d"
    ∧ gUncompress ((exampleEnv (QJsonValue.object [])).zlib [123, 125]) [123, 125] = some []
    ∧ payload (exampleEnv (QJsonValue.object [])) [123, 125] = [123, 125]
    ∧ (exampleEnv (QJsonValue.object [])).fromJson [123, 125] = some (QJsonValue.object [])
    ∧ (finishReply (exampleEnv (QJsonValue.object [])) (exampleState true)
        { exampleReply 200 NetworkError.NoError with body := [123, 125] }).map
          (fun s => (s.lastError, s.m_isFinished, s.getCount))
        = some ("could not parse json string left=\x7b\x7d right=\x7b\x7d", false, 0) :=
  ⟨by decide!, by decide!, by decide!, rfl, by decide!⟩

/-- C12: for a reply with status 200 and no error whose body is non-empty and for
which `gUncompress` raises or returns an empty array (as it does for every body of at
most 4 bytes), the bytes handed to the parser are the raw body and `finishReply`
ends like the parsing step run on the raw body.  When the raw body parses to a
non-empty object the call succeeds with an empty error string, the finished flag set
and the point count of the retained samples of that object; a further run of
`finishReply` on the object for the same reply with its body read (empty) keeps the
points, the count and the finished flag and leaves the error string
`"\n HTTP response was empty \n"`.  When the parser raises or what it returns is not
a non-empty object, the call ends with the error string
`could not parse json string left=.. right=..`, which is not empty, and the finished
flag, the point count and the output vectors are those from before the call. -/
theorem finishReply_decompression_fallback (env : Env) (s : HttpRetrieval)
    (reply : QNetworkReply)
    (hab : s.m_isAborted = false) (hst : reply.status = 200)
    (herr : reply.error = NetworkError.NoError) (hne : reply.body ≠ [])
    (hfail : gUncompress (env.zlib reply.body) reply.body = none
      ∨ gUncompress (env.zlib reply.body) reply.body = some []) :
    payload env reply.body = reply.body
    ∧ finishReply env s reply = parseReply env s reply.body
    ∧ (reply.body.length ≤ 4 → gUncompress (env.zlib reply.body) reply.body = some [])
    ∧ (∀ doc, env.fromJson reply.body = some doc → doc.toObject ≠ [] →
        ∃ s', finishReply env s reply = some s' ∧ s'.lastError = ""
          ∧ s'.m_isFinished = true
          ∧ s'.getCount = ((keep env.now.seconds s.m_secondsPast
              (samples s.m_isBinned doc.toObject
                (selectValues s.m_isBinned s.m_PV doc.toObject))).length : Int)
          ∧ ∃ s2, finishReply env s' { reply with body := [] } = some s2
            ∧ s2.lastError = "\n HTTP response was empty \n"
            ∧ s2.m_isFinished = true ∧ s2.getCount = s'.getCount
            ∧ s2.getData = s'.getData)
    ∧ ((env.fromJson reply.body = none
          ∨ ∃ doc, env.fromJson reply.body = some doc ∧ doc.toObject = []) →
        ∃ s', finishReply env s reply = some s'
          ∧ s'.lastError = "could not parse json string left="
              ++ bytesToQString (reply.body.take 20) ++ " right="
              ++ bytesToQString (reply.body.drop (reply.body.length - 20))
          ∧ s'.lastError ≠ ""
          ∧ s'.m_isFinished = s.m_isFinished ∧ s'.getCount = s.getCount
          ∧ s'.getData = s.getData) := by
  have hp := payload_fallback env reply.body hfail
  have hf : finishReply env s reply = parseReply env s reply.body := by
    rw [finishReply_parsed env s reply hab hst herr (by rw [hp]; exact hne), hp]
  refine ⟨hp, hf, gUncompress_short _ _, ?_, ?_⟩
  · intro doc hdoc hroot
    obtain ⟨s', st, hs', _, _, hcnt, hfin, _, herr', hinv⟩ :=
      parseReply_parsed env s reply.body doc hdoc hroot
    obtain ⟨_, _, hc, _, _, _⟩ := hinv
    have hab' : s'.m_isAborted = false := by
      rw [parseReply_isAborted env s s' reply.body hs', hab]
    refine ⟨s', by rw [hf]; exact hs', herr', hfin, ?_, ?_⟩
    · simp only [HttpRetrieval.getCount, hcnt, hc]
    · refine ⟨_, finishReply_body_read env s' reply hab' hst herr, ?_, hfin, rfl, rfl⟩
      simp only [HttpRetrieval.lastError, herr']
      rfl
  · intro hbad
    refine ⟨{ s with
        m_errorString := "could not parse json string left="
          ++ bytesToQString (reply.body.take 20) ++ " right="
          ++ bytesToQString (reply.body.drop (reply.body.length - 20))
        loopQuit := true },
      by rw [hf]; exact parseReply_failed env s reply.body hbad, rfl, ?_, rfl, rfl, rfl⟩
    simp only [HttpRetrieval.lastError]
    intro h
    have hl := congrArg String.length h
    simp only [String.length_append] at hl
    have h0 : ("could not parse json string left=" : String).length = 33 := by decide
    have h1 : ("" : String).length = 0 := rfl
    rw [h0, h1] at hl
    omega

/-- C12, witness: the six-byte body of the example reply, on which zlib fails, with
a parser that returns the three-sample document: the raw body is parsed, and the call
ends with an empty error string and two points. -/
theorem finishReply_decompression_fallback_witness :
    payload (exampleEnv exampleDoc) (exampleReply 200 NetworkError.NoError).body
      = (exampleReply 200 NetworkError.NoError).body
    ∧ finishReply (exampleEnv exampleDoc) (exampleState true)
        (exampleReply 200 NetworkError.NoError)
      = parseReply (exampleEnv exampleDoc) (exampleState true)
          (exampleReply 200 NetworkError.NoError).body
    ∧ ∃ s', finishReply (exampleEnv exampleDoc) (exampleState true)
          (exampleReply 200 NetworkError.NoError) = some s'
        ∧ s'.lastError = "" ∧ s'.getCount = 2 :=
  have h := finishReply_decompression_fallback (exampleEnv exampleDoc) (exampleState true)
    (exampleReply 200 NetworkError.NoError) rfl rfl rfl (by decide) (Or.inr (by decide))
  ⟨h.1, h.2.1, (h.2.2.2.1 exampleDoc rfl (List.cons_ne_nil _ _)).imp
    (fun _ hs => ⟨hs.1, hs.2.1, hs.2.2.2.1.trans (by decide!)⟩)⟩

/-- C13: in every state, `cancelDownload` succeeds and leaves the point count at 0,
the object marked aborted, the event loop stopped and the finished flag as it was; a
reply delivered to `finishReply` afterwards only appends the aborted note to the error
string (point count, output vectors and finished flag are unchanged); and a request
that is cancelled while it waits ends with `requestUrl` returning `false`, zero
points and the object marked aborted. -/
theorem cancelDownload_zero_points (env : Env) (s : HttpRetrieval)
    (finished : Option QNetworkReply) :
    ∃ s', cancelDownload env s finished = some s'
      ∧ s'.getCount = 0 ∧ s'.m_isAborted = true ∧ s'.loopQuit = true
      ∧ s'.m_isFinished = s.m_isFinished
      ∧ (∀ reply, finishReply env s' reply
          = some { s' with m_errorString := s'.m_errorString ++ "\n Retrieval was aborted \n" })
      ∧ (∀ (url backend : String) (secondsPast : Int) (binned timeAxis : Bool) (key : String)
          (rest : List Event),
          ∃ s2, requestUrl env s url backend secondsPast binned timeAxis key
              (Event.cancel finished :: rest) = some (s2, false)
            ∧ s2.getCount = 0 ∧ s2.m_isAborted = true) := by
  have hc : ∀ (t : HttpRetrieval), ∃ t', cancelDownload env t finished = some t'
      ∧ t'.getCount = 0 ∧ t'.m_isAborted = true ∧ t'.loopQuit = true
      ∧ t'.m_isFinished = t.m_isFinished := by
    intro t
    unfold cancelDownload
    cases hn : t.m_networkReply with
    | false =>
      simp only [hn, Bool.false_eq_true, if_false, Option.map_some']
      exact ⟨_, rfl, rfl, rfl, rfl, rfl⟩
    | true =>
      cases finished with
      | none =>
        simp only [hn, if_true, Option.map_some']
        exact ⟨_, rfl, rfl, rfl, rfl, rfl⟩
      | some reply =>
        simp only [hn, if_true]
        rw [finishReply_aborted env _ reply rfl]
        exact ⟨_, rfl, rfl, rfl, rfl, rfl⟩
  obtain ⟨s', hs', h0, hab, hq, hfin⟩ := hc s
  refine ⟨s', hs', h0, hab, hq, hfin, fun reply => finishReply_aborted env s' reply hab, ?_⟩
  intro url backend secondsPast binned timeAxis key rest
  obtain ⟨s2, hs2, h20, h2ab, h2q, h2fin⟩ :=
    hc (armed s url backend secondsPast binned timeAxis key)
  refine ⟨s2, ?_, h20, h2ab⟩
  have h2f : s2.m_isFinished = false := h2fin
  rw [requestUrl_first env s s2 url backend secondsPast binned timeAxis key
    (Event.cancel finished) rest hs2 h2q, h2f]

/-! ## Properties of the key normalization -/

theorem stripCurveIndex_cons (wordChar : Char → Bool) (pw : Bool) (a : Char) (t : List Char)
    (ha : isCurveDigit a = false) :
    stripCurveIndex wordChar pw (a :: t) = a :: stripCurveIndex wordChar (wordChar a) t := by
  cases t with
  | nil => simp [stripCurveIndex]
  | cons b t => simp [stripCurveIndex, ha]

theorem stripCurveIndex_eq_nil (wordChar : Char → Bool) (pw : Bool) (b : Char) (t : List Char)
    (h : stripCurveIndex wordChar pw (b :: t) = []) :
    pw ≠ wordChar b ∧ isCurveDigit b = true := by
  cases t with
  | nil => simp [stripCurveIndex] at h
  | cons c t =>
    unfold stripCurveIndex at h
    by_cases hm : pw ≠ wordChar b ∧ isCurveDigit b = true ∧ c = '_'
    · exact ⟨hm.1, hm.2.1⟩
    · rw [if_neg hm] at h
      cases h

/-- Removing the matches of `\b[0-7]_` from the concatenation of a text that does
not end with a character in `[0-7]` and a text that does not start with one removes
them from each part: no match straddles the junction. -/
theorem stripCurveIndex_append (wordChar : Char → Bool) (y0 : Char) (r : List Char)
    (hy : isCurveDigit y0 = false) :
    ∀ (n : Nat) (xs : List Char) (pw pw' : Bool), xs.length ≤ n → EndsClean xs →
      stripCurveIndex wordChar pw (xs ++ y0 :: r)
        = stripCurveIndex wordChar pw xs ++ stripCurveIndex wordChar pw' (y0 :: r) := by
  intro n
  induction n with
  | zero =>
    intro xs pw pw' hlen _
    have : xs = [] := List.length_eq_zero.mp (Nat.le_zero.mp hlen)
    subst this
    simp [stripCurveIndex, stripCurveIndex_cons wordChar _ y0 r hy]
  | succ n ih =>
    intro xs pw pw' hlen hclean
    cases xs with
    | nil => simp [stripCurveIndex, stripCurveIndex_cons wordChar _ y0 r hy]
    | cons a t =>
      cases t with
      | nil =>
        have ha : isCurveDigit a = false := hclean a rfl
        rw [List.singleton_append, stripCurveIndex_cons wordChar pw a _ ha,
          stripCurveIndex_cons wordChar _ y0 r hy, stripCurveIndex_cons wordChar pw' y0 r hy]
        simp [stripCurveIndex]
      | cons b t =>
        have hc' : EndsClean (b :: t) := by
          intro d hd
          exact hclean d (by simpa using hd)
        by_cases hm : pw ≠ wordChar a ∧ isCurveDigit a = true ∧ b = '_'
        · have hct : EndsClean t := by
            intro d hd
            cases t with
            | nil => simp at hd
            | cons c t => exact hclean d (by simpa using hd)
          have h1 : stripCurveIndex wordChar pw ((a :: b :: t) ++ y0 :: r)
              = stripCurveIndex wordChar (wordChar '_') (t ++ y0 :: r) := by
            simp only [List.cons_append]
            rw [stripCurveIndex, if_pos hm]
          have h2 : stripCurveIndex wordChar pw (a :: b :: t)
              = stripCurveIndex wordChar (wordChar '_') t := by
            rw [stripCurveIndex, if_pos hm]
          rw [h1, h2]
          exact ih t _ pw' (by simp at hlen; omega) hct
        · have h1 : stripCurveIndex wordChar pw ((a :: b :: t) ++ y0 :: r)
              = a :: stripCurveIndex wordChar (wordChar a) ((b :: t) ++ y0 :: r) := by
            simp only [List.cons_append]
            rw [stripCurveIndex, if_neg hm]
          have h2 : stripCurveIndex wordChar pw (a :: b :: t)
              = a :: stripCurveIndex wordChar (wordChar a) (b :: t) := by
            rw [stripCurveIndex, if_neg hm]
          rw [h1, h2, ih (b :: t) _ pw' (by simp at hlen ⊢; omega) hc']
          rfl

/-- Removing the matches of `\b[0-7]_` does not bring a character of `[0-7]` to the
end of a text, when the characters of `[0-7]` are word characters. -/
theorem endsClean_stripCurveIndex (wordChar : Char → Bool)
    (hw : ∀ c, isCurveDigit c = true → wordChar c = true) :
    ∀ (n : Nat) (xs : List Char) (pw : Bool), xs.length ≤ n → EndsClean xs →
      EndsClean (stripCurveIndex wordChar pw xs) := by
  intro n
  induction n with
  | zero =>
    intro xs pw hlen _
    have : xs = [] := List.length_eq_zero.mp (Nat.le_zero.mp hlen)
    subst this
    intro d hd
    simp [stripCurveIndex] at hd
  | succ n ih =>
    intro xs pw hlen hclean
    cases xs with
    | nil => intro d hd; simp [stripCurveIndex] at hd
    | cons a t =>
      cases t with
      | nil => simpa [stripCurveIndex] using hclean
      | cons b t =>
        by_cases hm : pw ≠ wordChar a ∧ isCurveDigit a = true ∧ b = '_'
        · have hct : EndsClean t := by
            intro d hd
            cases t with
            | nil => simp at hd
            | cons c t => exact hclean d (by simpa using hd)
          rw [stripCurveIndex, if_pos hm]
          exact ih t _ (by simp at hlen; omega) hct
        · have hc' : EndsClean (b :: t) := by
            intro d hd
            exact hclean d (by simpa using hd)
          rw [stripCurveIndex, if_neg hm]
          have hrec := ih (b :: t) (wordChar a) (by simp at hlen ⊢; omega) hc'
          cases hL : stripCurveIndex wordChar (wordChar a) (b :: t) with
          | nil =>
            obtain ⟨hne, hb⟩ := stripCurveIndex_eq_nil wordChar _ b t hL
            intro d hd
            simp only [List.getLast?_singleton, Option.some.injEq] at hd
            subst hd
            cases hda : isCurveDigit a with
            | false => rfl
            | true =>
              exfalso
              apply hne
              rw [hw a hda, hw b hb]
          | cons c L =>
            rw [hL] at hrec
            intro d hd
            exact hrec d (by simpa using hd)

theorem isPrefixOf_append_of_not_mem (y0 : Char) (r : List Char) :
    ∀ (ps t : List Char), y0 ∉ ps →
      ps.isPrefixOf (t ++ y0 :: r) = ps.isPrefixOf t := by
  intro ps
  induction ps with
  | nil => intro t _; simp
  | cons q qs ih =>
    intro t hy
    have hq : ¬ q = y0 := fun h => hy (by simp [h])
    have hqs : y0 ∉ qs := fun h => hy (by simp [h])
    cases t with
    | nil => simp [List.isPrefixOf, hq]
    | cons b t =>
      show (q == b && qs.isPrefixOf (t ++ y0 :: r)) = (q == b && qs.isPrefixOf t)
      rw [ih t hqs]

theorem removeAllAux_zero_cons (pat : List Char) (a : Char) (t : List Char) :
    removeAllAux pat 0 (a :: t)
      = if pat.isPrefixOf (a :: t) = true then removeAllAux pat (pat.length - 1) t
        else a :: removeAllAux pat 0 t := rfl

theorem removeAllAux_succ_cons (pat : List Char) (k : Nat) (a : Char) (t : List Char) :
    removeAllAux pat (k + 1) (a :: t) = removeAllAux pat k t := rfl

/-- Removing the occurrences of `pat` from a concatenation whose second part starts
with a character that does not occur in `pat` after its first character removes them
from each part: no occurrence straddles the junction. -/
theorem removeAllAux_append (pat : List Char) (y0 : Char) (r : List Char)
    (hy : y0 ∉ pat.tail) :
    ∀ (xs : List Char) (k : Nat), k ≤ xs.length →
      removeAllAux pat k (xs ++ y0 :: r)
        = removeAllAux pat k xs ++ removeAllAux pat 0 (y0 :: r) := by
  intro xs
  induction xs with
  | nil =>
    intro k hk
    have : k = 0 := by simpa using hk
    subst this
    simp [removeAllAux]
  | cons a t ih =>
    intro k hk
    cases k with
    | succ k =>
      rw [List.cons_append, removeAllAux_succ_cons, removeAllAux_succ_cons]
      exact ih k (by simp at hk; omega)
    | zero =>
      have hp : pat.isPrefixOf (a :: (t ++ y0 :: r)) = pat.isPrefixOf (a :: t) := by
        cases pat with
        | nil => simp
        | cons p ps =>
          show (p == a && ps.isPrefixOf (t ++ y0 :: r)) = (p == a && ps.isPrefixOf t)
          rw [isPrefixOf_append_of_not_mem y0 r ps t (by simpa using hy)]
      rw [List.cons_append, removeAllAux_zero_cons, removeAllAux_zero_cons pat a t, hp]
      by_cases hm : pat.isPrefixOf (a :: t) = true
      · rw [if_pos hm, if_pos hm]
        apply ih
        have := (List.isPrefixOf_iff_prefix.mp hm).length_le
        simp at this
        omega
      · rw [if_neg hm, if_neg hm, ih 0 (Nat.zero_le _)]
        rfl

theorem removeAllAux_skip (pat : List Char) (rest : List Char) :
    ∀ (xs : List Char), removeAllAux pat xs.length (xs ++ rest) = removeAllAux pat 0 rest := by
  intro xs
  induction xs with
  | nil => rfl
  | cons a t ih =>
    rw [List.cons_append, List.length_cons, removeAllAux_succ_cons]
    exact ih

theorem removeAll_junction_min (A B : List Char) (suffix : String)
    (hs : suffix = "" ∨ suffix = ".minY" ∨ suffix = ".maxY") :
    removeAll ".maxY" (removeAll ".minY" (A ++ (suffix.data ++ '_' :: B)))
      = removeAll ".maxY" (removeAll ".minY" A)
        ++ '_' :: removeAll ".maxY" (removeAll ".minY" B) := by
  have hmin : (".minY" : String).data = ['.', 'm', 'i', 'n', 'Y'] := rfl
  have hmax : (".maxY" : String).data = ['.', 'm', 'a', 'x', 'Y'] := rfl
  have e1 : ∀ (X : List Char), removeAllAux ['.', 'm', 'i', 'n', 'Y'] 0 ('_' :: X)
      = '_' :: removeAllAux ['.', 'm', 'i', 'n', 'Y'] 0 X := fun X => rfl
  have e2 : ∀ (X : List Char), removeAllAux ['.', 'm', 'a', 'x', 'Y'] 0 ('_' :: X)
      = '_' :: removeAllAux ['.', 'm', 'a', 'x', 'Y'] 0 X := fun X => rfl
  have e3 : ∀ (X : List Char),
      removeAllAux ['.', 'm', 'i', 'n', 'Y'] 0 ('.' :: 'm' :: 'i' :: 'n' :: 'Y' :: X)
      = removeAllAux ['.', 'm', 'i', 'n', 'Y'] 0 X := by
    intro X
    rw [removeAllAux_zero_cons, if_pos (by simp [List.isPrefixOf])]
    exact removeAllAux_skip ['.', 'm', 'i', 'n', 'Y'] X ['m', 'i', 'n', 'Y']
  have e4 : ∀ (X : List Char),
      removeAllAux ['.', 'm', 'a', 'x', 'Y'] 0 ('.' :: 'm' :: 'a' :: 'x' :: 'Y' :: X)
      = removeAllAux ['.', 'm', 'a', 'x', 'Y'] 0 X := by
    intro X
    rw [removeAllAux_zero_cons, if_pos (by simp [List.isPrefixOf])]
    exact removeAllAux_skip ['.', 'm', 'a', 'x', 'Y'] X ['m', 'a', 'x', 'Y']
  have e5 : ∀ (X : List Char),
      removeAllAux ['.', 'm', 'i', 'n', 'Y'] 0 ('.' :: 'm' :: 'a' :: 'x' :: 'Y' :: '_' :: X)
      = '.' :: 'm' :: 'a' :: 'x' :: 'Y' :: '_' :: removeAllAux ['.', 'm', 'i', 'n', 'Y'] 0 X :=
    fun X => rfl
  unfold removeAll
  rw [hmin, hmax]
  rcases hs with h | h | h
  · subst h
    show removeAllAux _ 0 (removeAllAux _ 0 (A ++ '_' :: B)) = _
    rw [removeAllAux_append _ '_' B (by decide) A 0 (Nat.zero_le _), e1,
      removeAllAux_append _ '_' _ (by decide) _ 0 (Nat.zero_le _), e2]
  · subst h
    show removeAllAux _ 0 (removeAllAux _ 0 (A ++ '.' :: 'm' :: 'i' :: 'n' :: 'Y' :: '_' :: B)) = _
    rw [removeAllAux_append _ '.' _ (by decide) A 0 (Nat.zero_le _), e3, e1,
      removeAllAux_append _ '_' _ (by decide) _ 0 (Nat.zero_le _), e2]
  · subst h
    show removeAllAux _ 0 (removeAllAux _ 0 (A ++ '.' :: 'm' :: 'a' :: 'x' :: 'Y' :: '_' :: B)) = _
    rw [removeAllAux_append _ '.' _ (by decide) A 0 (Nat.zero_le _), e5,
      removeAllAux_append _ '.' _ (by decide) _ 0 (Nat.zero_le _), e4, e2]

theorem stripCurveIndex_junction (wordChar : Char → Bool) (pw : Bool) (W : List Char)
    (suffix : String) (hs : suffix = "" ∨ suffix = ".minY" ∨ suffix = ".maxY") :
    stripCurveIndex wordChar pw (suffix.data ++ '_' :: W)
      = suffix.data ++ '_' :: stripCurveIndex wordChar (wordChar '_') W
    ∧ ∃ y0 r, suffix.data ++ '_' :: W = y0 :: r ∧ isCurveDigit y0 = false := by
  rcases hs with h | h | h
  · subst h
    refine ⟨?_, '_', W, rfl, by decide⟩
    show stripCurveIndex wordChar pw ('_' :: W) = '_' :: _
    rw [stripCurveIndex_cons _ _ _ _ (by decide)]
  · subst h
    refine ⟨?_, '.', 'm' :: 'i' :: 'n' :: 'Y' :: '_' :: W, rfl, by decide⟩
    show stripCurveIndex wordChar pw ('.' :: 'm' :: 'i' :: 'n' :: 'Y' :: '_' :: W)
      = '.' :: 'm' :: 'i' :: 'n' :: 'Y' :: '_' :: _
    rw [stripCurveIndex_cons _ _ _ _ (by decide), stripCurveIndex_cons _ _ _ _ (by decide),
      stripCurveIndex_cons _ _ _ _ (by decide), stripCurveIndex_cons _ _ _ _ (by decide),
      stripCurveIndex_cons _ _ _ _ (by decide), stripCurveIndex_cons _ _ _ _ (by decide)]
  · subst h
    refine ⟨?_, '.', 'm' :: 'a' :: 'x' :: 'Y' :: '_' :: W, rfl, by decide⟩
    show stripCurveIndex wordChar pw ('.' :: 'm' :: 'a' :: 'x' :: 'Y' :: '_' :: W)
      = '.' :: 'm' :: 'a' :: 'x' :: 'Y' :: '_' :: _
    rw [stripCurveIndex_cons _ _ _ _ (by decide), stripCurveIndex_cons _ _ _ _ (by decide),
      stripCurveIndex_cons _ _ _ _ (by decide), stripCurveIndex_cons _ _ _ _ (by decide),
      stripCurveIndex_cons _ _ _ _ (by decide), stripCurveIndex_cons _ _ _ _ (by decide)]

/-- The normal form of a channel key whose channel name does not end with a
character of `[0-7]`: it does not depend on the curve slot or on the suffix. -/
theorem normalizeKey_channelKey (wordChar : Char → Bool)
    (hw : ∀ c, isCurveDigit c = true → wordChar c = true)
    (curve : Char) (channel suffix widget : String)
    (hc : isCurveDigit curve = true)
    (hs : suffix = "" ∨ suffix = ".minY" ∨ suffix = ".maxY")
    (hch : EndsClean channel.data) :
    normalizeKey wordChar (channelKey curve channel suffix widget)
      = String.mk
          (removeAll ".maxY" (removeAll ".minY"
              (stripCurveIndex wordChar false
                (stripCurveIndex wordChar (wordChar '_') channel.data)))
            ++ '_' :: removeAll ".maxY" (removeAll ".minY"
              (stripCurveIndex wordChar (wordChar '_')
                (stripCurveIndex wordChar (wordChar '_') widget.data)))) := by
  have hdata : (channelKey curve channel suffix widget).data
      = curve :: '_' :: (channel.data ++ (suffix.data ++ '_' :: widget.data)) := by
    simp [channelKey, String.data_append, String.singleton]
  have hfirst : ∀ R : List Char, stripCurveIndex wordChar false (curve :: '_' :: R)
      = stripCurveIndex wordChar (wordChar '_') R := by
    intro R
    rw [stripCurveIndex, if_pos ⟨by rw [hw curve hc]; decide, hc, rfl⟩]
  obtain ⟨hj1, y0, r, hyr, hy0⟩ :=
    stripCurveIndex_junction wordChar (wordChar '_') widget.data suffix hs
  obtain ⟨hj2, y0', r', hyr', hy0'⟩ := stripCurveIndex_junction wordChar (wordChar '_')
    (stripCurveIndex wordChar (wordChar '_') widget.data) suffix hs
  have hpass1 : stripCurveIndex wordChar false (channelKey curve channel suffix widget).data
      = stripCurveIndex wordChar (wordChar '_') channel.data
        ++ (suffix.data ++ '_' :: stripCurveIndex wordChar (wordChar '_') widget.data) := by
    rw [hdata, hfirst, hyr,
      stripCurveIndex_append wordChar y0 r hy0 channel.data.length channel.data _
        (wordChar '_') (le_refl _) hch, ← hyr, hj1]
  have hclean := endsClean_stripCurveIndex wordChar hw channel.data.length channel.data
    (wordChar '_') (le_refl _) hch
  have hpass2 : stripCurveIndex wordChar false
        (stripCurveIndex wordChar false (channelKey curve channel suffix widget).data)
      = stripCurveIndex wordChar false (stripCurveIndex wordChar (wordChar '_') channel.data)
        ++ (suffix.data ++ '_' :: stripCurveIndex wordChar (wordChar '_')
              (stripCurveIndex wordChar (wordChar '_') widget.data)) := by
    rw [hpass1, hyr',
      stripCurveIndex_append wordChar y0' r' hy0' _ _ _ (wordChar '_') (le_refl _) hclean,
      ← hyr', hj2]
  unfold normalizeKey
  rw [hpass2, removeAll_junction_min _ _ suffix hs]

theorem asciiWord_of_isCurveDigit (c : Char) (h : isCurveDigit c = true) :
    asciiWord c = true := by
  have h' : '0' ≤ c ∧ c ≤ '7' := by simpa [isCurveDigit] using h
  have h1 : (48 : Nat) ≤ c.val.toNat := by
    have := h'.1
    rw [Char.le_def] at this
    exact this
  have h2 : c.val.toNat ≤ 55 := by
    have := h'.2
    rw [Char.le_def] at this
    exact this
  have hd : c.isDigit = true := by
    simp only [Char.isDigit, Bool.and_eq_true, decide_eq_true_eq]
    constructor
    · show (48 : UInt32) ≤ c.val
      rw [UInt32.le_def]
      exact h1
    · show c.val ≤ (57 : UInt32)
      rw [UInt32.le_def]
      exact le_trans h2 (by decide)
  simp [asciiWord, Char.isAlphanum, hd]

/-! ## Claims on the key normalization -/

/-- C16: keys of one channel and one widget that do not normalize to the same key.
For the channel name `MOTOR-3` and the widget identity `0x7f01` the key with curve
slot 0 and no suffix normalizes to `MOTOR-0x7f01` (the final `3_` of the channel part
is a match of `\b[0-7]_`), and the key with the suffix `.minY` normalizes to
`MOTOR-3_0x7f01`; for the channel name `3` the two keys normalize to `0x7f01` and to
`3_0x7f01`.  In consequence a batch with the mean, minimum and maximum keys of the
channel `MOTOR-3` of one widget registers two workers, where the same batch for the
channel `S10:TEMP` registers one. -/
theorem normalizeKey_counterexample :
    normalizeKey asciiWord (channelKey '0' "MOTOR-3" "" "0x7f01") = "MOTOR-0x7f01"
    ∧ normalizeKey asciiWord (channelKey '0' "MOTOR-3" ".minY" "0x7f01") = "MOTOR-3_0x7f01"
    ∧ normalizeKey asciiWord (channelKey '0' "3" "" "0x7f01") = "0x7f01"
    ∧ normalizeKey asciiWord (channelKey '0' "3" ".minY" "0x7f01") = "3_0x7f01"
    ∧ qmapKeys (Callback_UpdateInterface exampleHost ArchiveHTTP_Plugin.new
        [(channelKey '0' "MOTOR-3" "" "0x7f01",
            exampleEntry (channelKey '0' "MOTOR-3" "" "0x7f01") 1 2),
          (channelKey '1' "MOTOR-3" ".minY" "0x7f01",
            exampleEntry (channelKey '1' "MOTOR-3" ".minY" "0x7f01") 3 4),
          (channelKey '2' "MOTOR-3" ".maxY" "0x7f01",
            exampleEntry (channelKey '2' "MOTOR-3" ".maxY" "0x7f01") 5 6)]).plugin.m_listOfThreads
      = ["0_MOTOR-3_0x7f01", "1_MOTOR-3.minY_0x7f01"]
    ∧ qmapKeys exampleBinnedPlugin.m_listOfThreads = ["0_S10:TEMP_0x7f01"] := by
  decide!

/-- Where the normal forms do agree: when the characters `0` to `7` are word
characters of the regular-expression engine, for every channel name, every widget
identity and every two curve slots in 0..7, two keys with the same suffix normalize
to the same key; and for every channel name that does not end with one of the
characters `0` to `7` this also holds for every two suffixes among the empty one,
`.minY` and `.maxY`. -/
theorem normalizeKey_same (wordChar : Char → Bool)
    (hw : ∀ c, isCurveDigit c = true → wordChar c = true)
    (channel widget : String) (c1 c2 : Char)
    (hc1 : isCurveDigit c1 = true) (hc2 : isCurveDigit c2 = true) :
    (∀ suffix : String,
      normalizeKey wordChar (channelKey c1 channel suffix widget)
        = normalizeKey wordChar (channelKey c2 channel suffix widget))
    ∧ (EndsClean channel.data →
        ∀ s1 s2 : String, (s1 = "" ∨ s1 = ".minY" ∨ s1 = ".maxY") →
          (s2 = "" ∨ s2 = ".minY" ∨ s2 = ".maxY") →
          normalizeKey wordChar (channelKey c1 channel s1 widget)
            = normalizeKey wordChar (channelKey c2 channel s2 widget)) := by
  constructor
  · intro suffix
    have hdata : ∀ c : Char, (channelKey c channel suffix widget).data
        = c :: '_' :: (channel.data ++ (suffix.data ++ '_' :: widget.data)) := by
      intro c
      simp [channelKey, String.data_append, String.singleton]
    have hfirst : ∀ (c : Char) (R : List Char), isCurveDigit c = true →
        stripCurveIndex wordChar false (c :: '_' :: R)
          = stripCurveIndex wordChar (wordChar '_') R := by
      intro c R hc
      rw [stripCurveIndex, if_pos ⟨by rw [hw c hc]; decide, hc, rfl⟩]
    unfold normalizeKey
    rw [hdata c1, hdata c2, hfirst c1 _ hc1, hfirst c2 _ hc2]
  · intro hch s1 s2 hs1 hs2
    rw [normalizeKey_channelKey wordChar hw c1 channel s1 widget hc1 hs1 hch,
      normalizeKey_channelKey wordChar hw c2 channel s2 widget hc2 hs2 hch]

/-- An instance of `normalizeKey_same`: the channel `S10:TEMP`, curve slots 0 and 5,
suffixes none and `.maxY`. -/
theorem normalizeKey_same_witness :
    normalizeKey asciiWord (channelKey '0' "S10:TEMP" "" "0x7f01")
      = normalizeKey asciiWord (channelKey '5' "S10:TEMP" ".maxY" "0x7f01") :=
  (normalizeKey_same asciiWord asciiWord_of_isCurveDigit "S10:TEMP" "0x7f01" '0' '5'
    (by decide) (by decide)).2
    (fun d hd => by
      obtain rfl : 'P' = d := Option.some.inj hd
      decide)
    "" ".maxY" (Or.inl rfl) (Or.inr (Or.inr rfl))

/-! ## Properties of the dispatcher tables -/

theorem mem_qmapKeys_insert {α : Type} (m : QMap α) (k : String) (v : α) (k' : String) :
    k' ∈ qmapKeys (qmapInsert m k v) ↔ k' = k ∨ k' ∈ qmapKeys m := by
  induction m with
  | nil => simp [qmapInsert, qmapKeys]
  | cons kv t ih =>
    obtain ⟨k0, v0⟩ := kv
    unfold qmapInsert
    by_cases h1 : k < k0
    · rw [if_pos h1]
      simp [qmapKeys]
    · rw [if_neg h1]
      by_cases h2 : k = k0
      · rw [if_pos h2]
        subst h2
        simp [qmapKeys]
      · rw [if_neg h2]
        have ih' : k' ∈ List.map Prod.fst (qmapInsert t k v)
            ↔ k' = k ∨ k' ∈ List.map Prod.fst t := ih
        simp only [qmapKeys, List.map_cons, List.mem_cons, ih']
        tauto

theorem qmapFind_some_mem {α : Type} (m : QMap α) (k : String) (v : α)
    (h : qmapFind m k = some v) : (k, v) ∈ m := by
  induction m with
  | nil => simp [qmapFind] at h
  | cons kv t ih =>
    obtain ⟨k0, v0⟩ := kv
    unfold qmapFind at h
    by_cases h1 : k0 = k
    · rw [if_pos h1] at h
      cases h
      subst h1
      simp
    · rw [if_neg h1] at h
      exact List.mem_cons_of_mem _ (ih h)

theorem qmapFind_some_key {α : Type} (m : QMap α) (k : String) (v : α)
    (h : qmapFind m k = some v) : k ∈ qmapKeys m :=
  List.mem_map.mpr ⟨(k, v), qmapFind_some_mem m k v h, rfl⟩

theorem qmapFind_insert_ne {α : Type} (m : QMap α) (k : String) (v : α) (k' : String)
    (hne : k ≠ k') : qmapFind (qmapInsert m k v) k' = qmapFind m k' := by
  induction m with
  | nil => simp [qmapInsert, qmapFind, hne]
  | cons kv t ih =>
    obtain ⟨k0, v0⟩ := kv
    unfold qmapInsert
    by_cases h1 : k < k0
    · rw [if_pos h1]
      conv => lhs; unfold qmapFind
      rw [if_neg hne]
    · rw [if_neg h1]
      by_cases h2 : k = k0
      · rw [if_pos h2]
        subst h2
        conv => lhs; unfold qmapFind
        conv => rhs; unfold qmapFind
        rw [if_neg hne, if_neg hne]
      · rw [if_neg h2]
        conv => lhs; unfold qmapFind
        conv => rhs; unfold qmapFind
        rw [ih]

theorem qmapFind_remove_ne {α : Type} (m : QMap α) (k k' : String) (hne : k ≠ k') :
    qmapFind (qmapRemove m k) k' = qmapFind m k' := by
  induction m with
  | nil => rfl
  | cons kv t ih =>
    obtain ⟨k0, v0⟩ := kv
    have ih' : qmapFind (List.filter (fun kv => decide (kv.1 ≠ k)) t) k' = qmapFind t k' := ih
    unfold qmapRemove
    by_cases h1 : k0 = k
    · subst h1
      rw [List.filter_cons_of_neg (by simp)]
      conv => rhs; unfold qmapFind
      rw [if_neg hne]
      exact ih'
    · rw [List.filter_cons_of_pos (by simp [h1])]
      conv => lhs; unfold qmapFind
      conv => rhs; unfold qmapFind
      rw [ih']

theorem qmapKeys_update {α : Type} (f : α → α) (m : QMap α) (k : String) :
    qmapKeys (qmapUpdate f m k) = qmapKeys m := by
  induction m with
  | nil => rfl
  | cons kv t ih =>
    obtain ⟨k0, v0⟩ := kv
    unfold qmapUpdate
    have ih' : List.map Prod.fst (qmapUpdate f t k) = List.map Prod.fst t := ih
    by_cases h1 : k0 = k
    · rw [if_pos h1]
      rfl
    · rw [if_neg h1]
      simp only [qmapKeys, List.map_cons, ih']

theorem qmapFind_update {α : Type} (f : α → α) (m : QMap α) (k k' : String) :
    qmapFind (qmapUpdate f m k) k'
      = if k = k' then (qmapFind m k').map f else qmapFind m k' := by
  induction m with
  | nil => simp [qmapUpdate, qmapFind]
  | cons kv t ih =>
    obtain ⟨k0, v0⟩ := kv
    unfold qmapUpdate
    by_cases h1 : k0 = k
    · rw [if_pos h1]
      subst h1
      conv => lhs; unfold qmapFind
      by_cases h2 : k0 = k'
      · rw [if_pos h2, if_pos h2]
        conv => rhs; unfold qmapFind
        rw [if_pos h2]
        rfl
      · rw [if_neg h2, if_neg h2]
        conv => rhs; unfold qmapFind
        rw [if_neg h2]
    · rw [if_neg h1]
      conv => lhs; unfold qmapFind
      by_cases h2 : k0 = k'
      · rw [if_pos h2]
        have hkk : ¬ k = k' := fun h => h1 (h2.trans h.symm)
        rw [if_neg hkk]
        conv => rhs; unfold qmapFind
        rw [if_pos h2]
      · rw [if_neg h2, ih]
        by_cases h3 : k = k'
        · rw [if_pos h3, if_pos h3]
          conv => rhs; unfold qmapFind
          rw [if_neg h2]
        · rw [if_neg h3, if_neg h3]
          conv => rhs; unfold qmapFind
          rw [if_neg h2]

theorem pairwise_qmapKeys_insert {α : Type} (R : String → String → Prop) (m : QMap α)
    (k : String) (v : α) (hk : ∀ k' ∈ qmapKeys m, R k k' ∧ R k' k)
    (hm : (qmapKeys m).Pairwise R) : (qmapKeys (qmapInsert m k v)).Pairwise R := by
  induction m with
  | nil => simp [qmapInsert, qmapKeys]
  | cons kv t ih =>
    obtain ⟨k0, v0⟩ := kv
    have hm' : (k0 :: qmapKeys t).Pairwise R := hm
    rw [List.pairwise_cons] at hm'
    unfold qmapInsert
    by_cases h1 : k < k0
    · rw [if_pos h1]
      show (k :: k0 :: qmapKeys t).Pairwise R
      rw [List.pairwise_cons]
      exact ⟨fun x hx => (hk x hx).1, hm⟩
    · rw [if_neg h1]
      by_cases h2 : k = k0
      · rw [if_pos h2]
        subst h2
        exact hm
      · rw [if_neg h2]
        show (k0 :: qmapKeys (qmapInsert t k v)).Pairwise R
        rw [List.pairwise_cons]
        refine ⟨?_, ih (fun k' hk' => hk k' (List.mem_cons_of_mem _ hk')) hm'.2⟩
        intro x hx
        rcases (mem_qmapKeys_insert t k v x).mp hx with h | h
        · subst h
          exact (hk k0 (List.mem_cons_self _ _)).2
        · exact hm'.1 x h

theorem foldl_qmapRemove {α : Type} (ks : List String) :
    ∀ (m : QMap α), ks.foldl qmapRemove m = m.filter (fun kv => decide (kv.1 ∉ ks)) := by
  induction ks with
  | nil => intro m; simp
  | cons k t ih =>
    intro m
    rw [List.foldl_cons, ih, qmapRemove, List.filter_filter]
    apply List.filter_congr
    intro kv _
    simp only [List.mem_cons, not_or, ne_eq, Bool.decide_and, Bool.and_comm]

theorem keyAlreadyPresent_iff (wordChar : Char → Bool) (keyInCheck : String)
    (m : QMap indexesEntry) :
    keyAlreadyPresent wordChar keyInCheck m = true
      ↔ ∃ k ∈ qmapKeys m, normalizeKey wordChar k = keyInCheck := by
  induction m with
  | nil => simp [keyAlreadyPresent, qmapKeys]
  | cons kv t ih =>
    obtain ⟨k0, v0⟩ := kv
    unfold keyAlreadyPresent
    have ih' : keyAlreadyPresent wordChar keyInCheck t = true
        ↔ ∃ k ∈ List.map Prod.fst t, normalizeKey wordChar k = keyInCheck := ih
    by_cases h : normalizeKey wordChar k0 = keyInCheck
    · rw [if_pos h]
      simp [qmapKeys, h]
    · rw [if_neg h, ih']
      simp [qmapKeys, h]

theorem collectFinished_keys (wordChar : Char → Bool) (keyInCheck : String) (isActive : Bool)
    (valueCount : Int) (m : QMap indexesEntry) :
    (collectFinished wordChar keyInCheck isActive valueCount m).1
      = (m.filter (fun kv => decide (normalizeKey wordChar kv.1 = keyInCheck))).map Prod.fst := by
  induction m with
  | nil => rfl
  | cons kv t ih =>
    obtain ⟨k0, v0⟩ := kv
    unfold collectFinished
    by_cases h : normalizeKey wordChar k0 = keyInCheck
    · simp only [h, if_true, ih]
      rw [List.filter_cons_of_pos (by simp [h])]
      rfl
    · simp only [h, if_false, ih]
      rw [List.filter_cons_of_neg (by simp [h])]

/-- The pending table after a final result: the entries whose normal form is not
that of the result key, in their order. -/
theorem finished_pending (wordChar : Char → Bool) (keyInCheck : String) (isActive : Bool)
    (valueCount : Int) (m : QMap indexesEntry) :
    (collectFinished wordChar keyInCheck isActive valueCount m).1.foldl qmapRemove m
      = m.filter (fun kv => decide (normalizeKey wordChar kv.1 ≠ keyInCheck)) := by
  rw [foldl_qmapRemove, collectFinished_keys]
  apply List.filter_congr
  intro kv hkv
  by_cases h : normalizeKey wordChar kv.1 = keyInCheck
  · have : kv.1 ∈ (m.filter (fun kv => decide (normalizeKey wordChar kv.1 = keyInCheck))).map
        Prod.fst :=
      List.mem_map.mpr ⟨kv, List.mem_filter.mpr ⟨hkv, by simp [h]⟩, rfl⟩
    simp [h, this]
  · have : kv.1 ∉ (m.filter (fun kv => decide (normalizeKey wordChar kv.1 = keyInCheck))).map
        Prod.fst := by
      intro hmem
      obtain ⟨kv', hkv', hfst⟩ := List.mem_map.mp hmem
      have h' := (List.mem_filter.mp hkv').2
      simp only [decide_eq_true_eq] at h'
      rw [hfst] at h'
      exact h h'
    simp [h, this]

theorem fanOut_inactive (wordChar : Char → Bool) (keyInCheck : String) (nrOfBins : Int)
    (valueCount : Int) (XVals YVals YMinVals YMaxVals : List ℚ) (backend : String)
    (m : QMap indexesEntry) :
    fanOut wordChar keyInCheck false nrOfBins valueCount XVals YVals YMinVals YMaxVals
      backend m = [] := by
  induction m with
  | nil => rfl
  | cons kv t ih =>
    obtain ⟨k0, v0⟩ := kv
    unfold fanOut
    by_cases h : normalizeKey wordChar k0 = keyInCheck
    · rw [if_pos h, if_neg (by simp)]
      exact ih
    · rw [if_neg h]
      exact ih

theorem fanOut_active (wordChar : Char → Bool) (keyInCheck : String) (nrOfBins : Int)
    (valueCount : Int) (XVals YVals YMinVals YMaxVals : List ℚ) (backend : String)
    (m : QMap indexesEntry) :
    (fanOut wordChar keyInCheck true nrOfBins valueCount XVals YVals YMinVals YMaxVals
        backend m).map (fun c => (c.entry, c.indexNew))
      = m.filter (fun kv => decide (normalizeKey wordChar kv.1 = keyInCheck))
    ∧ ∀ c ∈ fanOut wordChar keyInCheck true nrOfBins valueCount XVals YVals YMinVals YMaxVals
        backend m,
        c.numberOfValues = valueCount ∧ c.XValues = XVals ∧ c.backend = backend
        ∧ (c.YValues = YVals ∨ c.YValues = YMinVals ∨ c.YValues = YMaxVals) := by
  induction m with
  | nil => exact ⟨rfl, fun c hc => by simp [fanOut] at hc⟩
  | cons kv t ih =>
    obtain ⟨k0, v0⟩ := kv
    unfold fanOut
    by_cases h : normalizeKey wordChar k0 = keyInCheck
    · rw [if_pos h, if_pos rfl, List.filter_cons_of_pos (by simp [h])]
      constructor
      · rw [List.map_cons, ih.1]
        congr 1
        split
        · rfl
        · split <;> rfl
      · intro c hc
        rcases List.mem_cons.mp hc with hc | hc
        · subst hc
          split
          · exact ⟨rfl, rfl, rfl, Or.inr (Or.inl rfl)⟩
          · split
            · exact ⟨rfl, rfl, rfl, Or.inr (Or.inr rfl)⟩
            · exact ⟨rfl, rfl, rfl, Or.inl rfl⟩
        · exact ih.2 c hc
    · rw [if_neg h, List.filter_cons_of_neg (by simp [h])]
      exact ih

theorem handleResults_plugin (host : Host) (p : ArchiveHTTP_Plugin) (indexNew : indexesEntry)
    (valueCount : Int) (XVals YVals YMinVals YMaxVals : List ℚ) (backend : String)
    (isFinalIteration : Bool) :
    (handleResults host p indexNew valueCount XVals YVals YMinVals YMaxVals backend
        isFinalIteration).plugin
      = if (qmapFind p.m_listOfThreads indexNew.key).isSome = true
            ∧ isFinalIteration = true then
          { p with
            m_listOfThreads := p.m_listOfThreads.filter (fun kv => decide (kv.1 ≠ indexNew.key))
            m_IndexesToUpdate := p.m_IndexesToUpdate.filter
              (fun kv => decide (normalizeKey host.wordChar kv.1
                ≠ normalizeKey host.wordChar indexNew.key)) }
        else p := by
  cases hf : qmapFind p.m_listOfThreads indexNew.key with
  | none =>
    unfold handleResults
    rw [hf]
    simp
  | some thread =>
    cases isFinalIteration with
    | true =>
      unfold handleResults
      rw [hf]
      simp only [if_true]
      rw [finished_pending]
      simp [qmapRemove]
    | false =>
      unfold handleResults
      rw [hf]
      simp

theorem interim_tables (host : Host) (p : ArchiveHTTP_Plugin) (c : Call)
    (hc : c.isInterim = true) :
    (Call.apply host p c).m_IndexesToUpdate = p.m_IndexesToUpdate
    ∧ qmapKeys (Call.apply host p c).m_listOfThreads = qmapKeys p.m_listOfThreads
    ∧ (p.m_IsSuspended = false → (Call.apply host p c).m_IsSuspended = false) := by
  cases c with
  | submit batch => simp [Call.isInterim] at hc
  | results indexNew valueCount XVals YVals YMinVals YMaxVals backend fin =>
    have hfin : fin = false := by simpa [Call.isInterim] using hc
    subst hfin
    have : Call.apply host p (Call.results indexNew valueCount XVals YVals YMinVals YMaxVals
        backend false) = p := by
      show (handleResults host p indexNew valueCount XVals YVals YMinVals YMaxVals backend
        false).plugin = p
      unfold handleResults
      cases qmapFind p.m_listOfThreads indexNew.key <;> rfl
    rw [this]
    exact ⟨rfl, rfl, fun h => h⟩
  | abort key retrieval =>
    have e : ∀ q : ArchiveHTTP_Plugin,
        (Callback_AbortOutstandingRequests q key retrieval).1.m_IndexesToUpdate
          = q.m_IndexesToUpdate
        ∧ qmapKeys (Callback_AbortOutstandingRequests q key retrieval).1.m_listOfThreads
          = qmapKeys q.m_listOfThreads
        ∧ (Callback_AbortOutstandingRequests q key retrieval).1.m_IsSuspended = false := by
      intro q
      unfold Callback_AbortOutstandingRequests
      cases hf : qmapFind q.m_listOfThreads key with
      | none => simp [hf]
      | some t => simp [hf, qmapKeys_update]
    exact ⟨(e p).1, (e p).2.1, fun _ => (e p).2.2⟩

theorem interim_run (host : Host) (calls : List Call) :
    ∀ p : ArchiveHTTP_Plugin, (∀ c ∈ calls, c.isInterim = true) →
      (runCalls host p calls).m_IndexesToUpdate = p.m_IndexesToUpdate
      ∧ qmapKeys (runCalls host p calls).m_listOfThreads = qmapKeys p.m_listOfThreads
      ∧ (p.m_IsSuspended = false → (runCalls host p calls).m_IsSuspended = false) := by
  induction calls with
  | nil => intro p _; exact ⟨rfl, rfl, fun h => h⟩
  | cons c t ih =>
    intro p hc
    obtain ⟨a1, a2, a3⟩ := interim_tables host p c (hc c (List.mem_cons_self _ _))
    obtain ⟨b1, b2, b3⟩ := ih (Call.apply host p c)
      (fun c' hc' => hc c' (List.mem_cons_of_mem _ hc'))
    show (t.foldl (Call.apply host) (Call.apply host p c)).m_IndexesToUpdate = _
      ∧ qmapKeys (t.foldl (Call.apply host) (Call.apply host p c)).m_listOfThreads = _
      ∧ (_ → (t.foldl (Call.apply host) (Call.apply host p c)).m_IsSuspended = false)
    exact ⟨b1.trans a1, b2.trans a2, fun h => b3 (a3 h)⟩

/-! ## Claims on the dispatcher -/

/-- C14: from a dispatcher that is not suspended and has no pending entry and no
worker, submitting two keys with the same normal form starts exactly one worker,
whether they come in one batch or in two batches separated by any results that are
not final and any aborts: one `operate` signal is emitted, for the first key, the
worker table has the single entry of the first key, and the pending table holds both
keys. -/
theorem submit_dedup (host : Host) (p : ArchiveHTTP_Plugin) (k1 k2 : String)
    (v1 v2 : indexesEntry) (between : List Call)
    (hs : p.m_IsSuspended = false) (hp : p.m_IndexesToUpdate = [])
    (ht : p.m_listOfThreads = [])
    (hn : normalizeKey host.wordChar k1 = normalizeKey host.wordChar k2)
    (hb : ∀ c ∈ between, c.isInterim = true) :
    ((Callback_UpdateInterface host p [(k1, v1), (k2, v2)]).operate.map (fun o => o.key) = [k1]
      ∧ qmapKeys (Callback_UpdateInterface host p [(k1, v1), (k2, v2)]).plugin.m_listOfThreads
        = [k1]
      ∧ k1 ∈ qmapKeys (Callback_UpdateInterface host p
          [(k1, v1), (k2, v2)]).plugin.m_IndexesToUpdate
      ∧ k2 ∈ qmapKeys (Callback_UpdateInterface host p
          [(k1, v1), (k2, v2)]).plugin.m_IndexesToUpdate)
    ∧ ((Callback_UpdateInterface host p [(k1, v1)]).operate.map (fun o => o.key) = [k1]
      ∧ (Callback_UpdateInterface host
          (runCalls host (Callback_UpdateInterface host p [(k1, v1)]).plugin between)
          [(k2, v2)]).operate = []
      ∧ qmapKeys (Callback_UpdateInterface host
          (runCalls host (Callback_UpdateInterface host p [(k1, v1)]).plugin between)
          [(k2, v2)]).plugin.m_listOfThreads = [k1]
      ∧ k1 ∈ qmapKeys (Callback_UpdateInterface host
          (runCalls host (Callback_UpdateInterface host p [(k1, v1)]).plugin between)
          [(k2, v2)]).plugin.m_IndexesToUpdate
      ∧ k2 ∈ qmapKeys (Callback_UpdateInterface host
          (runCalls host (Callback_UpdateInterface host p [(k1, v1)]).plugin between)
          [(k2, v2)]).plugin.m_IndexesToUpdate) := by
  have hfirst : Callback_UpdateInterface host p [(k1, v1)]
      = submitEntry host
          { plugin := p, index_name := "https://data-api.psi.ch/", operate := [],
            messages := [] } (k1, v1) := by
    simp [Callback_UpdateInterface, hs]
  have hboth : Callback_UpdateInterface host p [(k1, v1), (k2, v2)]
      = submitEntry host (submitEntry host
          { plugin := p, index_name := "https://data-api.psi.ch/", operate := [],
            messages := [] } (k1, v1)) (k2, v2) := by
    simp [Callback_UpdateInterface, hs]
  have h1 : ∀ st : Submit, st.plugin = p → st.operate = [] →
      (submitEntry host st (k1, v1)).plugin.m_IndexesToUpdate = [(k1, v1)]
      ∧ (submitEntry host st (k1, v1)).plugin.m_listOfThreads = [(k1, WorkerHttpThread.new)]
      ∧ (submitEntry host st (k1, v1)).plugin.m_IsSuspended = false
      ∧ (submitEntry host st (k1, v1)).operate.map (fun o => o.key) = [k1] := by
    intro st hst hop
    simp [submitEntry, hst, hp, ht, hs, hop, keyAlreadyPresent, qmapInsert]
  have h2 : ∀ st : Submit, st.plugin.m_IndexesToUpdate = [(k1, v1)] →
      (submitEntry host st (k2, v2)).plugin.m_IndexesToUpdate = qmapInsert [(k1, v1)] k2 v2
      ∧ (submitEntry host st (k2, v2)).plugin.m_listOfThreads = st.plugin.m_listOfThreads
      ∧ (submitEntry host st (k2, v2)).operate = st.operate := by
    intro st hst
    simp [submitEntry, hst, keyAlreadyPresent, hn]
  have hk : k1 ∈ qmapKeys (qmapInsert [(k1, v1)] k2 v2)
      ∧ k2 ∈ qmapKeys (qmapInsert [(k1, v1)] k2 v2) :=
    ⟨(mem_qmapKeys_insert _ _ _ _).mpr (Or.inr (by simp [qmapKeys])),
      (mem_qmapKeys_insert _ _ _ _).mpr (Or.inl rfl)⟩
  obtain ⟨a1, a2, a3, a4⟩ := h1
    { plugin := p, index_name := "https://data-api.psi.ch/", operate := [], messages := [] }
    rfl rfl
  constructor
  · obtain ⟨b1, b2, b3⟩ := h2 (submitEntry host
      { plugin := p, index_name := "https://data-api.psi.ch/", operate := [],
        messages := [] } (k1, v1)) a1
    rw [hboth, b1, b2, b3, a2]
    exact ⟨a4, rfl, hk.1, hk.2⟩
  · obtain ⟨c1, c2, c3⟩ := interim_run host between
      (Callback_UpdateInterface host p [(k1, v1)]).plugin hb
    rw [hfirst] at c1 c2 c3
    rw [a1] at c1
    rw [a2] at c2
    have c3' := c3 a3
    rw [← hfirst] at c1 c2 c3'
    have hsecond : Callback_UpdateInterface host
        (runCalls host (Callback_UpdateInterface host p [(k1, v1)]).plugin between)
        [(k2, v2)]
        = submitEntry host
          { plugin := runCalls host (Callback_UpdateInterface host p [(k1, v1)]).plugin between,
            index_name := "https://data-api.psi.ch/", operate := [], messages := [] }
          (k2, v2) := by
      have hq : ∀ q : ArchiveHTTP_Plugin, q.m_IsSuspended = false →
          Callback_UpdateInterface host q [(k2, v2)]
            = submitEntry host
              { plugin := q, index_name := "https://data-api.psi.ch/", operate := [],
                messages := [] } (k2, v2) := by
        intro q hq
        simp [Callback_UpdateInterface, hq]
      exact hq _ c3'
    obtain ⟨b1, b2, b3⟩ := h2
      { plugin := runCalls host (Callback_UpdateInterface host p [(k1, v1)]).plugin between,
        index_name := "https://data-api.psi.ch/", operate := [], messages := [] } c1
    rw [hsecond, b1, b2, b3]
    refine ⟨by rw [hfirst]; exact a4, rfl, ?_, hk.1, hk.2⟩
    rw [c2]
    rfl

/-- C14, witness: the keys of curve slots 0 and 1 of the channel `S10:TEMP`, in one
batch. -/
theorem submit_dedup_witness :
    qmapKeys (Callback_UpdateInterface exampleHost ArchiveHTTP_Plugin.new
        [("0_S10:TEMP_0x7f01", exampleEntry "0_S10:TEMP_0x7f01" 1 2),
          ("1_S10:TEMP_0x7f01", exampleEntry "1_S10:TEMP_0x7f01" 3 4)]).plugin.m_listOfThreads
      = ["0_S10:TEMP_0x7f01"] :=
  (submit_dedup exampleHost ArchiveHTTP_Plugin.new "0_S10:TEMP_0x7f01" "1_S10:TEMP_0x7f01"
    (exampleEntry "0_S10:TEMP_0x7f01" 1 2) (exampleEntry "1_S10:TEMP_0x7f01" 3 4) []
    rfl rfl rfl (by decide!) (fun c hc => by simp at hc)).1.2.1

/-- C15: for a result whose key has a registered, active worker and whose
`valueCount` is positive, the calls of `updateCartesianAppended` are, in order and
one each, those for the pending entries whose normal form is that of the result key,
each with the entry's own `indexes`, the count, the time array resized to the count
and the backend of the result, and one of the three value arrays. -/
theorem handleResults_fanOut (host : Host) (p : ArchiveHTTP_Plugin) (indexNew : indexesEntry)
    (valueCount : Int) (XVals YVals YMinVals YMaxVals : List ℚ) (backend : String)
    (isFinalIteration : Bool) (thread : WorkerHttpThread)
    (hreg : qmapFind p.m_listOfThreads indexNew.key = some thread)
    (hact : thread.isActive = true) (hpos : 0 < valueCount) :
    (handleResults host p indexNew valueCount XVals YVals YMinVals YMaxVals backend
        isFinalIteration).merges.map (fun c => (c.entry, c.indexNew))
      = p.m_IndexesToUpdate.filter
          (fun kv => decide (normalizeKey host.wordChar kv.1
            = normalizeKey host.wordChar indexNew.key))
    ∧ ∀ c ∈ (handleResults host p indexNew valueCount XVals YVals YMinVals YMaxVals backend
        isFinalIteration).merges,
        c.numberOfValues = valueCount ∧ c.XValues = resize XVals valueCount.toNat
        ∧ c.backend = backend
        ∧ (c.YValues = resize YVals valueCount.toNat ∨ c.YValues = YMinVals
          ∨ c.YValues = YMaxVals) := by
  have hm : (handleResults host p indexNew valueCount XVals YVals YMinVals YMaxVals backend
      isFinalIteration).merges
      = fanOut host.wordChar (normalizeKey host.wordChar indexNew.key) true indexNew.nrOfBins
          valueCount (resize XVals valueCount.toNat) (resize YVals valueCount.toNat) YMinVals
          YMaxVals backend p.m_IndexesToUpdate := by
    unfold handleResults
    rw [hreg]
    simp only [hact, hpos, if_true]
    cases isFinalIteration <;> rfl
  rw [hm]
  exact fanOut_active _ _ _ _ _ _ _ _ _ _

/-- C15, witness: after the two keys of the channel `S10:TEMP` have been submitted, a
result for the first key is merged once for each of them. -/
theorem handleResults_fanOut_witness :
    (handleResults exampleHost
        (Callback_UpdateInterface exampleHost ArchiveHTTP_Plugin.new
          [("0_S10:TEMP_0x7f01", exampleEntry "0_S10:TEMP_0x7f01" 1 2),
            ("1_S10:TEMP_0x7f01", exampleEntry "1_S10:TEMP_0x7f01" 3 4)]).plugin
        (exampleEntry "0_S10:TEMP_0x7f01" 1 2) 2 [10, 20] [1, 2] [] [] "b" false).merges.map
        (fun c => (c.entry, c.indexNew))
      = [("0_S10:TEMP_0x7f01", exampleEntry "0_S10:TEMP_0x7f01" 1 2),
          ("1_S10:TEMP_0x7f01", exampleEntry "1_S10:TEMP_0x7f01" 3 4)] :=
  ((handleResults_fanOut exampleHost
    (Callback_UpdateInterface exampleHost ArchiveHTTP_Plugin.new
      [("0_S10:TEMP_0x7f01", exampleEntry "0_S10:TEMP_0x7f01" 1 2),
        ("1_S10:TEMP_0x7f01", exampleEntry "1_S10:TEMP_0x7f01" 3 4)]).plugin
    (exampleEntry "0_S10:TEMP_0x7f01" 1 2) 2 [10, 20] [1, 2] [] [] "b" false
    WorkerHttpThread.new (by decide!) rfl (by decide)).1).trans (by decide!)

/-- C17: a result whose key has no entry in the worker table leaves the dispatcher
state as it is and makes no call of `updateCartesianAppended` or
`updateSecondsPast`, whatever the points and the final flag. -/
theorem handleResults_stale (host : Host) (p : ArchiveHTTP_Plugin) (indexNew : indexesEntry)
    (valueCount : Int) (XVals YVals YMinVals YMaxVals : List ℚ) (backend : String)
    (isFinalIteration : Bool)
    (hnone : qmapFind p.m_listOfThreads indexNew.key = none) :
    handleResults host p indexNew valueCount XVals YVals YMinVals YMaxVals backend
        isFinalIteration
      = { plugin := p, merges := [], secondsPast := [] } := by
  unfold handleResults
  rw [hnone]

/-- C17, witness: a final result with two points delivered to a dispatcher without
workers. -/
theorem handleResults_stale_witness :
    handleResults exampleHost ArchiveHTTP_Plugin.new (exampleEntry "0_S10:TEMP_0x7f01" 1 2) 2
        [10, 20] [1, 2] [] [] "b" true
      = { plugin := ArchiveHTTP_Plugin.new, merges := [], secondsPast := [] } :=
  handleResults_stale exampleHost ArchiveHTTP_Plugin.new (exampleEntry "0_S10:TEMP_0x7f01" 1 2)
    2 [10, 20] [1, 2] [] [] "b" true rfl

/-- C19: for a result whose key has a registered worker: a final result removes the
worker of that key and keeps every other worker, and leaves in the pending table
exactly the entries whose normal form is not that of the result key, in their
order, changing nothing else of the state; a result that is not final leaves the
state as it is; and a result with `valueCount = 0` makes no call of
`updateCartesianAppended`. -/
theorem handleResults_lifecycle (host : Host) (p : ArchiveHTTP_Plugin) (indexNew : indexesEntry)
    (valueCount : Int) (XVals YVals YMinVals YMaxVals : List ℚ) (backend : String)
    (isFinalIteration : Bool) (thread : WorkerHttpThread)
    (hreg : qmapFind p.m_listOfThreads indexNew.key = some thread) :
    (isFinalIteration = true →
      (handleResults host p indexNew valueCount XVals YVals YMinVals YMaxVals backend
          isFinalIteration).plugin
        = { p with
            m_listOfThreads := p.m_listOfThreads.filter (fun kv => decide (kv.1 ≠ indexNew.key))
            m_IndexesToUpdate := p.m_IndexesToUpdate.filter
              (fun kv => decide (normalizeKey host.wordChar kv.1
                ≠ normalizeKey host.wordChar indexNew.key)) })
    ∧ (isFinalIteration = false →
      (handleResults host p indexNew valueCount XVals YVals YMinVals YMaxVals backend
          isFinalIteration).plugin = p)
    ∧ (valueCount = 0 →
      (handleResults host p indexNew valueCount XVals YVals YMinVals YMaxVals backend
          isFinalIteration).merges = []) := by
  refine ⟨?_, ?_, ?_⟩
  · intro hfin
    subst hfin
    unfold handleResults
    rw [hreg]
    simp only [if_true]
    rw [finished_pending]
    rfl
  · intro hfin
    subst hfin
    unfold handleResults
    rw [hreg]
    rfl
  · intro h0
    subst h0
    unfold handleResults
    rw [hreg]
    cases isFinalIteration <;> rfl

/-- C19, witness: a final result without points for the first of the two submitted
keys empties both tables. -/
theorem handleResults_lifecycle_witness :
    (handleResults exampleHost
        (Callback_UpdateInterface exampleHost ArchiveHTTP_Plugin.new
          [("0_S10:TEMP_0x7f01", exampleEntry "0_S10:TEMP_0x7f01" 1 2),
            ("1_S10:TEMP_0x7f01", exampleEntry "1_S10:TEMP_0x7f01" 3 4)]).plugin
        (exampleEntry "0_S10:TEMP_0x7f01" 1 2) 0 [] [] [] [] "b" true).plugin.m_IndexesToUpdate
      = []
    ∧ (handleResults exampleHost
        (Callback_UpdateInterface exampleHost ArchiveHTTP_Plugin.new
          [("0_S10:TEMP_0x7f01", exampleEntry "0_S10:TEMP_0x7f01" 1 2),
            ("1_S10:TEMP_0x7f01", exampleEntry "1_S10:TEMP_0x7f01" 3 4)]).plugin
        (exampleEntry "0_S10:TEMP_0x7f01" 1 2) 0 [] [] [] [] "b" true).plugin.m_listOfThreads
      = [] :=
  have h := (handleResults_lifecycle exampleHost
    (Callback_UpdateInterface exampleHost ArchiveHTTP_Plugin.new
      [("0_S10:TEMP_0x7f01", exampleEntry "0_S10:TEMP_0x7f01" 1 2),
        ("1_S10:TEMP_0x7f01", exampleEntry "1_S10:TEMP_0x7f01" 3 4)]).plugin
    (exampleEntry "0_S10:TEMP_0x7f01" 1 2) 0 [] [] [] [] "b" true
    WorkerHttpThread.new (by decide!)).1 rfl
  ⟨(congrArg ArchiveHTTP_Plugin.m_IndexesToUpdate h).trans (by decide!),
    (congrArg ArchiveHTTP_Plugin.m_listOfThreads h).trans (by decide!)⟩

/-! ## The invariant of the dispatcher tables -/

theorem submitEntry_tables (host : Host) (st : Submit) (entry : String × indexesEntry) :
    (submitEntry host st entry).plugin.m_IndexesToUpdate
      = qmapInsert st.plugin.m_IndexesToUpdate entry.1 entry.2
    ∧ (submitEntry host st entry).plugin.m_listOfThreads
      = (if keyAlreadyPresent host.wordChar (normalizeKey host.wordChar entry.1)
            st.plugin.m_IndexesToUpdate = true then st.plugin.m_listOfThreads
          else qmapInsert st.plugin.m_listOfThreads entry.1 WorkerHttpThread.new)
    ∧ (submitEntry host st entry).plugin.m_IsSuspended = st.plugin.m_IsSuspended := by
  by_cases h : keyAlreadyPresent host.wordChar (normalizeKey host.wordChar entry.1)
      st.plugin.m_IndexesToUpdate = true
  · simp [submitEntry, h]
  · simp [submitEntry, h]

theorem submitEntry_consistent (host : Host) (st : Submit) (entry : String × indexesEntry)
    (h : TablesConsistent host st.plugin) :
    TablesConsistent host (submitEntry host st entry).plugin := by
  obtain ⟨ha, hb⟩ := h
  obtain ⟨e1, e2, _⟩ := submitEntry_tables host st entry
  unfold TablesConsistent
  rw [e1, e2]
  by_cases hp : keyAlreadyPresent host.wordChar (normalizeKey host.wordChar entry.1)
      st.plugin.m_IndexesToUpdate = true
  · rw [if_pos hp]
    exact ⟨fun k hk => (mem_qmapKeys_insert _ _ _ _).mpr (Or.inr (ha k hk)), hb⟩
  · rw [if_neg hp]
    have hno : ∀ k' ∈ qmapKeys st.plugin.m_listOfThreads,
        normalizeKey host.wordChar k' ≠ normalizeKey host.wordChar entry.1 := by
      intro k' hk' heq
      exact hp ((keyAlreadyPresent_iff _ _ _).mpr ⟨k', ha k' hk', heq⟩)
    constructor
    · intro k hk
      rcases (mem_qmapKeys_insert _ _ _ _).mp hk with h | h
      · exact (mem_qmapKeys_insert _ _ _ _).mpr (Or.inl h)
      · exact (mem_qmapKeys_insert _ _ _ _).mpr (Or.inr (ha k h))
    · exact pairwise_qmapKeys_insert _ _ _ _
        (fun k' hk' => ⟨fun h => hno k' hk' h.symm, hno k' hk'⟩) hb

theorem foldl_submitEntry_consistent (host : Host) (batch : QMap indexesEntry) :
    ∀ st : Submit, TablesConsistent host st.plugin →
      TablesConsistent host (batch.foldl (submitEntry host) st).plugin := by
  induction batch with
  | nil => intro st h; exact h
  | cons e t ih =>
    intro st h
    rw [List.foldl_cons]
    exact ih _ (submitEntry_consistent host st e h)

theorem submit_consistent (host : Host) (p : ArchiveHTTP_Plugin) (batch : QMap indexesEntry)
    (h : TablesConsistent host p) :
    TablesConsistent host (Callback_UpdateInterface host p batch).plugin := by
  unfold Callback_UpdateInterface
  by_cases hs : p.m_IsSuspended = true
  · rw [if_pos hs]
    exact h
  · rw [if_neg hs]
    exact foldl_submitEntry_consistent host batch _ h

theorem mem_qmapKeys_filter {α : Type} (m : QMap α) (f : String × α → Bool) (k : String)
    (h : k ∈ qmapKeys (m.filter f)) : k ∈ qmapKeys m := by
  obtain ⟨kv, hkv, hk⟩ := List.mem_map.mp h
  exact List.mem_map.mpr ⟨kv, (List.mem_filter.mp hkv).1, hk⟩

theorem handleResults_consistent (host : Host) (p : ArchiveHTTP_Plugin)
    (indexNew : indexesEntry)
    (valueCount : Int) (XVals YVals YMinVals YMaxVals : List ℚ) (backend : String)
    (isFinalIteration : Bool) (h : TablesConsistent host p) :
    TablesConsistent host (handleResults host p indexNew valueCount XVals YVals YMinVals
      YMaxVals backend isFinalIteration).plugin := by
  rw [handleResults_plugin]
  by_cases hc : (qmapFind p.m_listOfThreads indexNew.key).isSome = true
      ∧ isFinalIteration = true
  · rw [if_pos hc]
    obtain ⟨ha, hb⟩ := h
    obtain ⟨thread, hthread⟩ := Option.isSome_iff_exists.mp hc.1
    have hkey : indexNew.key ∈ qmapKeys p.m_listOfThreads := qmapFind_some_key _ _ _ hthread
    have hsymm : Symmetric (fun a b : String =>
        normalizeKey host.wordChar a ≠ normalizeKey host.wordChar b) :=
      fun a b hab hba => hab hba.symm
    constructor
    · intro k hk
      obtain ⟨kv, hkv, hkfst⟩ := List.mem_map.mp hk
      obtain ⟨hkvm, hne⟩ := List.mem_filter.mp hkv
      simp only [ne_eq, decide_eq_true_eq] at hne
      have hkm : k ∈ qmapKeys p.m_listOfThreads := List.mem_map.mpr ⟨kv, hkvm, hkfst⟩
      have hnorm : normalizeKey host.wordChar k ≠ normalizeKey host.wordChar indexNew.key :=
        hb.forall hsymm hkm hkey (by rw [← hkfst]; exact hne)
      obtain ⟨kv', hkv', hkfst'⟩ := List.mem_map.mp (ha k hkm)
      exact List.mem_map.mpr ⟨kv', List.mem_filter.mpr ⟨hkv', by
        simp only [ne_eq, decide_eq_true_eq]
        rw [hkfst']
        exact hnorm⟩, hkfst'⟩
    · exact hb.sublist ((List.filter_sublist _).map Prod.fst)
  · rw [if_neg hc]
    exact h

theorem abort_tables (p : ArchiveHTTP_Plugin) (key : String) (retrieval : Bool) :
    (Callback_AbortOutstandingRequests p key retrieval).1.m_IndexesToUpdate
      = p.m_IndexesToUpdate
    ∧ (Callback_AbortOutstandingRequests p key retrieval).1.m_listOfThreads
      = qmapUpdate (fun t => { t with isActive := false }) p.m_listOfThreads key
    ∧ (Callback_AbortOutstandingRequests p key retrieval).1.m_IsSuspended = false := by
  cases hf : qmapFind p.m_listOfThreads key with
  | some t => simp [Callback_AbortOutstandingRequests, hf]
  | none =>
    simp only [Callback_AbortOutstandingRequests, hf, true_and, and_true]
    have : ∀ (m : QMap WorkerHttpThread), qmapFind m key = none →
        qmapUpdate (fun t => { t with isActive := false }) m key = m := by
      intro m
      induction m with
      | nil => intro _; rfl
      | cons kv t ih =>
        obtain ⟨k0, v0⟩ := kv
        intro h
        unfold qmapFind at h
        by_cases h1 : k0 = key
        · rw [if_pos h1] at h
          cases h
        · rw [if_neg h1] at h
          unfold qmapUpdate
          rw [if_neg h1, ih h]
    exact (this _ hf).symm

theorem abort_consistent (host : Host) (p : ArchiveHTTP_Plugin) (key : String)
    (retrieval : Bool) (h : TablesConsistent host p) :
    TablesConsistent host (Callback_AbortOutstandingRequests p key retrieval).1 := by
  obtain ⟨e1, e2, _⟩ := abort_tables p key retrieval
  unfold TablesConsistent
  rw [e1, e2, qmapKeys_update]
  exact h

theorem reachable_consistent (host : Host) (p : ArchiveHTTP_Plugin) (h : Reachable host p) :
    TablesConsistent host p := by
  induction h with
  | init => exact ⟨fun k hk => by simp [ArchiveHTTP_Plugin.new, qmapKeys] at hk,
      by simp [ArchiveHTTP_Plugin.new, qmapKeys]⟩
  | initCommunicationLayer p messageWindow _ ih => exact ih
  | submit p batch _ ih => exact submit_consistent host p batch ih
  | results p indexNew valueCount XVals YVals YMinVals YMaxVals backend fin _ ih =>
    exact handleResults_consistent host p indexNew valueCount XVals YVals YMinVals YMaxVals
      backend fin ih
  | abort p key retrieval _ ih => exact abort_consistent host p key retrieval ih

/-- C20: in every dispatcher state reachable from the state after construction by
calls of `initCommunicationLayer`, `Callback_UpdateInterface`, `handleResults` and
`Callback_AbortOutstandingRequests`, no two entries of the worker table have keys
with the same normal form. -/
theorem single_worker_per_key (host : Host) (p : ArchiveHTTP_Plugin)
    (h : Reachable host p) :
    (qmapKeys p.m_listOfThreads).Pairwise
      (fun a b => normalizeKey host.wordChar a ≠ normalizeKey host.wordChar b) :=
  (reachable_consistent host p h).2

/-- C20, witness: the state after the two keys of the channel `S10:TEMP` and a key
of the channel `S10:PRESSURE` have been submitted. -/
theorem single_worker_per_key_witness :
    (qmapKeys (Callback_UpdateInterface exampleHost ArchiveHTTP_Plugin.new
        [("0_S10:TEMP_0x7f01", exampleEntry "0_S10:TEMP_0x7f01" 1 2),
          ("1_S10:TEMP_0x7f01", exampleEntry "1_S10:TEMP_0x7f01" 3 4),
          ("2_S10:PRESSURE_0x7f01", exampleEntry "2_S10:PRESSURE_0x7f01" 5 6)]
        ).plugin.m_listOfThreads).Pairwise
      (fun a b => normalizeKey exampleHost.wordChar a ≠ normalizeKey exampleHost.wordChar b) :=
  single_worker_per_key exampleHost _ (Reachable.submit _ _ Reachable.init)

/-! ## After an abort -/

theorem submitEntry_find (host : Host) (st : Submit) (entry : String × indexesEntry)
    (key : String) (thread : WorkerHttpThread) (h : TablesConsistent host st.plugin)
    (hf : qmapFind st.plugin.m_listOfThreads key = some thread) :
    qmapFind (submitEntry host st entry).plugin.m_listOfThreads key = some thread := by
  obtain ⟨_, e2, _⟩ := submitEntry_tables host st entry
  rw [e2]
  by_cases hp : keyAlreadyPresent host.wordChar (normalizeKey host.wordChar entry.1)
      st.plugin.m_IndexesToUpdate = true
  · rw [if_pos hp]
    exact hf
  · rw [if_neg hp]
    have hne : entry.1 ≠ key := by
      intro heq
      apply hp
      exact (keyAlreadyPresent_iff _ _ _).mpr
        ⟨key, h.1 key (qmapFind_some_key _ _ _ hf), by rw [heq]⟩
    rw [qmapFind_insert_ne _ _ _ _ hne]
    exact hf

theorem foldl_submitEntry_find (host : Host) (key : String) (thread : WorkerHttpThread)
    (batch : QMap indexesEntry) :
    ∀ st : Submit, TablesConsistent host st.plugin →
      qmapFind st.plugin.m_listOfThreads key = some thread →
      qmapFind (batch.foldl (submitEntry host) st).plugin.m_listOfThreads key = some thread := by
  induction batch with
  | nil => intro st _ hf; exact hf
  | cons e t ih =>
    intro st h hf
    rw [List.foldl_cons]
    exact ih _ (submitEntry_consistent host st e h) (submitEntry_find host st e key thread h hf)

theorem abortedWorker_step (host : Host) (key : String) (p : ArchiveHTTP_Plugin) (c : Call)
    (h : AbortedWorker host key p) (hc : c.isFinalFor key = false) :
    AbortedWorker host key (Call.apply host p c) := by
  obtain ⟨hcons, thread, hf, hin⟩ := h
  cases c with
  | submit batch =>
    refine ⟨submit_consistent host p batch hcons, thread, ?_, hin⟩
    show qmapFind (Callback_UpdateInterface host p batch).plugin.m_listOfThreads key = some thread
    unfold Callback_UpdateInterface
    by_cases hs : p.m_IsSuspended = true
    · rw [if_pos hs]
      exact hf
    · rw [if_neg hs]
      exact foldl_submitEntry_find host key thread batch _ hcons hf
  | results indexNew valueCount XVals YVals YMinVals YMaxVals backend fin =>
    refine ⟨handleResults_consistent host p indexNew valueCount XVals YVals YMinVals YMaxVals
      backend fin hcons, thread, ?_, hin⟩
    show qmapFind (handleResults host p indexNew valueCount XVals YVals YMinVals YMaxVals
      backend fin).plugin.m_listOfThreads key = some thread
    rw [handleResults_plugin]
    by_cases hcond : (qmapFind p.m_listOfThreads indexNew.key).isSome = true ∧ fin = true
    · rw [if_pos hcond]
      have hne : indexNew.key ≠ key := by
        intro heq
        simp [Call.isFinalFor, heq, hcond.2] at hc
      exact (qmapFind_remove_ne p.m_listOfThreads indexNew.key key hne).trans hf
    · rw [if_neg hcond]
      exact hf
  | abort k2 retrieval =>
    refine ⟨abort_consistent host p k2 retrieval hcons, ?_⟩
    obtain ⟨_, e2, _⟩ := abort_tables p k2 retrieval
    show ∃ thread, qmapFind (Callback_AbortOutstandingRequests p k2 retrieval).1.m_listOfThreads
      key = some thread ∧ thread.isActive = false
    rw [e2, qmapFind_update, hf]
    by_cases hk : k2 = key
    · rw [if_pos hk]
      exact ⟨_, rfl, rfl⟩
    · rw [if_neg hk]
      exact ⟨thread, rfl, hin⟩

theorem abortedWorker_run (host : Host) (key : String) (calls : List Call) :
    ∀ p : ArchiveHTTP_Plugin, AbortedWorker host key p →
      (∀ c ∈ calls, c.isFinalFor key = false) →
      AbortedWorker host key (runCalls host p calls) := by
  induction calls with
  | nil => intro p h _; exact h
  | cons c t ih =>
    intro p h hc
    show AbortedWorker host key (t.foldl (Call.apply host) (Call.apply host p c))
    exact ih _ (abortedWorker_step host key p c h (hc c (List.mem_cons_self _ _)))
      (fun c' hc' => hc c' (List.mem_cons_of_mem _ hc'))

/-- C18, counterexample: the key of curve slot 0 of the channel `S10:TEMP` is
submitted, which registers its worker, and aborted, which marks the worker inactive.
Then the monitor of the channel is cleared, which removes the pending entry of the
key, and the key is submitted again: no pending entry has its normal form, so a new
worker, active, is registered under the key.  The next `handleResults` for the key,
with two points, calls `updateCartesianAppended` with them. -/
theorem abort_no_write_counterexample :
    (qmapFind (Callback_UpdateInterface exampleHost ArchiveHTTP_Plugin.new
        [("0_S10:TEMP_0x7f01", exampleEntry "0_S10:TEMP_0x7f01" 1 2)]).plugin.m_listOfThreads
      "0_S10:TEMP_0x7f01").isSome = true
    ∧ (qmapFind (Callback_AbortOutstandingRequests
        (Callback_UpdateInterface exampleHost ArchiveHTTP_Plugin.new
          [("0_S10:TEMP_0x7f01", exampleEntry "0_S10:TEMP_0x7f01" 1 2)]).plugin
        "0_S10:TEMP_0x7f01" true).1.m_listOfThreads "0_S10:TEMP_0x7f01").map
          (fun thread => thread.isActive) = some false
    ∧ qmapKeys (pvClearMonitor exampleHost
        (Callback_AbortOutstandingRequests
          (Callback_UpdateInterface exampleHost ArchiveHTTP_Plugin.new
            [("0_S10:TEMP_0x7f01", exampleEntry "0_S10:TEMP_0x7f01" 1 2)]).plugin
          "0_S10:TEMP_0x7f01" true).1
        "S10:TEMP" "0x7f01" "").m_IndexesToUpdate = []
    ∧ (handleResults exampleHost
        (Callback_UpdateInterface exampleHost
          (pvClearMonitor exampleHost
            (Callback_AbortOutstandingRequests
              (Callback_UpdateInterface exampleHost ArchiveHTTP_Plugin.new
                [("0_S10:TEMP_0x7f01", exampleEntry "0_S10:TEMP_0x7f01" 1 2)]).plugin
              "0_S10:TEMP_0x7f01" true).1
            "S10:TEMP" "0x7f01" "")
          [("0_S10:TEMP_0x7f01", exampleEntry "0_S10:TEMP_0x7f01" 1 2)]).plugin
        (exampleEntry "0_S10:TEMP_0x7f01" 1 2) 2 [30, 40] [3, 4] [] [] "b" false).merges
      = [{ entry := "0_S10:TEMP_0x7f01", numberOfValues := 2,
           indexNew := exampleEntry "0_S10:TEMP_0x7f01" 1 2, XValues := [30, 40],
           YValues := [3, 4], backend := "b" }] := by
  decide!

/-- C18: in a dispatcher state reached by calls of `initCommunicationLayer`,
`Callback_UpdateInterface`, `handleResults` and `Callback_AbortOutstandingRequests`
(no `pvClearMonitor` among them) in which `key` has a registered worker, after
`Callback_AbortOutstandingRequests(key)` and any further calls of
`Callback_UpdateInterface`, `handleResults` and `Callback_AbortOutstandingRequests`
that do not deliver the final result for `key`, every call of
`handleResults` for `key`, whatever its points, makes no call of
`updateCartesianAppended`; and if it is the final one, no entry whose normal form is
that of `key` is left in the pending table. -/
theorem abort_no_write (host : Host) (p : ArchiveHTTP_Plugin) (key : String)
    (retrieval : Bool) (thread : WorkerHttpThread) (calls : List Call)
    (indexNew : indexesEntry) (valueCount : Int) (XVals YVals YMinVals YMaxVals : List ℚ)
    (backend : String) (isFinalIteration : Bool)
    (hreach : Reachable host p)
    (hreg : qmapFind p.m_listOfThreads key = some thread)
    (hcalls : ∀ c ∈ calls, c.isFinalFor key = false)
    (hkey : indexNew.key = key) :
    (handleResults host
        (runCalls host (Callback_AbortOutstandingRequests p key retrieval).1 calls)
        indexNew valueCount XVals YVals YMinVals YMaxVals backend isFinalIteration).merges = []
    ∧ (isFinalIteration = true →
        ∀ k ∈ qmapKeys (handleResults host
            (runCalls host (Callback_AbortOutstandingRequests p key retrieval).1 calls)
            indexNew valueCount XVals YVals YMinVals YMaxVals backend
            isFinalIteration).plugin.m_IndexesToUpdate,
          normalizeKey host.wordChar k ≠ normalizeKey host.wordChar key) := by
  have h0 : AbortedWorker host key (Callback_AbortOutstandingRequests p key retrieval).1 := by
    refine ⟨abort_consistent host p key retrieval (reachable_consistent host p hreach), ?_⟩
    obtain ⟨_, e2, _⟩ := abort_tables p key retrieval
    rw [e2, qmapFind_update, if_pos rfl, hreg]
    exact ⟨_, rfl, rfl⟩
  obtain ⟨_, t, hf, hin⟩ := abortedWorker_run host key calls _ h0 hcalls
  subst hkey
  constructor
  · unfold handleResults
    rw [hf]
    simp only [hin, fanOut_inactive, ite_self]
    cases isFinalIteration <;> rfl
  · intro hfin k hk
    rw [handleResults_plugin, if_pos ⟨by rw [hf]; rfl, hfin⟩] at hk
    obtain ⟨kv, hkv, hkfst⟩ := List.mem_map.mp hk
    have hne := (List.mem_filter.mp hkv).2
    simp only [ne_eq, decide_eq_true_eq] at hne
    rw [← hkfst]
    exact hne

/-- C18, witness: after the two keys of the channel `S10:TEMP` have been submitted
and the first one aborted, a result with two points is delivered, and then the final
result with two points: neither is merged. -/
theorem abort_no_write_witness :
    (handleResults exampleHost
        (runCalls exampleHost
          (Callback_AbortOutstandingRequests
            (Callback_UpdateInterface exampleHost ArchiveHTTP_Plugin.new
              [("0_S10:TEMP_0x7f01", exampleEntry "0_S10:TEMP_0x7f01" 1 2),
                ("1_S10:TEMP_0x7f01", exampleEntry "1_S10:TEMP_0x7f01" 3 4)]).plugin
            "0_S10:TEMP_0x7f01" true).1
          [Call.results (exampleEntry "0_S10:TEMP_0x7f01" 1 2) 2 [10, 20] [1, 2] [] [] "b"
            false])
        (exampleEntry "0_S10:TEMP_0x7f01" 1 2) 2 [30, 40] [3, 4] [] [] "b" true).merges = [] :=
  (abort_no_write exampleHost
    (Callback_UpdateInterface exampleHost ArchiveHTTP_Plugin.new
      [("0_S10:TEMP_0x7f01", exampleEntry "0_S10:TEMP_0x7f01" 1 2),
        ("1_S10:TEMP_0x7f01", exampleEntry "1_S10:TEMP_0x7f01" 3 4)]).plugin
    "0_S10:TEMP_0x7f01" true WorkerHttpThread.new
    [Call.results (exampleEntry "0_S10:TEMP_0x7f01" 1 2) 2 [10, 20] [1, 2] [] [] "b" false]
    (exampleEntry "0_S10:TEMP_0x7f01" 1 2) 2 [30, 40] [3, 4] [] [] "b" true
    (Reachable.submit _ _ Reachable.init) (by decide!)
    (fun c hc => by
      rw [List.mem_singleton] at hc
      subst hc
      rfl)
    rfl).1

/-! ## Bookkeeping, array selection and frames of the dispatcher -/

theorem collectFinished_secondsPast (wordChar : Char → Bool) (keyInCheck : String)
    (isActive : Bool) (valueCount : Int) (m : QMap indexesEntry) :
    (collectFinished wordChar keyInCheck isActive valueCount m).2
      = if isActive = false then
          (m.filter (fun kv => decide (normalizeKey wordChar kv.1 = keyInCheck))).map
            (fun kv => (kv.2, decide (valueCount ≠ 0)))
        else [] := by
  induction m with
  | nil => cases isActive <;> rfl
  | cons kv t ih =>
    obtain ⟨k0, v0⟩ := kv
    unfold collectFinished
    by_cases h : normalizeKey wordChar k0 = keyInCheck
    · simp only [h, if_true, ih]
      rw [List.filter_cons_of_pos (by simp [h])]
      cases isActive <;> simp
    · simp only [h, if_false, ih]
      rw [List.filter_cons_of_neg (by simp [h])]

theorem fanOut_values (wordChar : Char → Bool) (keyInCheck : String) (nrOfBins : Int)
    (valueCount : Int) (XVals YVals YMinVals YMaxVals : List ℚ) (backend : String)
    (m : QMap indexesEntry) :
    (fanOut wordChar keyInCheck true nrOfBins valueCount XVals YVals YMinVals YMaxVals
        backend m).map (fun c => (c.entry, c.YValues))
      = (m.filter (fun kv => decide (normalizeKey wordChar kv.1 = keyInCheck))).map
          (fun kv => (kv.1,
            if containsText kv.1 ".minY" = true ∧ 0 < nrOfBins then YMinVals
            else if containsText kv.1 ".maxY" = true ∧ 0 < nrOfBins then YMaxVals
            else YVals)) := by
  induction m with
  | nil => rfl
  | cons kv t ih =>
    obtain ⟨k0, v0⟩ := kv
    unfold fanOut
    by_cases h : normalizeKey wordChar k0 = keyInCheck
    · rw [if_pos h, if_pos rfl, List.filter_cons_of_pos (by simp [h]), List.map_cons,
        List.map_cons, ih]
      congr 1
      split
      · rfl
      · split <;> rfl
    · rw [if_neg h, List.filter_cons_of_neg (by simp [h])]
      exact ih

theorem handleResults_merges (host : Host) (p : ArchiveHTTP_Plugin) (indexNew : indexesEntry)
    (valueCount : Int) (XVals YVals YMinVals YMaxVals : List ℚ) (backend : String)
    (isFinalIteration : Bool) (thread : WorkerHttpThread)
    (hreg : qmapFind p.m_listOfThreads indexNew.key = some thread) :
    (handleResults host p indexNew valueCount XVals YVals YMinVals YMaxVals backend
        isFinalIteration).merges
      = if 0 < valueCount then
          fanOut host.wordChar (normalizeKey host.wordChar indexNew.key) thread.isActive
            indexNew.nrOfBins valueCount (resize XVals valueCount.toNat)
            (resize YVals valueCount.toNat) YMinVals YMaxVals backend p.m_IndexesToUpdate
        else [] := by
  unfold handleResults
  rw [hreg]
  cases isFinalIteration <;> rfl

theorem handleResults_secondsPast (host : Host) (p : ArchiveHTTP_Plugin)
    (indexNew : indexesEntry) (valueCount : Int) (XVals YVals YMinVals YMaxVals : List ℚ)
    (backend : String) (isFinalIteration : Bool) (thread : WorkerHttpThread)
    (hreg : qmapFind p.m_listOfThreads indexNew.key = some thread) :
    (handleResults host p indexNew valueCount XVals YVals YMinVals YMaxVals backend
        isFinalIteration).secondsPast
      = if isFinalIteration = true then
          (collectFinished host.wordChar (normalizeKey host.wordChar indexNew.key)
            thread.isActive valueCount p.m_IndexesToUpdate).2
        else [] := by
  unfold handleResults
  rw [hreg]
  cases isFinalIteration <;> rfl

/-! ## Claims on bookkeeping, array selection and frames -/

/-- C22: when `Callback_UpdateInterface` is entered with the suspension flag set,
the dispatcher state (pending table, worker table, performance records) is returned
as it is, no `operate` signal is emitted and no message is posted, whatever the
batch. -/
theorem submit_suspended (host : Host) (p : ArchiveHTTP_Plugin)
    (listOfIndexes : QMap indexesEntry) (hs : p.m_IsSuspended = true) :
    (Callback_UpdateInterface host p listOfIndexes).plugin = p
    ∧ (Callback_UpdateInterface host p listOfIndexes).operate = []
    ∧ (Callback_UpdateInterface host p listOfIndexes).messages = [] := by
  unfold Callback_UpdateInterface
  rw [if_pos hs]
  exact ⟨rfl, rfl, rfl⟩

/-- C22, witness: a batch of one key submitted to a new dispatcher whose suspension
flag has been set. -/
theorem submit_suspended_witness :
    (Callback_UpdateInterface exampleHost { ArchiveHTTP_Plugin.new with m_IsSuspended := true }
        [("0_S10:TEMP_0x7f01", exampleEntry "0_S10:TEMP_0x7f01" 1 2)]).plugin
      = { ArchiveHTTP_Plugin.new with m_IsSuspended := true }
    ∧ (Callback_UpdateInterface exampleHost { ArchiveHTTP_Plugin.new with m_IsSuspended := true }
        [("0_S10:TEMP_0x7f01", exampleEntry "0_S10:TEMP_0x7f01" 1 2)]).operate = []
    ∧ (Callback_UpdateInterface exampleHost { ArchiveHTTP_Plugin.new with m_IsSuspended := true }
        [("0_S10:TEMP_0x7f01", exampleEntry "0_S10:TEMP_0x7f01" 1 2)]).messages = [] :=
  submit_suspended exampleHost { ArchiveHTTP_Plugin.new with m_IsSuspended := true }
    [("0_S10:TEMP_0x7f01", exampleEntry "0_S10:TEMP_0x7f01" 1 2)] rfl

/-- C23: for a result whose key has a registered worker: when the worker is inactive,
the final result makes, in table order, one call of `updateSecondsPast` for each
pending entry whose normal form is that of the result key, with that entry and the
flag `valueCount != 0`, and no others, and no call of `updateCartesianAppended` is
made whatever the number of points; when the worker is active no call of
`updateSecondsPast` is made; and a result that is not final makes none either. -/
theorem handleResults_inactive_final (host : Host) (p : ArchiveHTTP_Plugin)
    (indexNew : indexesEntry) (valueCount : Int) (XVals YVals YMinVals YMaxVals : List ℚ)
    (backend : String) (isFinalIteration : Bool) (thread : WorkerHttpThread)
    (hreg : qmapFind p.m_listOfThreads indexNew.key = some thread) :
    (thread.isActive = false →
      (handleResults host p indexNew valueCount XVals YVals YMinVals YMaxVals backend
          true).secondsPast
        = (p.m_IndexesToUpdate.filter
            (fun kv => decide (normalizeKey host.wordChar kv.1
              = normalizeKey host.wordChar indexNew.key))).map
            (fun kv => (kv.2, decide (valueCount ≠ 0)))
      ∧ (handleResults host p indexNew valueCount XVals YVals YMinVals YMaxVals backend
          isFinalIteration).merges = [])
    ∧ (thread.isActive = true →
      (handleResults host p indexNew valueCount XVals YVals YMinVals YMaxVals backend
          isFinalIteration).secondsPast = [])
    ∧ (handleResults host p indexNew valueCount XVals YVals YMinVals YMaxVals backend
        false).secondsPast = [] := by
  refine ⟨?_, ?_, ?_⟩
  · intro hin
    constructor
    · rw [handleResults_secondsPast host p indexNew valueCount XVals YVals YMinVals YMaxVals
        backend true thread hreg, if_pos rfl, collectFinished_secondsPast, if_pos hin]
    · rw [handleResults_merges host p indexNew valueCount XVals YVals YMinVals YMaxVals
        backend isFinalIteration thread hreg, hin, fanOut_inactive, ite_self]
  · intro hact
    rw [handleResults_secondsPast host p indexNew valueCount XVals YVals YMinVals YMaxVals
      backend isFinalIteration thread hreg, collectFinished_secondsPast,
      if_neg (show ¬ thread.isActive = false by simp [hact]), ite_self]
  · rw [handleResults_secondsPast host p indexNew valueCount XVals YVals YMinVals YMaxVals
      backend false thread hreg, if_neg (by simp)]

/-- C23, witness: the two keys of the channel `S10:TEMP` are submitted, the worker is
aborted, and the final result carries two points: one bookkeeping call with the flag
set for each of the two entries, and no merge. -/
theorem handleResults_inactive_final_witness :
    (handleResults exampleHost
        (Callback_AbortOutstandingRequests
          (Callback_UpdateInterface exampleHost ArchiveHTTP_Plugin.new
            [("0_S10:TEMP_0x7f01", exampleEntry "0_S10:TEMP_0x7f01" 1 2),
              ("1_S10:TEMP_0x7f01", exampleEntry "1_S10:TEMP_0x7f01" 3 4)]).plugin
          "0_S10:TEMP_0x7f01" true).1
        (exampleEntry "0_S10:TEMP_0x7f01" 1 2) 2 [10, 20] [1, 2] [] [] "b" true).secondsPast
      = [(exampleEntry "0_S10:TEMP_0x7f01" 1 2, true),
          (exampleEntry "1_S10:TEMP_0x7f01" 3 4, true)]
    ∧ (handleResults exampleHost
        (Callback_AbortOutstandingRequests
          (Callback_UpdateInterface exampleHost ArchiveHTTP_Plugin.new
            [("0_S10:TEMP_0x7f01", exampleEntry "0_S10:TEMP_0x7f01" 1 2),
              ("1_S10:TEMP_0x7f01", exampleEntry "1_S10:TEMP_0x7f01" 3 4)]).plugin
          "0_S10:TEMP_0x7f01" true).1
        (exampleEntry "0_S10:TEMP_0x7f01" 1 2) 2 [10, 20] [1, 2] [] [] "b" true).merges = [] :=
  have h := (handleResults_inactive_final exampleHost
    (Callback_AbortOutstandingRequests
      (Callback_UpdateInterface exampleHost ArchiveHTTP_Plugin.new
        [("0_S10:TEMP_0x7f01", exampleEntry "0_S10:TEMP_0x7f01" 1 2),
          ("1_S10:TEMP_0x7f01", exampleEntry "1_S10:TEMP_0x7f01" 3 4)]).plugin
      "0_S10:TEMP_0x7f01" true).1
    (exampleEntry "0_S10:TEMP_0x7f01" 1 2) 2 [10, 20] [1, 2] [] [] "b" true
    { isActive := false } (by decide!)).1 rfl
  ⟨h.1.trans (by decide!), h.2⟩

/-- C24: for a result whose key has a registered, active worker and whose
`valueCount` is positive, the value array of the call of `updateCartesianAppended`
made for a pending entry is `YMinVals` when the key of the entry contains `.minY` and
the bin count of the result is positive, `YMaxVals` when the key contains `.maxY`,
the first case does not apply and the bin count is positive, and `YVals` (resized to
the count) otherwise; with a bin count that is not positive every call gets
`YVals`. -/
theorem handleResults_axis_role (host : Host) (p : ArchiveHTTP_Plugin)
    (indexNew : indexesEntry) (valueCount : Int) (XVals YVals YMinVals YMaxVals : List ℚ)
    (backend : String) (isFinalIteration : Bool) (thread : WorkerHttpThread)
    (hreg : qmapFind p.m_listOfThreads indexNew.key = some thread)
    (hact : thread.isActive = true) (hpos : 0 < valueCount) :
    (handleResults host p indexNew valueCount XVals YVals YMinVals YMaxVals backend
        isFinalIteration).merges.map (fun c => (c.entry, c.YValues))
      = (p.m_IndexesToUpdate.filter
          (fun kv => decide (normalizeKey host.wordChar kv.1
            = normalizeKey host.wordChar indexNew.key))).map
          (fun kv => (kv.1,
            if containsText kv.1 ".minY" = true ∧ 0 < indexNew.nrOfBins then YMinVals
            else if containsText kv.1 ".maxY" = true ∧ 0 < indexNew.nrOfBins then YMaxVals
            else resize YVals valueCount.toNat))
    ∧ (indexNew.nrOfBins ≤ 0 →
      ∀ c ∈ (handleResults host p indexNew valueCount XVals YVals YMinVals YMaxVals backend
          isFinalIteration).merges, c.YValues = resize YVals valueCount.toNat) := by
  have hm := handleResults_merges host p indexNew valueCount XVals YVals YMinVals YMaxVals
    backend isFinalIteration thread hreg
  rw [if_pos hpos, hact] at hm
  have hv := fanOut_values host.wordChar (normalizeKey host.wordChar indexNew.key)
    indexNew.nrOfBins valueCount (resize XVals valueCount.toNat)
    (resize YVals valueCount.toNat) YMinVals YMaxVals backend p.m_IndexesToUpdate
  rw [← hm] at hv
  refine ⟨hv, ?_⟩
  intro hbins c hc
  have hmem : (c.entry, c.YValues) ∈ (handleResults host p indexNew valueCount XVals YVals
      YMinVals YMaxVals backend isFinalIteration).merges.map (fun c => (c.entry, c.YValues)) :=
    List.mem_map.mpr ⟨c, hc, rfl⟩
  rw [hv] at hmem
  obtain ⟨kv, _, hkv⟩ := List.mem_map.mp hmem
  have hnot : ¬ 0 < indexNew.nrOfBins := by omega
  rw [if_neg (fun h => hnot h.2), if_neg (fun h => hnot h.2)] at hkv
  exact (congrArg Prod.snd hkv).symm

/-- C24, witness: a result with 100 bins and two points for the channel `S10:TEMP`,
whose mean, minimum and maximum keys are pending. -/
theorem handleResults_axis_role_witness :
    (handleResults exampleHost exampleBinnedPlugin
        { exampleEntry "0_S10:TEMP_0x7f01" 1 2 with nrOfBins := 100 } 2 [10, 20] [5, 6]
        [1, 2] [8, 9] "b" false).merges.map (fun c => (c.entry, c.YValues))
      = [("0_S10:TEMP_0x7f01", [5, 6]), ("1_S10:TEMP.minY_0x7f01", [1, 2]),
          ("2_S10:TEMP.maxY_0x7f01", [8, 9])] :=
  (handleResults_axis_role exampleHost exampleBinnedPlugin
    { exampleEntry "0_S10:TEMP_0x7f01" 1 2 with nrOfBins := 100 } 2 [10, 20] [5, 6]
    [1, 2] [8, 9] "b" false WorkerHttpThread.new (by decide!) rfl (by decide)).1.trans
    (by decide!)

/-- C26: `Callback_AbortOutstandingRequests(key)` leaves the pending table, the
performance records and the message window as they are, keeps the keys of the worker
table and every worker registered under another key, and turns the worker registered
under `key`, if there is one, inactive; the suspension flag is clear afterwards; when
`key` has no worker, nothing but the suspension flag can differ, and a state whose
flag is clear is returned as it is. -/
theorem abort_frame (p : ArchiveHTTP_Plugin) (key : String) (retrieval : Bool) :
    (Callback_AbortOutstandingRequests p key retrieval).1.m_IndexesToUpdate
      = p.m_IndexesToUpdate
    ∧ (Callback_AbortOutstandingRequests p key retrieval).1.m_retrievalPerformancePerPV
      = p.m_retrievalPerformancePerPV
    ∧ (Callback_AbortOutstandingRequests p key retrieval).1.m_messageWindowP
      = p.m_messageWindowP
    ∧ qmapKeys (Callback_AbortOutstandingRequests p key retrieval).1.m_listOfThreads
      = qmapKeys p.m_listOfThreads
    ∧ (∀ k, k ≠ key →
        qmapFind (Callback_AbortOutstandingRequests p key retrieval).1.m_listOfThreads k
          = qmapFind p.m_listOfThreads k)
    ∧ qmapFind (Callback_AbortOutstandingRequests p key retrieval).1.m_listOfThreads key
      = (qmapFind p.m_listOfThreads key).map (fun t => { t with isActive := false })
    ∧ (Callback_AbortOutstandingRequests p key retrieval).1.m_IsSuspended = false
    ∧ (qmapFind p.m_listOfThreads key = none →
        (Callback_AbortOutstandingRequests p key retrieval).1
          = { p with m_IsSuspended := false })
    ∧ (qmapFind p.m_listOfThreads key = none → p.m_IsSuspended = false →
        (Callback_AbortOutstandingRequests p key retrieval).1 = p) := by
  obtain ⟨e1, e2, e3⟩ := abort_tables p key retrieval
  have hnone : qmapFind p.m_listOfThreads key = none →
      (Callback_AbortOutstandingRequests p key retrieval).1
        = { p with m_IsSuspended := false } := by
    intro hf
    simp [Callback_AbortOutstandingRequests, hf]
  have hrest : (Callback_AbortOutstandingRequests p key retrieval).1.m_retrievalPerformancePerPV
        = p.m_retrievalPerformancePerPV
      ∧ (Callback_AbortOutstandingRequests p key retrieval).1.m_messageWindowP
        = p.m_messageWindowP := by
    cases hf : qmapFind p.m_listOfThreads key with
    | none => simp [Callback_AbortOutstandingRequests, hf]
    | some t => simp [Callback_AbortOutstandingRequests, hf]
  refine ⟨e1, hrest.1, hrest.2, ?_, ?_, ?_, e3, hnone, ?_⟩
  · rw [e2, qmapKeys_update]
  · intro k hk
    rw [e2, qmapFind_update, if_neg (fun h => hk h.symm)]
  · rw [e2, qmapFind_update, if_pos rfl]
  · intro hf hs
    rw [hnone hf]
    cases p
    simp only [] at hs
    subst hs
    rfl

/-- C26, witness: the abort of a key without worker on the dispatcher in which the
two keys of the channel `S10:TEMP` have been submitted. -/
theorem abort_frame_witness :
    (Callback_AbortOutstandingRequests
        (Callback_UpdateInterface exampleHost ArchiveHTTP_Plugin.new
          [("0_S10:TEMP_0x7f01", exampleEntry "0_S10:TEMP_0x7f01" 1 2),
            ("1_S10:TEMP_0x7f01", exampleEntry "1_S10:TEMP_0x7f01" 3 4)]).plugin
        "1_S10:TEMP_0x7f01" true).1
      = (Callback_UpdateInterface exampleHost ArchiveHTTP_Plugin.new
          [("0_S10:TEMP_0x7f01", exampleEntry "0_S10:TEMP_0x7f01" 1 2),
            ("1_S10:TEMP_0x7f01", exampleEntry "1_S10:TEMP_0x7f01" 3 4)]).plugin :=
  (abort_frame
    (Callback_UpdateInterface exampleHost ArchiveHTTP_Plugin.new
      [("0_S10:TEMP_0x7f01", exampleEntry "0_S10:TEMP_0x7f01" 1 2),
        ("1_S10:TEMP_0x7f01", exampleEntry "1_S10:TEMP_0x7f01" 3 4)]).plugin
    "1_S10:TEMP_0x7f01" true).2.2.2.2.2.2.2.2 (by decide!) (by decide!)

/-! ## The endpoint of a new worker -/

theorem resolveConfig_endpoint (host : Host) (messageWindow : Bool) (value : indexesEntry)
    (index_name : String) :
    (resolveConfig host messageWindow value index_name).2.1
      = if host.isCartesianPlot value.w = true then
          match host.property value.w "archiverIndex" with
          | some var =>
            if var.toQString.isEmpty = false ∨ host.envUrl.length = 0 then
              host.qasc var.toQString
            else host.envUrl
          | none => if host.envUrl.length = 0 then index_name else host.envUrl
        else index_name := by
  unfold resolveConfig
  by_cases hc : host.isCartesianPlot value.w = true
  · simp only [hc, if_true]
    cases hp : host.property value.w "archiverIndex" with
    | none =>
      have he : ("" : String).isEmpty = true := rfl
      by_cases hu : host.envUrl.length = 0
      · simp [hu]
      · simp [hu, he]
    | some var =>
      simp only []
      by_cases h1 : var.toQString.isEmpty = false ∨ host.envUrl.length = 0
      · rw [if_pos h1, if_pos (Or.symm h1)]
      · rw [if_neg h1, if_neg (fun h => h1 (Or.symm h))]
  · simp [hc]

theorem submitEntry_spawn (host : Host) (st : Submit) (k : String) (v : indexesEntry)
    (hnew : keyAlreadyPresent host.wordChar (normalizeKey host.wordChar k)
      st.plugin.m_IndexesToUpdate = false) :
    (submitEntry host st (k, v)).operate
      = st.operate ++ [{ key := k
                         indexNew := (resolveConfig host st.plugin.m_messageWindowP v
                           st.index_name).1
                         index_name := (resolveConfig host st.plugin.m_messageWindowP v
                           st.index_name).2.1 }]
    ∧ (submitEntry host st (k, v)).index_name
      = (resolveConfig host st.plugin.m_messageWindowP v st.index_name).2.1 := by
  simp [submitEntry, hnew]

theorem submitEntry_present (host : Host) (st : Submit) (k : String) (v : indexesEntry)
    (hold : keyAlreadyPresent host.wordChar (normalizeKey host.wordChar k)
      st.plugin.m_IndexesToUpdate = true) :
    (submitEntry host st (k, v)).operate = st.operate
    ∧ (submitEntry host st (k, v)).index_name = st.index_name := by
  simp [submitEntry, hold]

/-- The local variable `index_name` holds the endpoint of the last `operate` signal
emitted in the batch, or the built-in default when none has been emitted. -/
theorem submitEntry_index_name (host : Host) (st : Submit) (entry : String × indexesEntry)
    (h : st.index_name = match st.operate.getLast? with
      | some o => o.index_name
      | none => "https://data-api.psi.ch/") :
    (submitEntry host st entry).index_name
      = match (submitEntry host st entry).operate.getLast? with
        | some o => o.index_name
        | none => "https://data-api.psi.ch/" := by
  obtain ⟨k, v⟩ := entry
  cases hk : keyAlreadyPresent host.wordChar (normalizeKey host.wordChar k)
      st.plugin.m_IndexesToUpdate with
  | true =>
    obtain ⟨e1, e2⟩ := submitEntry_present host st k v hk
    rw [e1, e2]
    exact h
  | false =>
    obtain ⟨e1, e2⟩ := submitEntry_spawn host st k v hk
    rw [e1, e2, List.getLast?_append]
    rfl

theorem foldl_submitEntry_index_name (host : Host) (batch : QMap indexesEntry) :
    ∀ st : Submit,
      (st.index_name = match st.operate.getLast? with
        | some o => o.index_name
        | none => "https://data-api.psi.ch/") →
      (batch.foldl (submitEntry host) st).index_name
        = match (batch.foldl (submitEntry host) st).operate.getLast? with
          | some o => o.index_name
          | none => "https://data-api.psi.ch/" := by
  induction batch with
  | nil => intro st h; exact h
  | cons e t ih =>
    intro st h
    exact ih _ (submitEntry_index_name host st e h)

theorem foldl_submitEntry_operate (host : Host) (batch : QMap indexesEntry) :
    ∀ st : Submit, ∃ later, (batch.foldl (submitEntry host) st).operate = st.operate ++ later := by
  induction batch with
  | nil => intro st; exact ⟨[], by simp⟩
  | cons e t ih =>
    intro st
    obtain ⟨k, v⟩ := e
    obtain ⟨later, hl⟩ := ih (submitEntry host st (k, v))
    cases hk : keyAlreadyPresent host.wordChar (normalizeKey host.wordChar k)
        st.plugin.m_IndexesToUpdate with
    | true =>
      refine ⟨later, ?_⟩
      rw [List.foldl_cons, hl, (submitEntry_present host st k v hk).1]
    | false =>
      refine ⟨{ key := k
                indexNew := (resolveConfig host st.plugin.m_messageWindowP v st.index_name).1
                index_name := (resolveConfig host st.plugin.m_messageWindowP v
                  st.index_name).2.1 } :: later, ?_⟩
      rw [List.foldl_cons, hl, (submitEntry_spawn host st k v hk).1, List.append_assoc]
      rfl

theorem Callback_UpdateInterface_append (host : Host) (p : ArchiveHTTP_Plugin)
    (pre post : QMap indexesEntry) (hs : p.m_IsSuspended = false) :
    Callback_UpdateInterface host p (pre ++ post)
      = post.foldl (submitEntry host) (Callback_UpdateInterface host p pre) := by
  unfold Callback_UpdateInterface
  rw [if_neg (by simp [hs]), if_neg (by simp [hs]), List.foldl_append]

/-! ## Claims on the endpoint -/

/-- C21: the endpoint of an entry depends on the entries before it in the batch.
With no environment variable set, the batch of a key of widget 1 (override
`http://archive-a/`) and a key of widget 2 (no override) starts the worker of the
second key with the endpoint `http://archive-a/`, the override of the other widget,
whereas the second key submitted alone gets the built-in default
`https://data-api.psi.ch/`. -/
theorem endpoint_precedence_counterexample :
    (Callback_UpdateInterface overrideHost ArchiveHTTP_Plugin.new
        [("0_S10:PRESSURE_0x7f01", { exampleEntry "0_S10:PRESSURE_0x7f01" 1 2 with w := 1 }),
          ("0_S10:TEMP_0x7f02", { exampleEntry "0_S10:TEMP_0x7f02" 3 4 with w := 2 })]
      ).operate.map (fun o => (o.key, o.index_name))
      = [("0_S10:PRESSURE_0x7f01", "http://archive-a/"),
          ("0_S10:TEMP_0x7f02", "http://archive-a/")]
    ∧ (Callback_UpdateInterface overrideHost ArchiveHTTP_Plugin.new
        [("0_S10:TEMP_0x7f02", { exampleEntry "0_S10:TEMP_0x7f02" 3 4 with w := 2 })]
      ).operate.map (fun o => (o.key, o.index_name))
      = [("0_S10:TEMP_0x7f02", "https://data-api.psi.ch/")]
    ∧ overrideHost.property 2 "archiverIndex" = none ∧ overrideHost.envUrl = "" := by
  decide!

/-- The endpoint that the code resolves: in a batch submitted to a dispatcher that is
not suspended, an entry that starts a worker emits one `operate` signal, after those
of the earlier entries, whose endpoint is: for a `caCartesianPlot` widget whose `archiverIndex`
property is set, the text of the property (as stored by `qasc`) when it is not empty
or the environment variable is empty, and the environment variable otherwise; for a
`caCartesianPlot` widget without that property, the environment variable when it is
not empty; and in the remaining cases (no property and no environment variable, or a
widget that is not a `caCartesianPlot`) the value that `index_name` holds, which is
the endpoint of the last worker started before in the same batch, and the built-in
default `https://data-api.psi.ch/` only when the batch has started none. -/
theorem endpoint_precedence (host : Host) (p : ArchiveHTTP_Plugin)
    (pre post : QMap indexesEntry) (k : String) (v : indexesEntry)
    (hs : p.m_IsSuspended = false)
    (hnew : keyAlreadyPresent host.wordChar (normalizeKey host.wordChar k)
      (Callback_UpdateInterface host p pre).plugin.m_IndexesToUpdate = false) :
    ∃ o later,
      (Callback_UpdateInterface host p (pre ++ (k, v) :: post)).operate
        = (Callback_UpdateInterface host p pre).operate ++ o :: later
      ∧ o.key = k
      ∧ o.index_name
        = (if host.isCartesianPlot v.w = true then
            match host.property v.w "archiverIndex" with
            | some var =>
              if var.toQString.isEmpty = false ∨ host.envUrl.length = 0 then
                host.qasc var.toQString
              else host.envUrl
            | none =>
              if host.envUrl.length = 0 then (Callback_UpdateInterface host p pre).index_name
              else host.envUrl
          else (Callback_UpdateInterface host p pre).index_name)
      ∧ (Callback_UpdateInterface host p pre).index_name
        = match (Callback_UpdateInterface host p pre).operate.getLast? with
          | some o' => o'.index_name
          | none => "https://data-api.psi.ch/" := by
  obtain ⟨e1, _⟩ := submitEntry_spawn host (Callback_UpdateInterface host p pre) k v hnew
  obtain ⟨later, hl⟩ := foldl_submitEntry_operate host post
    (submitEntry host (Callback_UpdateInterface host p pre) (k, v))
  refine ⟨{ key := k
            indexNew := (resolveConfig host
              (Callback_UpdateInterface host p pre).plugin.m_messageWindowP v
              (Callback_UpdateInterface host p pre).index_name).1
            index_name := (resolveConfig host
              (Callback_UpdateInterface host p pre).plugin.m_messageWindowP v
              (Callback_UpdateInterface host p pre).index_name).2.1 },
    later, ?_, rfl, resolveConfig_endpoint host _ v _, ?_⟩
  · rw [Callback_UpdateInterface_append host p pre ((k, v) :: post) hs, List.foldl_cons, hl,
      e1, List.append_assoc]
    rfl
  · have h0 := foldl_submitEntry_index_name host pre
      { plugin := p, index_name := "https://data-api.psi.ch/", operate := [], messages := [] }
      rfl
    unfold Callback_UpdateInterface
    rw [if_neg (by simp [hs])]
    exact h0

/-- An instance of `endpoint_precedence`: the second entry of the batch of the two
widgets. -/
theorem endpoint_precedence_witness :
    ∃ o ∈ (Callback_UpdateInterface overrideHost ArchiveHTTP_Plugin.new
        ([("0_S10:PRESSURE_0x7f01", { exampleEntry "0_S10:PRESSURE_0x7f01" 1 2 with w := 1 })]
          ++ [("0_S10:TEMP_0x7f02", { exampleEntry "0_S10:TEMP_0x7f02" 3 4 with w := 2 })])
        ).operate,
      o.key = "0_S10:TEMP_0x7f02" ∧ o.index_name = "http://archive-a/" :=
  let ⟨o, _, h1, h2, h3, _⟩ := endpoint_precedence overrideHost ArchiveHTTP_Plugin.new
    [("0_S10:PRESSURE_0x7f01", { exampleEntry "0_S10:PRESSURE_0x7f01" 1 2 with w := 1 })] []
    "0_S10:TEMP_0x7f02" { exampleEntry "0_S10:TEMP_0x7f02" 3 4 with w := 2 } rfl (by decide!)
  ⟨o, by rw [h1]; simp, h2, h3.trans (by decide!)⟩

/-! ## Properties of `pvClearMonitor` and of the suspension flag -/

theorem qmapRemove_of_find_none {α : Type} (m : QMap α) (k : String)
    (h : qmapFind m k = none) : qmapRemove m k = m := by
  induction m with
  | nil => rfl
  | cons kv t ih =>
    obtain ⟨k0, v0⟩ := kv
    unfold qmapFind at h
    by_cases h1 : k0 = k
    · rw [if_pos h1] at h
      cases h
    · rw [if_neg h1] at h
      have := ih h
      unfold qmapRemove at this ⊢
      rw [List.filter_cons_of_pos (by simp [h1]), this]

theorem qmapRemove_of_not_mem {α : Type} (m : QMap α) (k : String)
    (h : k ∉ qmapKeys m) : qmapRemove m k = m := by
  unfold qmapRemove
  rw [List.filter_eq_self]
  intro kv hkv
  have : kv.1 ≠ k := fun he => h (he ▸ List.mem_map.mpr ⟨kv, hkv, rfl⟩)
  simp [this]

theorem length_qmapRemove {α : Type} (m : QMap α) (k : String)
    (hnd : (qmapKeys m).Nodup) : m.length ≤ (qmapRemove m k).length + 1 := by
  induction m with
  | nil => simp
  | cons kv t ih =>
    obtain ⟨k0, v0⟩ := kv
    have hnd' : k0 ∉ qmapKeys t ∧ (qmapKeys t).Nodup := by
      simpa [qmapKeys] using hnd
    by_cases h1 : k0 = k
    · subst h1
      have ht := qmapRemove_of_not_mem t k0 hnd'.1
      unfold qmapRemove at ht ⊢
      rw [List.filter_cons_of_neg (by simp), ht]
      simp
    · have := ih hnd'.2
      unfold qmapRemove at this ⊢
      rw [List.filter_cons_of_pos (by simp [h1])]
      simp only [List.length_cons]
      omega

theorem firstStoredKey_some (wordChar : Char → Bool) (keyInCheck : String)
    (m : QMap indexesEntry) (key : String)
    (h : firstStoredKey wordChar keyInCheck m = some key) :
    key ∈ qmapKeys m ∧ String.mk (stripCurveIndex wordChar false key.data) = keyInCheck := by
  induction m with
  | nil => simp [firstStoredKey] at h
  | cons kv t ih =>
    obtain ⟨k0, v0⟩ := kv
    unfold firstStoredKey at h
    by_cases h1 : String.mk (stripCurveIndex wordChar false k0.data) = keyInCheck
    · rw [if_pos h1] at h
      cases h
      exact ⟨by simp [qmapKeys], h1⟩
    · rw [if_neg h1] at h
      obtain ⟨a, b⟩ := ih h
      exact ⟨by
        have : key ∈ List.map Prod.fst t := a
        simp [qmapKeys, this], b⟩

/-- The effect of `pvClearMonitor` on the tables. -/
theorem pvClearMonitor_tables (host : Host) (p : ArchiveHTTP_Plugin)
    (pv dispWAddress staleKey : String) :
    (pvClearMonitor host p pv dispWAddress staleKey).m_listOfThreads = p.m_listOfThreads
    ∧ (pvClearMonitor host p pv dispWAddress staleKey).m_IsSuspended = p.m_IsSuspended
    ∧ (pvClearMonitor host p pv dispWAddress staleKey).m_messageWindowP = p.m_messageWindowP
    ∧ (((pvClearMonitor host p pv dispWAddress staleKey).m_IndexesToUpdate
          = p.m_IndexesToUpdate
        ∧ (pvClearMonitor host p pv dispWAddress staleKey).m_retrievalPerformancePerPV
          = p.m_retrievalPerformancePerPV)
      ∨ ∃ key ∈ qmapKeys p.m_IndexesToUpdate,
          String.mk (stripCurveIndex host.wordChar false key.data) = clearedKey pv dispWAddress
          ∧ (pvClearMonitor host p pv dispWAddress staleKey).m_IndexesToUpdate
            = qmapRemove p.m_IndexesToUpdate key
          ∧ (pvClearMonitor host p pv dispWAddress staleKey).m_retrievalPerformancePerPV
            = qmapRemove p.m_retrievalPerformancePerPV staleKey) := by
  unfold pvClearMonitor
  cases hf : firstStoredKey host.wordChar (clearedKey pv dispWAddress) p.m_IndexesToUpdate with
  | none => exact ⟨rfl, rfl, rfl, Or.inl ⟨rfl, rfl⟩⟩
  | some key =>
    obtain ⟨hm, hk⟩ := firstStoredKey_some _ _ _ _ hf
    refine ⟨rfl, rfl, rfl, Or.inr ⟨key, hm, hk, rfl, ?_⟩⟩
    simp only []
    cases hc : qmapFind p.m_retrievalPerformancePerPV staleKey with
    | none =>
      rw [if_neg (by simp [qmapContains, hc]), qmapRemove_of_find_none _ _ hc]
    | some u =>
      rw [if_pos (by simp [qmapContains, hc])]

theorem submit_first (host : Host) (p : ArchiveHTTP_Plugin) (k : String) (v : indexesEntry)
    (hs : p.m_IsSuspended = false) (hp : p.m_IndexesToUpdate = [])
    (ht : p.m_listOfThreads = []) :
    (Callback_UpdateInterface host p [(k, v)]).plugin.m_IndexesToUpdate = [(k, v)]
    ∧ (Callback_UpdateInterface host p [(k, v)]).plugin.m_listOfThreads
      = [(k, WorkerHttpThread.new)]
    ∧ (Callback_UpdateInterface host p [(k, v)]).plugin.m_IsSuspended = false := by
  simp [Callback_UpdateInterface, submitEntry, hs, hp, ht, keyAlreadyPresent, qmapInsert]

theorem submit_on_empty_pending (host : Host) (p : ArchiveHTTP_Plugin) (k : String)
    (v : indexesEntry) (hs : p.m_IsSuspended = false) (hp : p.m_IndexesToUpdate = []) :
    (Callback_UpdateInterface host p [(k, v)]).plugin.m_listOfThreads
      = qmapInsert p.m_listOfThreads k WorkerHttpThread.new := by
  simp [Callback_UpdateInterface, submitEntry, hs, hp, keyAlreadyPresent]

theorem submit_flag (host : Host) (p : ArchiveHTTP_Plugin) (batch : QMap indexesEntry) :
    (Callback_UpdateInterface host p batch).plugin.m_IsSuspended = p.m_IsSuspended := by
  unfold Callback_UpdateInterface
  by_cases hs : p.m_IsSuspended = true
  · rw [if_pos hs]
  · rw [if_neg hs]
    have : ∀ (l : QMap indexesEntry) (st : Submit),
        (l.foldl (submitEntry host) st).plugin.m_IsSuspended = st.plugin.m_IsSuspended := by
      intro l
      induction l with
      | nil => intro st; rfl
      | cons e t ih =>
        intro st
        rw [List.foldl_cons, ih, (submitEntry_tables host st e).2.2]
    exact this batch _

theorem serialized_flag (host : Host) (p : ArchiveHTTP_Plugin) (h : Serialized host p) :
    p.m_IsSuspended = false := by
  induction h with
  | init => rfl
  | initCommunicationLayer p messageWindow _ ih => exact ih
  | pvClearMonitor p pv dispWAddress staleKey _ ih =>
    rw [(pvClearMonitor_tables host p pv dispWAddress staleKey).2.1]
    exact ih
  | submit p batch _ ih =>
    rw [submit_flag]
    exact ih
  | results p indexNew valueCount XVals YVals YMinVals YMaxVals backend fin _ ih =>
    rw [handleResults_plugin]
    split
    · exact ih
    · exact ih
  | abort p key retrieval _ ih => exact (abort_tables p key retrieval).2.2

/-! ## Claims on the suspension flag and on `pvClearMonitor` -/

/-- C27: the suspension flag is clear after construction, after
`Callback_AbortOutstandingRequests` from any state, and in every state reached from
the constructed one by dispatcher operations called one after the other;
`Callback_UpdateInterface` and `handleResults` leave the flag as it is; so in every
such state a submitted batch is not dropped: each of its entries is processed. -/
theorem suspension_never_observed (host : Host) (p : ArchiveHTTP_Plugin)
    (h : Serialized host p) :
    ArchiveHTTP_Plugin.new.m_IsSuspended = false
    ∧ (∀ (q : ArchiveHTTP_Plugin) (key : String) (retrieval : Bool),
        (Callback_AbortOutstandingRequests q key retrieval).1.m_IsSuspended = false)
    ∧ (∀ (q : ArchiveHTTP_Plugin) (batch : QMap indexesEntry),
        (Callback_UpdateInterface host q batch).plugin.m_IsSuspended = q.m_IsSuspended)
    ∧ (∀ (q : ArchiveHTTP_Plugin) (indexNew : indexesEntry) (valueCount : Int)
        (XVals YVals YMinVals YMaxVals : List ℚ) (backend : String) (isFinalIteration : Bool),
        (handleResults host q indexNew valueCount XVals YVals YMinVals YMaxVals backend
          isFinalIteration).plugin.m_IsSuspended = q.m_IsSuspended)
    ∧ p.m_IsSuspended = false
    ∧ ∀ batch : QMap indexesEntry,
        Callback_UpdateInterface host p batch
          = batch.foldl (submitEntry host)
              { plugin := p, index_name := "https://data-api.psi.ch/", operate := [],
                messages := [] } := by
  have hp := serialized_flag host p h
  refine ⟨rfl, fun q key retrieval => (abort_tables q key retrieval).2.2,
    fun q batch => submit_flag host q batch, ?_, hp, ?_⟩
  · intro q indexNew valueCount XVals YVals YMinVals YMaxVals backend fin
    rw [handleResults_plugin]
    split <;> rfl
  · intro batch
    unfold Callback_UpdateInterface
    rw [if_neg (by simp [hp])]

/-- C27, witness: the state after a submit and an abort; a batch submitted then
starts its worker. -/
theorem suspension_never_observed_witness :
    (Callback_UpdateInterface exampleHost
        (Callback_AbortOutstandingRequests
          (Callback_UpdateInterface exampleHost ArchiveHTTP_Plugin.new
            [("0_S10:TEMP_0x7f01", exampleEntry "0_S10:TEMP_0x7f01" 1 2)]).plugin
          "0_S10:TEMP_0x7f01" true).1
        [("2_S10:PRESSURE_0x7f01", exampleEntry "2_S10:PRESSURE_0x7f01" 5 6)]
      ).operate.map (fun o => o.key) = ["2_S10:PRESSURE_0x7f01"] :=
  (congrArg (fun st => st.operate.map (fun o => o.key))
    ((suspension_never_observed exampleHost _
      (Serialized.abort _ "0_S10:TEMP_0x7f01" true
        (Serialized.submit _ [("0_S10:TEMP_0x7f01", exampleEntry "0_S10:TEMP_0x7f01" 1 2)]
          Serialized.init))).2.2.2.2.2
      [("2_S10:PRESSURE_0x7f01", exampleEntry "2_S10:PRESSURE_0x7f01" 5 6)])).trans
    (by decide!)

/-- C28: `pvClearMonitor` leaves the worker table, the suspension flag and the
message window as they are, and either changes nothing or removes from the pending
table the entry of one key, whose text without its curve index is the cleared key
(with pairwise distinct pending keys the pending table loses at most one entry).
The performance record it removes is the one stored under the text `staleKey` read
back after the erasure: the record of every other key is kept, that of the removed
pending entry included when the read does not yield its key.  From a dispatcher with
empty tables: after the submission of `k1`, the clearing of the channel of `k1`, any
results that are not final and any aborts, and the submission of a key `k2`
different from `k1` with the same normal form, the worker table has exactly the two
keys `k1` and `k2`, so its keys no longer have pairwise different normal forms. -/
theorem pvClearMonitor_frame (host : Host) (q p : ArchiveHTTP_Plugin)
    (pv dispWAddress staleKey : String) (k1 k2 : String) (v1 v2 : indexesEntry)
    (between : List Call)
    (hnd : (qmapKeys q.m_IndexesToUpdate).Nodup)
    (hs : p.m_IsSuspended = false) (hp : p.m_IndexesToUpdate = [])
    (ht : p.m_listOfThreads = [])
    (hclear : String.mk (stripCurveIndex host.wordChar false k1.data)
      = clearedKey pv dispWAddress)
    (hn : normalizeKey host.wordChar k1 = normalizeKey host.wordChar k2) (hne : k1 ≠ k2)
    (hb : ∀ c ∈ between, c.isInterim = true) :
    ((pvClearMonitor host q pv dispWAddress staleKey).m_listOfThreads = q.m_listOfThreads
      ∧ (pvClearMonitor host q pv dispWAddress staleKey).m_IsSuspended = q.m_IsSuspended
      ∧ (pvClearMonitor host q pv dispWAddress staleKey).m_messageWindowP
        = q.m_messageWindowP
      ∧ ((pvClearMonitor host q pv dispWAddress staleKey).m_IndexesToUpdate
          = q.m_IndexesToUpdate
        ∨ ∃ key ∈ qmapKeys q.m_IndexesToUpdate,
            String.mk (stripCurveIndex host.wordChar false key.data)
              = clearedKey pv dispWAddress
            ∧ (pvClearMonitor host q pv dispWAddress staleKey).m_IndexesToUpdate
              = qmapRemove q.m_IndexesToUpdate key)
      ∧ q.m_IndexesToUpdate.length
        ≤ (pvClearMonitor host q pv dispWAddress staleKey).m_IndexesToUpdate.length + 1
      ∧ ((pvClearMonitor host q pv dispWAddress staleKey).m_retrievalPerformancePerPV
          = q.m_retrievalPerformancePerPV
        ∨ (pvClearMonitor host q pv dispWAddress staleKey).m_retrievalPerformancePerPV
          = qmapRemove q.m_retrievalPerformancePerPV staleKey)
      ∧ ∀ k, k ≠ staleKey →
          qmapFind (pvClearMonitor host q pv dispWAddress staleKey).m_retrievalPerformancePerPV
            k = qmapFind q.m_retrievalPerformancePerPV k)
    ∧ ((qmapKeys (Callback_UpdateInterface host
          (runCalls host
            (pvClearMonitor host (Callback_UpdateInterface host p [(k1, v1)]).plugin pv
              dispWAddress staleKey) between)
          [(k2, v2)]).plugin.m_listOfThreads = [k1, k2]
        ∨ qmapKeys (Callback_UpdateInterface host
          (runCalls host
            (pvClearMonitor host (Callback_UpdateInterface host p [(k1, v1)]).plugin pv
              dispWAddress staleKey) between)
          [(k2, v2)]).plugin.m_listOfThreads = [k2, k1])
      ∧ ¬ (qmapKeys (Callback_UpdateInterface host
          (runCalls host
            (pvClearMonitor host (Callback_UpdateInterface host p [(k1, v1)]).plugin pv
              dispWAddress staleKey) between)
          [(k2, v2)]).plugin.m_listOfThreads).Pairwise
            (fun a b => normalizeKey host.wordChar a ≠ normalizeKey host.wordChar b)) := by
  constructor
  · obtain ⟨a1, a2, a3, a4⟩ := pvClearMonitor_tables host q pv dispWAddress staleKey
    refine ⟨a1, a2, a3, ?_, ?_, ?_, ?_⟩
    · rcases a4 with ⟨e, _⟩ | ⟨key, hk, hk', e, _⟩
      · exact Or.inl e
      · exact Or.inr ⟨key, hk, hk', e⟩
    · rcases a4 with ⟨e, _⟩ | ⟨key, _, _, e, _⟩
      · rw [e]
        omega
      · rw [e]
        exact length_qmapRemove _ _ hnd
    · rcases a4 with ⟨_, e⟩ | ⟨key, _, _, _, e⟩
      · exact Or.inl e
      · exact Or.inr e
    · intro k hk
      rcases a4 with ⟨_, e⟩ | ⟨key, _, _, _, e⟩
      · rw [e]
      · rw [e]
        exact qmapFind_remove_ne _ _ _ (fun h => hk h.symm)
  · obtain ⟨f1, f2, f3⟩ := submit_first host p k1 v1 hs hp ht
    have hc : pvClearMonitor host (Callback_UpdateInterface host p [(k1, v1)]).plugin pv
        dispWAddress staleKey
        = { (Callback_UpdateInterface host p [(k1, v1)]).plugin with
            m_IndexesToUpdate := qmapRemove [(k1, v1)] k1
            m_retrievalPerformancePerPV :=
              if qmapContains (Callback_UpdateInterface host p
                  [(k1, v1)]).plugin.m_retrievalPerformancePerPV staleKey = true then
                qmapRemove (Callback_UpdateInterface host p
                  [(k1, v1)]).plugin.m_retrievalPerformancePerPV staleKey
              else (Callback_UpdateInterface host p
                  [(k1, v1)]).plugin.m_retrievalPerformancePerPV } := by
      unfold pvClearMonitor
      rw [f1]
      simp only [firstStoredKey, hclear, if_true]
    obtain ⟨g1, g2, g3⟩ := interim_run host between
      (pvClearMonitor host (Callback_UpdateInterface host p [(k1, v1)]).plugin pv
        dispWAddress staleKey) hb
    have g1' : (runCalls host
        (pvClearMonitor host (Callback_UpdateInterface host p [(k1, v1)]).plugin pv
          dispWAddress staleKey) between).m_IndexesToUpdate = [] := by
      rw [g1, hc]
      simp [qmapRemove]
    have g2' : qmapKeys (runCalls host
        (pvClearMonitor host (Callback_UpdateInterface host p [(k1, v1)]).plugin pv
          dispWAddress staleKey) between).m_listOfThreads = [k1] := by
      rw [g2, hc]
      simp only []
      rw [f2]
      rfl
    have g3' := g3 (by rw [hc]; exact f3)
    rw [submit_on_empty_pending host _ k2 v2 g3' g1']
    have hkeys : ∀ (m : QMap WorkerHttpThread), qmapKeys m = [k1] →
        qmapKeys (qmapInsert m k2 WorkerHttpThread.new) = [k1, k2]
        ∨ qmapKeys (qmapInsert m k2 WorkerHttpThread.new) = [k2, k1] := by
      intro m hm
      match m, hm with
      | [(k0, t0)], hm =>
        have hk0 : k0 = k1 := by simpa [qmapKeys] using hm
        subst hk0
        unfold qmapInsert
        by_cases hlt : k2 < k0
        · rw [if_pos hlt]
          exact Or.inr rfl
        · rw [if_neg hlt, if_neg (fun h => hne h.symm)]
          exact Or.inl rfl
    have hk := hkeys _ g2'
    refine ⟨hk, ?_⟩
    rcases hk with e | e
    · rw [e]
      intro hpw
      exact (List.pairwise_cons.mp hpw).1 k2 (by simp) hn
    · rw [e]
      intro hpw
      exact (List.pairwise_cons.mp hpw).1 k1 (by simp) hn.symm

/-- C28, witness: the key of curve slot 0 of the channel `S10:TEMP` is submitted and
its monitor `S10:TEMP.X` of the same widget is cleared, the read after the erasure
yielding the empty text: the performance record of the key is still there; then the
worker is aborted and the key of curve slot 1 is submitted: both keys have a
worker. -/
theorem pvClearMonitor_frame_witness :
    qmapFind (pvClearMonitor exampleHost
        (Callback_UpdateInterface exampleHost ArchiveHTTP_Plugin.new
          [("0_S10:TEMP_0x7f01", exampleEntry "0_S10:TEMP_0x7f01" 1 2)]).plugin
        "S10:TEMP.X" "0x7f01" "").m_retrievalPerformancePerPV "0_S10:TEMP_0x7f01" = some ()
    ∧ qmapKeys (pvClearMonitor exampleHost
        (Callback_UpdateInterface exampleHost ArchiveHTTP_Plugin.new
          [("0_S10:TEMP_0x7f01", exampleEntry "0_S10:TEMP_0x7f01" 1 2)]).plugin
        "S10:TEMP.X" "0x7f01" "").m_IndexesToUpdate = []
    ∧ qmapKeys (Callback_UpdateInterface exampleHost
        (runCalls exampleHost
          (pvClearMonitor exampleHost
            (Callback_UpdateInterface exampleHost ArchiveHTTP_Plugin.new
              [("0_S10:TEMP_0x7f01", exampleEntry "0_S10:TEMP_0x7f01" 1 2)]).plugin
            "S10:TEMP.X" "0x7f01" "")
          [Call.abort "0_S10:TEMP_0x7f01" true])
        [("1_S10:TEMP_0x7f01", exampleEntry "1_S10:TEMP_0x7f01" 3 4)]).plugin.m_listOfThreads
      = ["0_S10:TEMP_0x7f01", "1_S10:TEMP_0x7f01"] :=
  have h := pvClearMonitor_frame exampleHost
    (Callback_UpdateInterface exampleHost ArchiveHTTP_Plugin.new
      [("0_S10:TEMP_0x7f01", exampleEntry "0_S10:TEMP_0x7f01" 1 2)]).plugin
    ArchiveHTTP_Plugin.new "S10:TEMP.X" "0x7f01" "" "0_S10:TEMP_0x7f01" "1_S10:TEMP_0x7f01"
    (exampleEntry "0_S10:TEMP_0x7f01" 1 2) (exampleEntry "1_S10:TEMP_0x7f01" 3 4)
    [Call.abort "0_S10:TEMP_0x7f01" true]
    (by decide!) rfl rfl rfl (by decide!) (by decide!) (by decide!)
    (fun c hc => by
      rw [List.mem_singleton] at hc
      subst hc
      rfl)
  ⟨(h.1.2.2.2.2.2.2 "0_S10:TEMP_0x7f01" (by decide)).trans (by decide!), by decide!,
    h.2.1.resolve_right (by decide!)⟩

/-! ## Empty body, and the bounds of the parser loop -/

theorem payload_nil (env : Env) : payload env [] = [] := by
  unfold payload
  rw [gUncompress_short _ _ (by simp)]
  rfl

theorem finishReply_empty (env : Env) (s : HttpRetrieval) (reply : QNetworkReply)
    (hab : s.m_isAborted = false) (hst : reply.status = 200)
    (herr : reply.error = NetworkError.NoError) (hbody : reply.body = []) :
    finishReply env s reply
      = some { s.downloadFinished with
          m_errorString := s.m_errorString ++ "\n HTTP response was empty \n" } := by
  have hred : isRedirectStatus reply.status = false := by rw [hst]; rfl
  have h200 : ¬ reply.status ≠ 200 := by simp [hst]
  have herr' : ¬ reply.error ≠ NetworkError.NoError := by simp [herr]
  unfold finishReply
  rw [if_neg (by simp [hab]), if_neg (by simp [hred]), if_neg h200, if_neg herr', hbody]
  simp only [payload_nil]
  rfl

theorem loopInv_init (seconds : ℚ) (secondsPast : Int) (abs : Bool) (n : Nat)
    (x0 y0 : List ℚ) :
    LoopInv seconds secondsPast abs n (resize y0 n) []
      { vecX := resize x0 n, vecY := resize y0 n, count := 0 } := by
  have hres : ∀ (v : List ℚ) (m : Nat), (resize v m).length = m := by
    intro v m
    simp only [resize, List.length_append, List.length_take, List.length_replicate]
    omega
  refine ⟨hres _ _, hres _ _, by simp [keep], by simp [keep], ?_, ?_⟩
  · intro _; simp [keep]
  · intro _; rfl

/-- The state of the loop when it reaches index `i`, and the iteration made there:
both exist, the counter is at most `i` before and at most `i + 1` after, and the
vectors keep their size. -/
theorem fillLoop_prefix (seconds : ℚ) (secondsPast : Int) (isBinned abs : Bool)
    (rootObject : List (String × QJsonValue)) (ValueJson : QJsonValue) (x0 y0 : List ℚ)
    (i : Nat) (hi : i < ValueJson.toArray.length) :
    ∃ st, (List.range i).foldlM
        (fun st j => loopBody seconds secondsPast isBinned abs rootObject ValueJson j st)
        { vecX := resize x0 ValueJson.toArray.length,
          vecY := resize y0 ValueJson.toArray.length, count := 0 } = some st
      ∧ st.count ≤ i ∧ st.vecX.length = ValueJson.toArray.length
      ∧ st.vecY.length = ValueJson.toArray.length
      ∧ ∃ st', loopBody seconds secondsPast isBinned abs rootObject ValueJson i st = some st'
        ∧ st'.count ≤ i + 1 ∧ st'.vecX.length = ValueJson.toArray.length
        ∧ st'.vecY.length = ValueJson.toArray.length := by
  obtain ⟨st, hst, hinv⟩ := foldlM_storeSample seconds secondsPast abs ValueJson.toArray.length
    (resize y0 ValueJson.toArray.length)
    (fun j => (archiveTimeAt isBinned rootObject j,
      sampleMean (ValueJson.at 0).isDouble (ValueJson.at j)))
    (List.range i) [] _ (loopInv_init seconds secondsPast abs _ x0 y0)
    (by simp; omega)
  have hlen : ([] ++ (List.range i).map (fun j => (archiveTimeAt isBinned rootObject j,
      sampleMean (ValueJson.at 0).isDouble (ValueJson.at j)))).length = i := by simp
  obtain ⟨st', hst', hinv'⟩ := storeSample_step seconds secondsPast abs
    ValueJson.toArray.length (resize y0 ValueJson.toArray.length) _ st
    (archiveTimeAt isBinned rootObject i)
    (sampleMean (ValueJson.at 0).isDouble (ValueJson.at i)) hinv (by rw [hlen]; exact hi)
  have hc : st.count ≤ i := by
    have h1 := hinv.2.2.1
    have h2 := keep_length_le seconds secondsPast
      ([] ++ (List.range i).map (fun j => (archiveTimeAt isBinned rootObject j,
        sampleMean (ValueJson.at 0).isDouble (ValueJson.at j))))
    omega
  have hc' : st'.count ≤ i + 1 := by
    have h1 := hinv'.2.2.1
    have h2 := keep_length_le seconds secondsPast
      (([] ++ (List.range i).map (fun j => (archiveTimeAt isBinned rootObject j,
        sampleMean (ValueJson.at 0).isDouble (ValueJson.at j))))
        ++ [(archiveTimeAt isBinned rootObject i,
          sampleMean (ValueJson.at 0).isDouble (ValueJson.at i))])
    rw [List.length_append, hlen] at h2
    simp only [List.length_singleton] at h2
    omega
  exact ⟨st, hst, hc, hinv.1, hinv.2.1, st', hst', hc', hinv'.1, hinv'.2.1⟩

/-! ## Claims on the empty body and on the bounds of the parser loop -/

/-- C25: a request whose first reply has status 200, no transport error and an empty
body ends with `requestUrl` returning `false`, zero points, the output vectors as
they were, and an error string that is the note `HTTP response was empty` (between
line breaks), whatever zlib and the parser would do. -/
theorem requestUrl_empty_body (env : Env) (s : HttpRetrieval) (url backend : String)
    (secondsPast : Int) (binned timeAxis : Bool) (key : String) (reply : QNetworkReply)
    (rest : List Event)
    (hst : reply.status = 200) (herr : reply.error = NetworkError.NoError)
    (hbody : reply.body = []) :
    ∃ s', requestUrl env s url backend secondsPast binned timeAxis key
        (Event.reply reply :: rest) = some (s', false)
      ∧ s'.getCount = 0
      ∧ s'.lastError = "\n HTTP response was empty \n"
      ∧ containsText s'.lastError "HTTP response was empty" = true
      ∧ s'.getData = s.getData := by
  have hd : dispatch env (armed s url backend secondsPast binned timeAxis key)
      (Event.reply reply)
      = some { (armed s url backend secondsPast binned timeAxis key).downloadFinished with
          m_errorString := (armed s url backend secondsPast binned timeAxis key).m_errorString
            ++ "\n HTTP response was empty \n" } :=
    finishReply_empty env _ reply rfl hst herr hbody
  refine ⟨_, requestUrl_first env s _ url backend secondsPast binned timeAxis key
    (Event.reply reply) rest hd rfl, rfl, ?_, ?_, rfl⟩
  · show ("" ++ "\n HTTP response was empty \n" : String) = "\n HTTP response was empty \n"
    decide
  · show containsText ("" ++ "\n HTTP response was empty \n") "HTTP response was empty" = true
    decide

/-- C25, witness: the example reply with status 200 and its body emptied. -/
theorem requestUrl_empty_body_witness :
    ∃ s', requestUrl (exampleEnv exampleDoc) HttpRetrieval.new "http://archive/" "" 3600 false
        true "pv" [Event.reply { exampleReply 200 NetworkError.NoError with body := [] }]
        = some (s', false)
      ∧ s'.getCount = 0
      ∧ s'.lastError = "\n HTTP response was empty \n" :=
  (requestUrl_empty_body (exampleEnv exampleDoc) HttpRetrieval.new "http://archive/" "" 3600
    false true "pv" { exampleReply 200 NetworkError.NoError with body := [] } [] rfl rfl rfl).imp
    (fun _ h => ⟨h.1, h.2.1, h.2.2.1⟩)

/-- C29: for every successfully parsed flat-schema response whose selected value
array has `n` elements: for each index `i < n` the loop reaches iteration `i` (no
earlier write is out of bounds) with `count ≤ i` and both output vectors of size
`n`, and iteration `i` itself succeeds, leaving `count ≤ i + 1` and the sizes
unchanged; and `finishReply` returns with `0 ≤ getCount ≤ n` and both output vectors
of size `n`. -/
theorem fillLoop_in_bounds (env : Env) (s : HttpRetrieval) (reply : QNetworkReply)
    (doc : QJsonValue) (hab : s.m_isAborted = false) (hp : Parses env reply doc) :
    (∀ i, i < (selectValues s.m_isBinned s.m_PV doc.toObject).toArray.length →
      ∃ st, (List.range i).foldlM
          (fun st j => loopBody env.now.seconds s.m_secondsPast s.m_isBinned
            s.m_isAbsoluteTimeAxis doc.toObject
            (selectValues s.m_isBinned s.m_PV doc.toObject) j st)
          { vecX := resize s.m_vecX
              (selectValues s.m_isBinned s.m_PV doc.toObject).toArray.length,
            vecY := resize s.m_vecY
              (selectValues s.m_isBinned s.m_PV doc.toObject).toArray.length,
            count := 0 } = some st
        ∧ st.count ≤ i
        ∧ st.vecX.length = (selectValues s.m_isBinned s.m_PV doc.toObject).toArray.length
        ∧ st.vecY.length = (selectValues s.m_isBinned s.m_PV doc.toObject).toArray.length
        ∧ ∃ st', loopBody env.now.seconds s.m_secondsPast s.m_isBinned
            s.m_isAbsoluteTimeAxis doc.toObject
            (selectValues s.m_isBinned s.m_PV doc.toObject) i st = some st'
          ∧ st'.count ≤ i + 1
          ∧ st'.vecX.length = (selectValues s.m_isBinned s.m_PV doc.toObject).toArray.length
          ∧ st'.vecY.length
            = (selectValues s.m_isBinned s.m_PV doc.toObject).toArray.length)
    ∧ ∃ s', finishReply env s reply = some s'
      ∧ 0 ≤ s'.getCount
      ∧ s'.getCount
        ≤ ((selectValues s.m_isBinned s.m_PV doc.toObject).toArray.length : Int)
      ∧ s'.m_vecX.length = (selectValues s.m_isBinned s.m_PV doc.toObject).toArray.length
      ∧ s'.m_vecY.length
        = (selectValues s.m_isBinned s.m_PV doc.toObject).toArray.length := by
  constructor
  · intro i hi
    exact fillLoop_prefix env.now.seconds s.m_secondsPast s.m_isBinned s.m_isAbsoluteTimeAxis
      doc.toObject (selectValues s.m_isBinned s.m_PV doc.toObject) s.m_vecX s.m_vecY i hi
  · obtain ⟨s', st, hs', hx, hy, hcnt, _, _, _, hinv⟩ :=
      finishReply_samples env s reply doc hab hp
    obtain ⟨lx, ly, hc, _, _, _⟩ := hinv
    have hk := keep_length_le env.now.seconds s.m_secondsPast
      (samples s.m_isBinned doc.toObject (selectValues s.m_isBinned s.m_PV doc.toObject))
    have hsl : (samples s.m_isBinned doc.toObject
        (selectValues s.m_isBinned s.m_PV doc.toObject)).length
        = (selectValues s.m_isBinned s.m_PV doc.toObject).toArray.length := by
      simp [samples]
    refine ⟨s', hs', ?_, ?_, by rw [hx]; exact lx, by rw [hy]; exact ly⟩
    · simp only [HttpRetrieval.getCount, hcnt]
      exact Int.natCast_nonneg _
    · simp only [HttpRetrieval.getCount, hcnt]
      have : st.count ≤ (selectValues s.m_isBinned s.m_PV doc.toObject).toArray.length := by
        omega
      exact_mod_cast this

/-- C29, witness: the three-sample response in absolute mode ends with at most three
points in vectors of size three. -/
theorem fillLoop_in_bounds_witness :
    ∃ s', finishReply (exampleEnv exampleDoc) (exampleState true)
        (exampleReply 200 NetworkError.NoError) = some s'
      ∧ s'.getCount ≤ 3 ∧ s'.m_vecX.length = 3 ∧ s'.m_vecY.length = 3 :=
  (fillLoop_in_bounds (exampleEnv exampleDoc) (exampleState true)
    (exampleReply 200 NetworkError.NoError) exampleDoc rfl (parses_example 200 rfl)).2.imp
    (fun _ h => ⟨h.1, le_of_le_of_eq h.2.2.1 (by decide), h.2.2.2.1.trans (by decide),
      h.2.2.2.2.trans (by decide)⟩)

end CaQtDM
